import Mathlib

/-!
# proto2json: the Base64 codec of `src/base64.cc`

A shallow embedding of `util::Base64Encode` and `util::Base64Decode` together with
the helpers and macros they are built from, followed by theorems about them.

Conventions of the embedding.

* A byte of memory is a `Nat` below 256.  A buffer is the list of its bytes.
* An input pointer is the list of the bytes from the pointer up to the end of
  the caller's buffer: `input[k]` is `load input k`, `input += k` is
  `input.drop k`, and a read past the end of the buffer is the fault
  `Fault.inputRead`.
* The output `std::string` is the list of its bytes; the raw pointer `buf`
  into it is the pair of that list and an offset `op`.
* The C type `int` is 32-bit two's complement and is kept as its bit pattern,
  a `Nat` below `2 ^ 32`; `char` is signed (GCC on Intel, the platform the
  source is written for), `unsigned char` is not.
* Undefined behaviour (a read or write outside an object) and a failed
  `assert` are results of their own: every function returns `Except Fault _`.
* The `int` loop counters `length / 12`, `length / 3` and `length / 8` are
  taken as the exact quotients, which they are while the quotient is below
  `2 ^ 31`; a theorem about inputs of any length carries that bound on the
  length.  The one larger length that occurs, the wrapped `length - 3` of the
  residue-1 path of `Base64Encode` on fewer than three bytes, gives a positive
  counter in C (`0x55555555`) and here alike, and the first iteration leaves
  the output string.
-/

namespace Base64

/-! ## Faults -/

/-- What the C program does outside its defined behaviour. -/
inductive Fault
  /-- a read of `input[i]` past the end of the input buffer -/
  | inputRead
  /-- an index outside the 64 entries of `kB64EncodeChar` -/
  | encodeTable
  /-- an index outside the entries of `kB64DecodeChar` -/
  | decodeTable
  /-- a write outside the output string -/
  | outputWrite
  /-- a failed `assert` -/
  | assertion
  /-- control reached `UNREACHABLE()` -/
  | unreachable
  deriving DecidableEq

deriving instance DecidableEq for Except

/-! ## Machine arithmetic -/

/-- The bit pattern of the `int` obtained from a `char` holding the byte `b`
(sign extension: `char` is signed). -/
def charToInt (b : Nat) : Nat :=
  if b < 128 then b else b + (2 ^ 32 - 256)

/-- The `int` obtained from an `unsigned char` holding the byte `b`. -/
def ucharToInt (b : Nat) : Nat := b

/-- Left shift `x << k` on `int`. -/
def shl (x k : Nat) : Nat := (x <<< k) % 2 ^ 32

/-- Right shift `x >> k` on `int`: the arithmetic shift, which keeps the sign. -/
def sar (x k : Nat) : Nat :=
  if x < 2 ^ 31 then x >>> k else 2 ^ 32 - 1 - ((2 ^ 32 - 1 - x) >>> k)

/-- The byte stored when an `int` is assigned to a `char`. -/
def toByte (x : Nat) : Nat := x % 256

/-- The text of a string literal as bytes. -/
def ascii (s : String) : List Nat := s.toList.map Char.toNat

/-! ## Memory -/

/-- The read `input[i]`. -/
def load (input : List Nat) (i : Nat) : Except Fault Nat :=
  match input[i]? with
  | some b => .ok b
  | none => .error .inputRead

/-- The write `buf[i] = v` on the output string. -/
def store (out : List Nat) (i : Nat) (v : Nat) : Except Fault (List Nat) :=
  if i < out.length then .ok (out.set i v) else .error .outputWrite

/-- The call `std::string::resize(n)`: keeps the first `n` bytes, pads with
`'\0'`. -/
def resize (out : List Nat) (n : Nat) : List Nat :=
  out.take n ++ List.replicate (n - out.length) 0

/-- The statement `assert(c)`. -/
def assert (c : Bool) : Except Fault Unit :=
  if c then .ok () else .error .assertion

/-! ## Encoding -/

/-- The macro `ENCODE_SIZE(I)`, defined as `(4*((I+2)/3))`. -/
def ENCODE_SIZE (I : Nat) : Nat := 4 * ((I + 2) / 3)

/-- The forward table, 64 entries. -/
def kB64EncodeChar : List Char := [
    'A','B','C','D','E','F',
    'G','H','I','J','K','L',
    'M','N','O','P','Q','R',
    'S','T','U','V','W','X',
    'Y','Z',
    'a','b','c','d','e','f',
    'g','h','i','j','k','l',
    'm','n','o','p','q','r',
    's','t','u','v','w','x',
    'y','z',
    '0','1','2','3','4','5',
    '6','7','8','9','+','/'
]

/-- The lookup `kB64EncodeChar[i]` for an `int` index `i` (a negative `i` has a bit
pattern of at least `2 ^ 31`, which is outside the table as well). -/
def encodeChar (i : Nat) : Except Fault Nat :=
  match kB64EncodeChar[i]? with
  | some c => .ok c.toNat
  | none => .error .encodeTable

/-- The macro `ENCODE_UNIT(B1,B2,B3,O,OFF)`; the pointer `O` is `(out, op)`. -/
def ENCODE_UNIT (B1 B2 B3 : Nat) (out : List Nat) (op OFF : Nat) :
    Except Fault (List Nat) := do
  let b1 := charToInt B1
  let b2 := charToInt B2
  let b3 := charToInt B3
  let idx1 := shl b1 4 ||| sar b2 4
  let idx2 := shl b2 2 ||| sar b3 6
  let out ← store out (op + OFF) (← encodeChar (sar b1 2))
  let out ← store out (op + (1 + OFF)) (← encodeChar (idx1 &&& 63))
  let out ← store out (op + (2 + OFF)) (← encodeChar (idx2 &&& 63))
  store out (op + (3 + OFF)) (← encodeChar (b3 &&& 63))

/-- The macro `FINALIZE_ENCODE1(B1,O,OFF)`. -/
def FINALIZE_ENCODE1 (B1 : Nat) (out : List Nat) (op OFF : Nat) :
    Except Fault (List Nat) := do
  let b1 := charToInt B1
  let b2 := charToInt 0
  let out ← store out (op + OFF) (← encodeChar (sar b1 2))
  let out ← store out (op + (1 + OFF)) (← encodeChar (shl (b1 &&& 3) 4 ||| sar b2 4))
  let out ← store out (op + (2 + OFF)) '='.toNat
  store out (op + (3 + OFF)) '='.toNat

/-- The macro `FINALIZE_ENCODE2(B1,B2,O,OFF)`. -/
def FINALIZE_ENCODE2 (B1 B2 : Nat) (out : List Nat) (op OFF : Nat) :
    Except Fault (List Nat) := do
  let b1 := charToInt B1
  let b2 := charToInt B2
  let b3 := charToInt 0
  let out ← store out (op + OFF) (← encodeChar (sar b1 2))
  let out ← store out (op + (1 + OFF)) (← encodeChar (shl (b1 &&& 3) 4 ||| sar b2 4))
  let out ← store out (op + (2 + OFF)) (← encodeChar (shl (b2 &&& 15) 2 ||| sar b3 6))
  store out (op + (3 + OFF)) '='.toNat

/-- The loop of `Base64EncodingSlowPath`, `loops` iterations; returns the
input pointer, the output string and the offset of `buf` after the loop. -/
def slowEncodeLoop : Nat → List Nat → List Nat → Nat →
    Except Fault (List Nat × List Nat × Nat)
  | 0, input, out, op => .ok (input, out, op)
  | loops + 1, input, out, op => do
      let x0 ← load input 0
      let x1 ← load input 1
      let x2 ← load input 2
      let out ← ENCODE_UNIT x0 x1 x2 out op 0
      slowEncodeLoop loops (input.drop 3) out (op + 4)

/-- Source: `void Base64EncodingSlowPath(const char* input, std::size_t length,
std::string* output)`; returns the output string.  The counter
`int loops = length / 3` is the quotient, its value for `length < 3 * 2 ^ 31`. -/
def Base64EncodingSlowPath (input : List Nat) (length : Nat) (output : List Nat) :
    Except Fault (List Nat) := do
  let loops := length / 3
  let output := resize output (ENCODE_SIZE length)
  let (input, output, op) ← slowEncodeLoop loops input output 0
  let left := length % 3
  match left with
  | 0 => .ok output
  | 1 => do
      let x0 ← load input 0
      FINALIZE_ENCODE1 x0 output op 0
  | 2 => do
      let x0 ← load input 0
      let x1 ← load input 1
      FINALIZE_ENCODE2 x0 x1 output op 0
  | _ => .error .unreachable

/-- The macro `ENCODE3(O,A)` of the fast path: `ENCODE_UNIT` on
`input[O]`, `input[O+1]`, `input[O+2]`, written at `output + A`. -/
def ENCODE3 (input out : List Nat) (op O A : Nat) : Except Fault (List Nat) := do
  let x0 ← load input O
  let x1 ← load input (O + 1)
  let x2 ← load input (O + 2)
  ENCODE_UNIT x0 x1 x2 out op A

/-- The macro `FINALIZE2(B1,B2,O)` of the fast path. -/
def FINALIZE2 (B1 B2 : Nat) (out : List Nat) (op O : Nat) : Except Fault (List Nat) :=
  FINALIZE_ENCODE2 B1 B2 out op O

/-- The macro `FINALIZE1(B1,O)` of the fast path. -/
def FINALIZE1 (B1 : Nat) (out : List Nat) (op O : Nat) : Except Fault (List Nat) :=
  FINALIZE_ENCODE1 B1 out op O

/-- One iteration of the 12-byte loop of `Base64EncodingFastPath`: the body up
to, and not including, `output += 16; input += 12`.  The eight bytes of `b8`
and the four of `b4` are read through `unsigned char byte[]`. -/
def fastEncodeBody (input out : List Nat) (op : Nat) : Except Fault (List Nat) := do
  let b8_0 := ucharToInt (← load input 0)
  let b8_1 := ucharToInt (← load input 1)
  let b8_2 := ucharToInt (← load input 2)
  let b8_3 := ucharToInt (← load input 3)
  let b8_4 := ucharToInt (← load input 4)
  let b8_5 := ucharToInt (← load input 5)
  let b8_6 := ucharToInt (← load input 6)
  let b8_7 := ucharToInt (← load input 7)
  let b4_0 := ucharToInt (← load input 8)
  let b4_1 := ucharToInt (← load input 9)
  let b4_2 := ucharToInt (← load input 10)
  let b4_3 := ucharToInt (← load input 11)
  let idx1 := shl b8_0 4 ||| sar b8_1 4
  let idx2 := shl b8_1 2 ||| sar b8_2 6
  let idx3 := shl b8_3 4 ||| sar b8_4 4
  let idx4 := shl b8_4 2 ||| sar b8_5 6
  let out ← store out (op + 0) (← encodeChar (sar b8_0 2))
  let out ← store out (op + 1) (← encodeChar (idx1 &&& 63))
  let out ← store out (op + 2) (← encodeChar (idx2 &&& 63))
  let out ← store out (op + 3) (← encodeChar (b8_2 &&& 63))
  let out ← store out (op + 4) (← encodeChar (sar b8_3 2))
  let out ← store out (op + 5) (← encodeChar (idx3 &&& 63))
  let out ← store out (op + 6) (← encodeChar (idx4 &&& 63))
  let idx5 := shl b8_6 4 ||| sar b8_7 4
  let idx6 := shl b8_7 2 ||| sar b4_0 6
  let idx7 := shl b4_1 4 ||| sar b4_2 4
  let idx8 := shl b4_2 2 ||| sar b4_3 6
  let out ← store out (op + 11) (← encodeChar (b4_0 &&& 63))
  let out ← store out (op + 7) (← encodeChar (b8_5 &&& 63))
  let out ← store out (op + 8) (← encodeChar (sar b8_6 2))
  let out ← store out (op + 9) (← encodeChar (idx5 &&& 63))
  let out ← store out (op + 10) (← encodeChar (idx6 &&& 63))
  let out ← store out (op + 12) (← encodeChar (sar b4_1 2))
  let out ← store out (op + 15) (← encodeChar (b4_3 &&& 63))
  let out ← store out (op + 13) (← encodeChar (idx7 &&& 63))
  store out (op + 14) (← encodeChar (idx8 &&& 63))

/-- The sixteen assignments `output[k] = kB64EncodeChar[i]` of one iteration of
the 12-byte loop of `Base64EncodingFastPath`, in the order of the source:
each the offset `k` and the index `i`, from the bytes `b8.byte[0..7]` and
`b4.byte[0..3]`. -/
def fastEncodeStores (b8_0 b8_1 b8_2 b8_3 b8_4 b8_5 b8_6 b8_7 b4_0 b4_1 b4_2 b4_3 : Nat) :
    List (Nat × Nat) :=
  let idx1 := shl b8_0 4 ||| sar b8_1 4
  let idx2 := shl b8_1 2 ||| sar b8_2 6
  let idx3 := shl b8_3 4 ||| sar b8_4 4
  let idx4 := shl b8_4 2 ||| sar b8_5 6
  let idx5 := shl b8_6 4 ||| sar b8_7 4
  let idx6 := shl b8_7 2 ||| sar b4_0 6
  let idx7 := shl b4_1 4 ||| sar b4_2 4
  let idx8 := shl b4_2 2 ||| sar b4_3 6
  [(0, sar b8_0 2), (1, idx1 &&& 63), (2, idx2 &&& 63), (3, b8_2 &&& 63),
    (4, sar b8_3 2), (5, idx3 &&& 63), (6, idx4 &&& 63),
    (11, b4_0 &&& 63), (7, b8_5 &&& 63), (8, sar b8_6 2), (9, idx5 &&& 63),
    (10, idx6 &&& 63), (12, sar b4_1 2), (15, b4_3 &&& 63), (13, idx7 &&& 63),
    (14, idx8 &&& 63)]

/-- The assignment `output[k] = kB64EncodeChar[i]` for a pair `(k, i)`. -/
def storeChar (op : Nat) (out : List Nat) (w : Nat × Nat) : Except Fault (List Nat) := do
  store out (op + w.1) (← encodeChar w.2)

/-- The loop of `Base64EncodingFastPath`, `loops` iterations; returns the
input pointer, the output string and the offset of `output` after the loop. -/
def fastEncodeLoop : Nat → List Nat → List Nat → Nat →
    Except Fault (List Nat × List Nat × Nat)
  | 0, input, out, op => .ok (input, out, op)
  | loops + 1, input, out, op => do
      let out ← fastEncodeBody input out op
      fastEncodeLoop loops (input.drop 12) out (op + 16)

/-- The `switch(left)` that ends `Base64EncodingFastPath`, on the pointers
`input` and `output` as the loop left them. -/
def fastEncodeTail (left : Nat) (input out : List Nat) (op : Nat) :
    Except Fault (List Nat) :=
  match left with
  | 11 => do
      let out ← ENCODE3 input out op 0 0
      let out ← ENCODE3 input out op 3 4
      let out ← ENCODE3 input out op 6 8
      FINALIZE2 (← load input 9) (← load input 10) out op 12
  | 10 => do
      let out ← ENCODE3 input out op 0 0
      let out ← ENCODE3 input out op 3 4
      let out ← ENCODE3 input out op 6 8
      FINALIZE1 (← load input 9) out op 12
  | 9 => do
      let out ← ENCODE3 input out op 0 0
      let out ← ENCODE3 input out op 3 4
      ENCODE3 input out op 6 8
  | 8 => do
      let out ← ENCODE3 input out op 0 0
      let out ← ENCODE3 input out op 3 4
      FINALIZE2 (← load input 6) (← load input 7) out op 8
  | 7 => do
      let out ← ENCODE3 input out op 0 0
      let out ← ENCODE3 input out op 3 4
      FINALIZE1 (← load input 6) out op 8
  | 6 => do
      let out ← ENCODE3 input out op 0 0
      ENCODE3 input out op 3 4
  | 5 => do
      let out ← ENCODE3 input out op 0 0
      FINALIZE2 (← load input 3) (← load input 4) out op 4
  | 4 => do
      let out ← ENCODE3 input out op 0 0
      FINALIZE1 (← load input 3) out op 4
  | 3 => ENCODE3 input out op 0 0
  | 2 => do FINALIZE2 (← load input 0) (← load input 1) out op 0
  | 1 => do FINALIZE1 (← load input 0) out op 0
  | 0 => .ok out
  | _ => .error .unreachable

/-- Source: `void Base64EncodingFastPath(const char* input, std::size_t length,
char* output)`; the pointer `output` is `(out, op)`; returns the output
string.  The counter `int loops = length / 12` is the quotient, its value for
`length < 12 * 2 ^ 31`. -/
def Base64EncodingFastPath (input : List Nat) (length : Nat) (out : List Nat) (op : Nat) :
    Except Fault (List Nat) := do
  let loops := length / 12
  let (input, out, op) ← fastEncodeLoop loops input out op
  let left := length % 12
  fastEncodeTail left input out op

/-- Source: `void util::Base64Encode(const char* input, std::size_t length,
std::string* output)`, with `addr` the address held by `input`; returns the
output string.  `std::size_t` has 64 bits: `length -= 3` wraps. -/
def Base64Encode (addr : Nat) (input : List Nat) (length : Nat) (output : List Nat) :
    Except Fault (List Nat) := do
  let bits := addr &&& 3
  assert (decide (length > 0))
  match bits with
  | 0 => do
      let output := resize output (ENCODE_SIZE length)
      Base64EncodingFastPath input length output 0
  | 1 => do
      let output := resize output (ENCODE_SIZE length)
      let x0 ← load input 0
      let x1 ← load input 1
      let x2 ← load input 2
      let output ← ENCODE_UNIT x0 x1 x2 output 0 0
      Base64EncodingFastPath (input.drop 3) ((length + 2 ^ 64 - 3) % 2 ^ 64) output 4
  | 2 => Base64EncodingSlowPath input length output
  | 3 => Base64EncodingSlowPath input length output
  | _ => .error .unreachable

/-! ## Decoding -/

/-- The reverse table, as written in the source: 255 entries. -/
def kB64DecodeChar : List Nat := [
    255,255,255,255,255,255,255,255,255,255,255,
    255,255,255,255,255,255,255,255,255,255,255,
    255,255,255,255,255,255,255,255,255,255,255,
    255,255,255,255,255,255,255,255,255,255,62,
    255, 255, 255,63,52, 53, 54, 55, 56, 57, 58,
    59, 60, 61, 255, 255, 255, 255,
    255, 255, 255, 0, 1, 2, 3, 4, 5, 6, 7, 8, 9,
    10,11,12,13,14,15,16,17,18,19,20,21,22,23,24,25,
    255, 255, 255, 255, 255, 255, 26,27,28,29,30,31,
    32,33,34,35,36,37,38,39,40,41,42,43,44,45,46,47,
    48,49,50,51, 255, 255, 255, 255,
    255,255,255,255,255,255,255,255,255,255,255,255,
    255,255,255,255,255,255,255,255,255,255,255,255,
    255,255,255,255,255,255,255,255,255,255,255,255,
    255,255,255,255,255,255,255,255,255,255,255,255,
    255,255,255,255,255,255,255,255,255,255,255,255,
    255,255,255,255,255,255,255,255,255,255,255,255,
    255,255,255,255,255,255,255,255,255,255,255,255,
    255,255,255,255,255,255,255,255,255,255,255,255,
    255,255,255,255,255,255,255,255,255,255,255,255,
    255,255,255,255,255,255,255,255,255,255,255,255,
    255,255,255,255,255,255,255,255
]

/-- The lookup `kB64DecodeChar[c]` for a byte `c`. -/
def decodeChar (c : Nat) : Except Fault Nat :=
  match kB64DecodeChar[c]? with
  | some v => .ok v
  | none => .error .decodeTable

/-- The macro `CHAR_INVALID(B1,B2,B3,B4)`, defined as
`((((B1)|(B2)|(B3)|(B4)) & 128) != 0)`. -/
def CHAR_INVALID (B1 B2 B3 B4 : Nat) : Bool :=
  ((B1 ||| B2 ||| B3 ||| B4) &&& 128) != 0

/-- The macro `FINALIZE_DECODE(B1,B2,B3,B4,buf,O,vec)`.  The arguments
`B1`..`B4` are the expressions `input[k]`, evaluated where the macro uses
them; `buf` is `(out, op)` and `vec` is the output string `out` itself.  The
flag of the result is `false` when the macro executed `return false`, and the
enclosing function returns `true` right after the macro otherwise. -/
def FINALIZE_DECODE (B1 B2 B3 B4 : Except Fault Nat) (out : List Nat) (op O : Nat) :
    Except Fault (Bool × List Nat) := do
  let b1 ← decodeChar (← B1)
  let b2 ← decodeChar (← B2)
  let b3 ← if (← B3) == '='.toNat then pure 67 else decodeChar (← B3)
  let b4 ← if (← B4) == '='.toNat then pure 67 else decodeChar (← B4)
  if CHAR_INVALID b1 b2 b3 b4 then
    return (false, out)
  let out ← store out (op + (O + 0)) (toByte ((b1 <<< 2) ||| (b2 >>> 4)))
  if b3 != 67 then
    let out ← store out (op + (O + 1)) (toByte ((b2 <<< 4) ||| (b3 >>> 2)))
    if b4 != 67 then
      let out ← store out (op + (O + 2)) (toByte ((b3 <<< 6) ||| b4))
      return (true, out)
    else
      assert (decide (out.length > 0))
      return (true, resize out (out.length - 1))
  else
    assert (decide (out.length > 1))
    return (true, resize out (out.length - 2))

/-- The macro `DECODE_OCTGRP(B1,...,B8,buf,O)`. -/
def DECODE_OCTGRP (B1 B2 B3 B4 B5 B6 B7 B8 : Nat) (out : List Nat) (op O : Nat) :
    Except Fault (List Nat) := do
  let out ← store out (op + (O + 0)) (toByte ((B1 <<< 2) ||| (B2 >>> 4)))
  let out ← store out (op + (O + 1)) (toByte ((B2 <<< 4) ||| (B3 >>> 2)))
  let out ← store out (op + (O + 2)) (toByte ((B3 <<< 6) ||| B4))
  let out ← store out (op + (O + 3)) (toByte ((B5 <<< 2) ||| (B6 >>> 4)))
  let out ← store out (op + (O + 4)) (toByte ((B6 <<< 4) ||| (B7 >>> 2)))
  store out (op + (O + 5)) (toByte ((B7 <<< 6) ||| B8))

/-- The macro `DECODE_QUAGRP(B1,B2,B3,B4,buf,O)`. -/
def DECODE_QUAGRP (B1 B2 B3 B4 : Nat) (out : List Nat) (op O : Nat) :
    Except Fault (List Nat) := do
  let out ← store out (op + (O + 0)) (toByte ((B1 <<< 2) ||| (B2 >>> 4)))
  let out ← store out (op + (O + 1)) (toByte ((B2 <<< 4) ||| (B3 >>> 2)))
  store out (op + (O + 2)) (toByte ((B3 <<< 6) ||| B4))

/-- One iteration of a loop of `Base64DecodeSlowPath` for the given `shift`,
up to, and not including, `buf += 6; input += 8`.  The three loops of the
source differ only in the offset `w` of the word `v` (`input+3`, `input+2`,
`input+1`) and in the indices `i1`, `i2`, `i3`, `i8` of the bytes read one by
one for `b1`, `b2`, `b3`, `b8`; the last row is that of `case 3`.  The flag
of the result is `false` when the body executed `return false`. -/
def slowDecodeBody (shift : Nat) (input out : List Nat) (op : Nat) :
    Except Fault (Bool × List Nat) := do
  let (w, i1, i2, i3, i8) :=
    match shift with
    | 1 => (3, 0, 1, 2, 7)
    | 2 => (2, 0, 1, 6, 7)
    | _ => (1, 0, 5, 6, 7)
  let v0 ← load input (w + 0)
  let v1 ← load input (w + 1)
  let v2 ← load input (w + 2)
  let v3 ← load input (w + 3)
  let b1 ← decodeChar (← load input i1)
  let b2 ← decodeChar (← load input i2)
  let b3 ← decodeChar (← load input i3)
  let b8 ← decodeChar (← load input i8)
  let b4 ← decodeChar v0
  let b5 ← decodeChar v1
  let b6 ← decodeChar v2
  let b7 ← decodeChar v3
  if CHAR_INVALID b1 b2 b3 b4 == false then
    return (false, out)
  if CHAR_INVALID b5 b6 b7 b8 == false then
    return (false, out)
  let out ← DECODE_OCTGRP b1 b2 b3 b4 b5 b6 b7 b8 out op 0
  return (true, out)

/-- A loop of `Base64DecodeSlowPath`, `loops` iterations; returns the flag
(`false`: the function returned `false` from inside the loop), the input
pointer, the output string and the offset of `buf`. -/
def slowDecodeLoop (shift : Nat) : Nat → List Nat → List Nat → Nat →
    Except Fault (Bool × List Nat × List Nat × Nat)
  | 0, input, out, op => .ok (true, input, out, op)
  | loops + 1, input, out, op => do
      let (go, out) ← slowDecodeBody shift input out op
      if go then slowDecodeLoop shift loops (input.drop 8) out (op + 6)
      else return (false, input, out, op)

/-- Source: `bool Base64DecodeSlowPath(const int shift, const unsigned char* input,
std::size_t length, std::string* output)`; returns the result and the output
string.  The counter `int loops = length / 8` is the quotient, its value for
`length < 8 * 2 ^ 31`.  When `length` is a multiple of 8 the counter is
decremented once, and a counter of -1 runs the loop as often as 0 does: not
at all. -/
def Base64DecodeSlowPath (shift : Nat) (input : List Nat) (length : Nat)
    (output : List Nat) : Except Fault (Bool × List Nat) := do
  let loops := length / 8
  let output := resize output ((length / 4) * 3)
  let left := length &&& 7
  let (left, loops) := if left == 0 then (8, loops - 1) else (left, loops)
  let (go, input, output, op) ←
    match shift with
    | 1 => slowDecodeLoop 1 loops input output 0
    | 2 => slowDecodeLoop 2 loops input output 0
    | 3 => slowDecodeLoop 3 loops input output 0
    | _ => .error .unreachable
  if !go then
    return (false, output)
  assert (left == 4 || left == 8)
  if left == 4 then
    FINALIZE_DECODE (load input 0) (load input 1) (load input 2) (load input 3) output op 0
  else
    let b1 ← decodeChar (← load input 0)
    let b2 ← decodeChar (← load input 1)
    let b3 ← decodeChar (← load input 2)
    let b4 ← decodeChar (← load input 3)
    if CHAR_INVALID b1 b2 b3 b4 == false then
      return (false, output)
    let output ← DECODE_QUAGRP b1 b2 b3 b4 output op 0
    FINALIZE_DECODE (load input 0) (load input 1) (load input 2) (load input 3) output op 3

/-- One iteration of the loop of `Base64DecodeFastPath`, up to, and not
including, `buf += 6; input += 8`.  The flag of the result is `false` when
the body executed `return false`. -/
def fastDecodeBody (input out : List Nat) (op : Nat) : Except Fault (Bool × List Nat) := do
  let v0 ← load input 0
  let v1 ← load input 1
  let v2 ← load input 2
  let v3 ← load input 3
  let v4 ← load input 4
  let v5 ← load input 5
  let v6 ← load input 6
  let v7 ← load input 7
  let b1 ← decodeChar v0
  let b2 ← decodeChar v1
  let b3 ← decodeChar v2
  let b4 ← decodeChar v3
  let b5 ← decodeChar v4
  let b6 ← decodeChar v5
  let b7 ← decodeChar v6
  let b8 ← decodeChar v7
  if CHAR_INVALID b1 b2 b3 b4 then
    return (false, out)
  if CHAR_INVALID b5 b6 b7 b8 then
    return (false, out)
  let out ← DECODE_OCTGRP b1 b2 b3 b4 b5 b6 b7 b8 out op 0
  return (true, out)

/-- The loop of `Base64DecodeFastPath`, `loops` iterations; returns the flag
(`false`: the function returned `false` from inside the loop), the input
pointer, the output string and the offset of `buf`. -/
def fastDecodeLoop : Nat → List Nat → List Nat → Nat →
    Except Fault (Bool × List Nat × List Nat × Nat)
  | 0, input, out, op => .ok (true, input, out, op)
  | loops + 1, input, out, op => do
      let (go, out) ← fastDecodeBody input out op
      if go then fastDecodeLoop loops (input.drop 8) out (op + 6)
      else return (false, input, out, op)

/-- Source: `bool Base64DecodeFastPath(const unsigned char* input, std::size_t length,
std::string* output)`; returns the result and the output string.  The counter
`int loops = length / 8` is the quotient, its value for `length < 8 * 2 ^ 31`.
When `length` is a multiple of 8 the counter is decremented once, and a
counter of -1 runs the loop as often as 0 does: not at all. -/
def Base64DecodeFastPath (input : List Nat) (length : Nat) (output : List Nat) :
    Except Fault (Bool × List Nat) := do
  let output := resize output (3 * (length / 4))
  let loops := length / 8
  let left := length &&& 7
  let (left, loops) := if left == 0 then (8, loops - 1) else (left, loops)
  let (go, input, output, op) ← fastDecodeLoop loops input output 0
  if !go then
    return (false, output)
  match left >>> 2 with
  | 0 => return (true, output)
  | 1 =>
    FINALIZE_DECODE (load input 0) (load input 1) (load input 2) (load input 3) output op 0
  | 2 => do
    let b1 ← decodeChar (← load input 0)
    let b2 ← decodeChar (← load input 1)
    let b3 ← decodeChar (← load input 2)
    let b4 ← decodeChar (← load input 3)
    if CHAR_INVALID b1 b2 b3 b4 then
      return (false, output)
    let output ← DECODE_QUAGRP b1 b2 b3 b4 output op 0
    FINALIZE_DECODE (load input 4) (load input 5) (load input 6) (load input 7) output op 3
  | _ => .error .unreachable

/-- Source: `bool util::Base64Decode(const char* input, std::size_t length,
std::string* output)`, with `addr` the address held by `input`; returns the
result and the output string. -/
def Base64Decode (addr : Nat) (input : List Nat) (length : Nat) (output : List Nat) :
    Except Fault (Bool × List Nat) :=
  let bits := addr &&& 2
  match bits with
  | 0 => Base64DecodeFastPath input length output
  | 1 => Base64DecodeSlowPath bits input length output
  | 2 => Base64DecodeSlowPath bits input length output
  | 3 => Base64DecodeSlowPath bits input length output
  | _ => .error .unreachable

/-! ## The reference encoding of the specification -/

/-- The Base64 alphabet of RFC 4648, as the specification lists it:
`A`-`Z`, `a`-`z`, `0`-`9`, `+`, `/`. -/
def rfc4648Alphabet : List Nat :=
  ascii "ABCDEFGHIJKLMNOPQRSTUVWXYZabcdefghijklmnopqrstuvwxyz0123456789+/"

/-- The alphabet character of a 6-bit index. -/
def rfc4648Char (i : Nat) : Nat := rfc4648Alphabet.getD i 0

/-- The reference encoding, written from the words of the specification and
not from the source: every 3-byte group `(b1,b2,b3)`, bytes taken as
unsigned, gives the characters of index `b1>>2`, `((b1&3)<<4)|(b2>>4)`,
`((b2&15)<<2)|(b3>>6)` and `b3&63`; a final 1-byte group gives two characters
and `==`, a final 2-byte group three characters and `=`. -/
def rfc4648Encode : List Nat → List Nat
  | [] => []
  | [b1] =>
      [rfc4648Char (b1 >>> 2), rfc4648Char ((b1 &&& 3) <<< 4), '='.toNat, '='.toNat]
  | [b1, b2] =>
      [rfc4648Char (b1 >>> 2), rfc4648Char (((b1 &&& 3) <<< 4) ||| (b2 >>> 4)),
        rfc4648Char ((b2 &&& 15) <<< 2), '='.toNat]
  | b1 :: b2 :: b3 :: rest =>
      [rfc4648Char (b1 >>> 2), rfc4648Char (((b1 &&& 3) <<< 4) ||| (b2 >>> 4)),
        rfc4648Char (((b2 &&& 15) <<< 2) ||| (b3 >>> 6)), rfc4648Char (b3 &&& 63)]
        ++ rfc4648Encode rest

/-! ## Functional counterparts of the decoder

Used to state what the loops and macros compute. -/

/-- The three bytes that `DECODE_QUAGRP` writes for four table values. -/
def quad (b1 b2 b3 b4 : Nat) : List Nat :=
  [toByte ((b1 <<< 2) ||| (b2 >>> 4)), toByte ((b2 <<< 4) ||| (b3 >>> 2)),
    toByte ((b3 <<< 6) ||| b4)]

/-- The table value of a character; 255 outside the table. -/
def sextet (c : Nat) : Nat := kB64DecodeChar.getD c 255

/-- The alphabet characters: those with a 6-bit table value. -/
def isAlpha (c : Nat) : Bool := decide (sextet c < 64)

/-- The bytes of a text of full 4-character groups. -/
def decodeQuads : List Nat → List Nat
  | c0 :: c1 :: c2 :: c3 :: rest =>
      quad (sextet c0) (sextet c1) (sextet c2) (sextet c3) ++ decodeQuads rest
  | _ => []

/-- The bytes that `FINALIZE_DECODE` leaves for the final group `c0 c1 c2 c3`:
one when `c2` is `=`, else two when `c3` is `=`, else three. -/
def finalBytes (c0 c1 c2 c3 : Nat) : List Nat :=
  if c2 == '='.toNat then [toByte ((sextet c0 <<< 2) ||| (sextet c1 >>> 4))]
  else if c3 == '='.toNat then
    [toByte ((sextet c0 <<< 2) ||| (sextet c1 >>> 4)),
      toByte ((sextet c1 <<< 4) ||| (sextet c2 >>> 2))]
  else quad (sextet c0) (sextet c1) (sextet c2) (sextet c3)

/-! ## Theorems

The evaluations below unfold the tables entry by entry. -/

set_option maxRecDepth 100000

/-! ### The fast decoder on valid text -/

theorem and_3 (x : Nat) : x &&& 3 = x % 4 := Nat.and_pow_two_sub_one_eq_mod x 2
theorem and_15 (x : Nat) : x &&& 15 = x % 16 := Nat.and_pow_two_sub_one_eq_mod x 4
theorem and_63 (x : Nat) : x &&& 63 = x % 64 := Nat.and_pow_two_sub_one_eq_mod x 6
theorem and_7 (x : Nat) : x &&& 7 = x % 8 := Nat.and_pow_two_sub_one_eq_mod x 3

theorem shiftLeft_or_eq_add (a b i : Nat) (h : b < 2 ^ i) : (a <<< i) ||| b = a * 2 ^ i + b := by
  rw [Nat.shiftLeft_eq, Nat.mul_comm, ← Nat.mul_add_lt_is_or h]

theorem store_append (pre mid post : List Nat) (x v : Nat) :
    store (pre ++ mid ++ x :: post) (pre.length + mid.length) v
      = .ok (pre ++ (mid ++ [v]) ++ post) := by
  have h : pre.length + mid.length < (pre ++ mid ++ x :: post).length := by simp
  rw [store, if_pos h]
  congr 1
  rw [show pre.length + mid.length = (pre ++ mid).length by simp,
    List.set_append_right _ _ (Nat.le_refl _)]
  simp

theorem quad_of_group (b1 b2 b3 : Nat) (h1 : b1 < 256) (h2 : b2 < 256) (h3 : b3 < 256) :
    quad (b1 >>> 2) (((b1 &&& 3) <<< 4) ||| (b2 >>> 4))
      (((b2 &&& 15) <<< 2) ||| (b3 >>> 6)) (b3 &&& 63) = [b1, b2, b3] := by
  have e1 : ((b1 &&& 3) <<< 4) ||| (b2 >>> 4) = (b1 % 4) * 16 + b2 / 16 := by
    rw [shiftLeft_or_eq_add _ _ 4 (by rw [Nat.shiftRight_eq_div_pow]; omega), and_3,
      Nat.shiftRight_eq_div_pow]
    omega
  have e2 : ((b2 &&& 15) <<< 2) ||| (b3 >>> 6) = (b2 % 16) * 4 + b3 / 64 := by
    rw [shiftLeft_or_eq_add _ _ 2 (by rw [Nat.shiftRight_eq_div_pow]; omega), and_15,
      Nat.shiftRight_eq_div_pow]
    omega
  rw [e1, e2, and_63]
  unfold quad toByte
  rw [shiftLeft_or_eq_add _ _ 2 (by rw [Nat.shiftRight_eq_div_pow]; omega),
    shiftLeft_or_eq_add _ _ 4 (by rw [Nat.shiftRight_eq_div_pow]; omega),
    shiftLeft_or_eq_add _ _ 6 (by omega)]
  simp only [Nat.shiftRight_eq_div_pow]
  congr 1
  · omega
  congr 1
  · omega
  congr 1
  omega

theorem decodeChar_rfc4648Char : ∀ i, i < 64 → decodeChar (rfc4648Char i) = .ok i := by
  decide

theorem rfc4648Char_ne_pad : ∀ i, i < 64 → (rfc4648Char i == '='.toNat) = false := by
  decide

theorem and_128_of_lt : ∀ x, x < 128 → x &&& 128 = 0 := by
  decide

theorem CHAR_INVALID_of_lt (b1 b2 b3 b4 : Nat) (h1 : b1 < 128) (h2 : b2 < 128)
    (h3 : b3 < 128) (h4 : b4 < 128) : CHAR_INVALID b1 b2 b3 b4 = false := by
  have h : b1 ||| b2 ||| b3 ||| b4 < 2 ^ 7 :=
    Nat.or_lt_two_pow (Nat.or_lt_two_pow (Nat.or_lt_two_pow h1 h2) h3) h4
  simp [CHAR_INVALID, and_128_of_lt _ h]

theorem DECODE_QUAGRP_append (b1 b2 b3 b4 : Nat) (pre post : List Nat) (x0 x1 x2 : Nat) :
    DECODE_QUAGRP b1 b2 b3 b4 (pre ++ x0 :: x1 :: x2 :: post) pre.length 0
      = .ok (pre ++ quad b1 b2 b3 b4 ++ post) := by
  have e0 := store_append pre [] (x1 :: x2 :: post) x0 (toByte ((b1 <<< 2) ||| (b2 >>> 4)))
  have e1 := store_append pre [toByte ((b1 <<< 2) ||| (b2 >>> 4))] (x2 :: post) x1
    (toByte ((b2 <<< 4) ||| (b3 >>> 2)))
  have e2 := store_append pre
    [toByte ((b1 <<< 2) ||| (b2 >>> 4)), toByte ((b2 <<< 4) ||| (b3 >>> 2))] post x2
    (toByte ((b3 <<< 6) ||| b4))
  simp only [List.append_nil, List.length_nil, Nat.add_zero, List.nil_append,
    List.length_cons, List.cons_append, List.append_assoc] at e0 e1 e2
  simp only [DECODE_QUAGRP, Nat.zero_add, Nat.add_zero, bind, Except.bind, e0,
    List.append_assoc, List.cons_append, List.nil_append, e1, e2, quad]

theorem DECODE_OCTGRP_append (b1 b2 b3 b4 b5 b6 b7 b8 : Nat) (pre post : List Nat)
    (x0 x1 x2 x3 x4 x5 : Nat) :
    DECODE_OCTGRP b1 b2 b3 b4 b5 b6 b7 b8
        (pre ++ x0 :: x1 :: x2 :: x3 :: x4 :: x5 :: post) pre.length 0
      = .ok (pre ++ (quad b1 b2 b3 b4 ++ quad b5 b6 b7 b8) ++ post) := by
  have e0 := store_append pre [] (x1 :: x2 :: x3 :: x4 :: x5 :: post) x0
    (toByte ((b1 <<< 2) ||| (b2 >>> 4)))
  have e1 := store_append pre [toByte ((b1 <<< 2) ||| (b2 >>> 4))]
    (x2 :: x3 :: x4 :: x5 :: post) x1 (toByte ((b2 <<< 4) ||| (b3 >>> 2)))
  have e2 := store_append pre
    [toByte ((b1 <<< 2) ||| (b2 >>> 4)), toByte ((b2 <<< 4) ||| (b3 >>> 2))]
    (x3 :: x4 :: x5 :: post) x2 (toByte ((b3 <<< 6) ||| b4))
  have e3 := store_append pre (quad b1 b2 b3 b4) (x4 :: x5 :: post) x3
    (toByte ((b5 <<< 2) ||| (b6 >>> 4)))
  have e4 := store_append pre (quad b1 b2 b3 b4 ++ [toByte ((b5 <<< 2) ||| (b6 >>> 4))])
    (x5 :: post) x4 (toByte ((b6 <<< 4) ||| (b7 >>> 2)))
  have e5 := store_append pre (quad b1 b2 b3 b4 ++
    [toByte ((b5 <<< 2) ||| (b6 >>> 4)), toByte ((b6 <<< 4) ||| (b7 >>> 2))])
    post x5 (toByte ((b7 <<< 6) ||| b8))
  simp only [quad, List.append_nil, List.length_nil, Nat.add_zero, List.nil_append,
    List.length_cons, List.cons_append, List.append_assoc] at e0 e1 e2 e3 e4 e5
  simp only [DECODE_OCTGRP, Nat.zero_add, Nat.add_zero, bind, Except.bind, e0,
    List.append_assoc, List.cons_append, List.nil_append, e1, e2, e3, e4, e5, quad]

theorem fastDecodeBody_valid (c0 c1 c2 c3 c4 c5 c6 c7 v0 v1 v2 v3 v4 v5 v6 v7 : Nat)
    (rest pre post : List Nat) (x0 x1 x2 x3 x4 x5 : Nat)
    (d0 : decodeChar c0 = .ok v0) (d1 : decodeChar c1 = .ok v1)
    (d2 : decodeChar c2 = .ok v2) (d3 : decodeChar c3 = .ok v3)
    (d4 : decodeChar c4 = .ok v4) (d5 : decodeChar c5 = .ok v5)
    (d6 : decodeChar c6 = .ok v6) (d7 : decodeChar c7 = .ok v7)
    (h0 : v0 < 128) (h1 : v1 < 128) (h2 : v2 < 128) (h3 : v3 < 128)
    (h4 : v4 < 128) (h5 : v5 < 128) (h6 : v6 < 128) (h7 : v7 < 128) :
    fastDecodeBody (c0 :: c1 :: c2 :: c3 :: c4 :: c5 :: c6 :: c7 :: rest)
        (pre ++ x0 :: x1 :: x2 :: x3 :: x4 :: x5 :: post) pre.length
      = .ok (true, pre ++ (quad v0 v1 v2 v3 ++ quad v4 v5 v6 v7) ++ post) := by
  simp only [fastDecodeBody, load, List.getElem?_cons_zero, List.getElem?_cons_succ,
    bind, Except.bind, d0, d1, d2, d3, d4, d5, d6, d7,
    CHAR_INVALID_of_lt _ _ _ _ h0 h1 h2 h3, CHAR_INVALID_of_lt _ _ _ _ h4 h5 h6 h7,
    DECODE_OCTGRP_append, pure, Except.pure]
  rfl

theorem isAlpha_lt (c : Nat) (h : isAlpha c = true) : c < 255 := by
  by_contra hc
  have : kB64DecodeChar[c]? = none := List.getElem?_eq_none (by simp [kB64DecodeChar]; omega)
  simp [isAlpha, sextet, List.getD, this] at h

theorem decodeChar_of_lt : ∀ c, c < 255 → decodeChar c = .ok (sextet c) := by
  decide

theorem decodeChar_of_isAlpha (c : Nat) (h : isAlpha c = true) :
    decodeChar c = .ok (sextet c) :=
  decodeChar_of_lt c (isAlpha_lt c h)

theorem sextet_lt_of_isAlpha (c : Nat) (h : isAlpha c = true) : sextet c < 64 := by
  simpa [isAlpha] using h

theorem fastDecodeLoop_valid (k : Nat) : ∀ (cs rest pre mid post : List Nat),
    cs.length = 8 * k → (∀ c ∈ cs, isAlpha c = true) → mid.length = 6 * k →
    fastDecodeLoop k (cs ++ rest) (pre ++ mid ++ post) pre.length
      = .ok (true, rest, pre ++ decodeQuads cs ++ post, pre.length + 6 * k) := by
  induction k with
  | zero =>
    intro cs rest pre mid post hcs _ hmid
    have hc0 : cs = [] := List.length_eq_zero.mp (by omega)
    have hm0 : mid = [] := List.length_eq_zero.mp (by omega)
    subst hc0 hm0
    simp [fastDecodeLoop, decodeQuads]
  | succ k ih =>
    intro cs rest pre mid post hcs hv hmid
    rcases cs with _ | ⟨c0, _ | ⟨c1, _ | ⟨c2, _ | ⟨c3, _ | ⟨c4, _ | ⟨c5, _ | ⟨c6, _ | ⟨c7, cs⟩⟩⟩⟩⟩⟩⟩⟩ <;>
      simp only [List.length_cons, List.length_nil] at hcs <;> try omega
    rcases mid with _ | ⟨m1, _ | ⟨m2, _ | ⟨m3, _ | ⟨m4, _ | ⟨m5, _ | ⟨m6, mid⟩⟩⟩⟩⟩⟩ <;>
      simp only [List.length_cons, List.length_nil] at hmid <;> try omega
    have a0 := hv c0 (by simp)
    have a1 := hv c1 (by simp)
    have a2 := hv c2 (by simp)
    have a3 := hv c3 (by simp)
    have a4 := hv c4 (by simp)
    have a5 := hv c5 (by simp)
    have a6 := hv c6 (by simp)
    have a7 := hv c7 (by simp)
    have hv' : ∀ c ∈ cs, isAlpha c = true := fun c hc => hv c (by simp [hc])
    have body := fastDecodeBody_valid c0 c1 c2 c3 c4 c5 c6 c7 _ _ _ _ _ _ _ _
      (cs ++ rest) pre (mid ++ post) m1 m2 m3 m4 m5 m6
      (decodeChar_of_isAlpha _ a0) (decodeChar_of_isAlpha _ a1)
      (decodeChar_of_isAlpha _ a2) (decodeChar_of_isAlpha _ a3)
      (decodeChar_of_isAlpha _ a4) (decodeChar_of_isAlpha _ a5)
      (decodeChar_of_isAlpha _ a6) (decodeChar_of_isAlpha _ a7)
      (by have := sextet_lt_of_isAlpha _ a0; omega)
      (by have := sextet_lt_of_isAlpha _ a1; omega)
      (by have := sextet_lt_of_isAlpha _ a2; omega)
      (by have := sextet_lt_of_isAlpha _ a3; omega)
      (by have := sextet_lt_of_isAlpha _ a4; omega)
      (by have := sextet_lt_of_isAlpha _ a5; omega)
      (by have := sextet_lt_of_isAlpha _ a6; omega)
      (by have := sextet_lt_of_isAlpha _ a7; omega)
    have step := ih cs rest
      (pre ++ (quad (sextet c0) (sextet c1) (sextet c2) (sextet c3) ++
        quad (sextet c4) (sextet c5) (sextet c6) (sextet c7))) mid post
      (by omega) hv' (by omega)
    have hlen : (pre ++ (quad (sextet c0) (sextet c1) (sextet c2) (sextet c3) ++
        quad (sextet c4) (sextet c5) (sextet c6) (sextet c7))).length = pre.length + 6 := by
      simp [quad]
    rw [hlen] at step
    simp only [List.cons_append, List.append_assoc, fastDecodeLoop, decodeQuads,
      List.nil_append, bind, Except.bind] at body step ⊢
    rw [body]
    simp only [List.drop_succ_cons, List.drop_zero, if_true]
    rw [step]
    simp only [Except.ok.injEq, Prod.mk.injEq, true_and]
    omega

theorem resize_length (out : List Nat) (n : Nat) : (resize out n).length = n := by
  simp [resize]; omega

theorem resize_drop_last (pre : List Nat) (a b c : Nat) :
    resize (pre ++ [a, b, c]) ((pre ++ [a, b, c]).length - 1) = pre ++ [a, b] := by
  simp [resize, List.take_append_eq_append_take]

theorem resize_drop_last_two (pre : List Nat) (a b c : Nat) :
    resize (pre ++ [a, b, c]) ((pre ++ [a, b, c]).length - 2) = pre ++ [a] := by
  simp [resize, List.take_append_eq_append_take]

theorem FINALIZE_DECODE_full (c0 c1 c2 c3 v0 v1 v2 v3 : Nat) (cs pre : List Nat)
    (x0 x1 x2 op O i : Nat) (hop : op + O = pre.length)
    (l0 : load cs i = .ok c0) (l1 : load cs (i + 1) = .ok c1)
    (l2 : load cs (i + 2) = .ok c2) (l3 : load cs (i + 3) = .ok c3)
    (d0 : decodeChar c0 = .ok v0) (d1 : decodeChar c1 = .ok v1)
    (d2 : decodeChar c2 = .ok v2) (d3 : decodeChar c3 = .ok v3)
    (p2 : (c2 == '='.toNat) = false) (p3 : (c3 == '='.toNat) = false)
    (h0 : v0 < 64) (h1 : v1 < 64) (h2 : v2 < 64) (h3 : v3 < 64) :
    FINALIZE_DECODE (load cs i) (load cs (i + 1)) (load cs (i + 2)) (load cs (i + 3))
        (pre ++ [x0, x1, x2]) op O
      = .ok (true, pre ++ quad v0 v1 v2 v3) := by
  have e0 := store_append pre [] [x1, x2] x0 (toByte ((v0 <<< 2) ||| (v1 >>> 4)))
  have e1 := store_append pre [toByte ((v0 <<< 2) ||| (v1 >>> 4))] [x2] x1
    (toByte ((v1 <<< 4) ||| (v2 >>> 2)))
  have e2 := store_append pre
    [toByte ((v0 <<< 2) ||| (v1 >>> 4)), toByte ((v1 <<< 4) ||| (v2 >>> 2))] [] x2
    (toByte ((v2 <<< 6) ||| v3))
  simp only [List.append_nil, List.length_nil, Nat.add_zero, List.nil_append,
    List.length_cons, List.cons_append, List.append_assoc] at e0 e1 e2
  have n2 : (v2 != 67) = true := by simp; omega
  have n3 : (v3 != 67) = true := by simp; omega
  have q0 : op + (O + 0) = pre.length := by omega
  have q1 : op + (O + 1) = pre.length + 1 := by omega
  have q2 : op + (O + 2) = pre.length + 1 + 1 := by omega
  simp only [FINALIZE_DECODE, l0, l1, l2, l3, d0, d1, d2, d3, p2, p3, bind, Except.bind,
    CHAR_INVALID_of_lt v0 v1 v2 v3 (by omega) (by omega) (by omega) (by omega),
    q0, q1, q2, e0, e1, e2, n2, n3, quad, pure, Except.pure, if_true, if_false,
    Bool.false_eq_true]

theorem FINALIZE_DECODE_pad1 (c0 c1 c2 v0 v1 v2 : Nat) (cs pre : List Nat)
    (x0 x1 x2 op O i : Nat) (hop : op + O = pre.length)
    (l0 : load cs i = .ok c0) (l1 : load cs (i + 1) = .ok c1)
    (l2 : load cs (i + 2) = .ok c2) (l3 : load cs (i + 3) = .ok '='.toNat)
    (d0 : decodeChar c0 = .ok v0) (d1 : decodeChar c1 = .ok v1)
    (d2 : decodeChar c2 = .ok v2)
    (p2 : (c2 == '='.toNat) = false)
    (h0 : v0 < 64) (h1 : v1 < 64) (h2 : v2 < 64) :
    FINALIZE_DECODE (load cs i) (load cs (i + 1)) (load cs (i + 2)) (load cs (i + 3))
        (pre ++ [x0, x1, x2]) op O
      = .ok (true, pre ++ [toByte ((v0 <<< 2) ||| (v1 >>> 4)),
          toByte ((v1 <<< 4) ||| (v2 >>> 2))]) := by
  have e0 := store_append pre [] [x1, x2] x0 (toByte ((v0 <<< 2) ||| (v1 >>> 4)))
  have e1 := store_append pre [toByte ((v0 <<< 2) ||| (v1 >>> 4))] [x2] x1
    (toByte ((v1 <<< 4) ||| (v2 >>> 2)))
  have r := resize_drop_last pre (toByte ((v0 <<< 2) ||| (v1 >>> 4)))
    (toByte ((v1 <<< 4) ||| (v2 >>> 2))) x2
  simp only [List.append_nil, List.length_nil, Nat.add_zero, List.nil_append,
    List.length_cons, List.cons_append, List.append_assoc, List.length_append] at e0 e1 r
  have n2 : (v2 != 67) = true := by simp; omega
  have q0 : op + (O + 0) = pre.length := by omega
  have q1 : op + (O + 1) = pre.length + 1 := by omega
  have hpos : pre.length + (0 + 1 + 1 + 1) > 0 := by omega
  simp only [FINALIZE_DECODE, l0, l1, l2, l3, d0, d1, d2, p2, bind, Except.bind,
    CHAR_INVALID_of_lt v0 v1 v2 67 (by omega) (by omega) (by omega) (by omega),
    q0, q1, e0, e1, n2, pure, Except.pure, if_true, if_false, assert,
    Bool.false_eq_true, bne_self_eq_false, beq_self_eq_true, List.length_append,
    List.length_cons, List.length_nil, hpos, decide_True, r]

theorem FINALIZE_DECODE_pad2 (c0 c1 v0 v1 : Nat) (cs pre : List Nat)
    (x0 x1 x2 op O i : Nat) (hop : op + O = pre.length)
    (l0 : load cs i = .ok c0) (l1 : load cs (i + 1) = .ok c1)
    (l2 : load cs (i + 2) = .ok '='.toNat) (l3 : load cs (i + 3) = .ok '='.toNat)
    (d0 : decodeChar c0 = .ok v0) (d1 : decodeChar c1 = .ok v1)
    (h0 : v0 < 64) (h1 : v1 < 64) :
    FINALIZE_DECODE (load cs i) (load cs (i + 1)) (load cs (i + 2)) (load cs (i + 3))
        (pre ++ [x0, x1, x2]) op O
      = .ok (true, pre ++ [toByte ((v0 <<< 2) ||| (v1 >>> 4))]) := by
  have e0 := store_append pre [] [x1, x2] x0 (toByte ((v0 <<< 2) ||| (v1 >>> 4)))
  have r := resize_drop_last_two pre (toByte ((v0 <<< 2) ||| (v1 >>> 4))) x1 x2
  simp only [List.append_nil, List.length_nil, Nat.add_zero, List.nil_append,
    List.length_cons, List.cons_append, List.append_assoc, List.length_append] at e0 r
  have q0 : op + (O + 0) = pre.length := by omega
  have hpos : pre.length + (0 + 1 + 1 + 1) > 1 := by omega
  simp only [FINALIZE_DECODE, l0, l1, l2, l3, d0, d1, bind, Except.bind,
    CHAR_INVALID_of_lt v0 v1 67 67 (by omega) (by omega) (by omega) (by omega),
    q0, e0, pure, Except.pure, if_true, if_false, assert,
    Bool.false_eq_true, bne_self_eq_false, beq_self_eq_true, List.length_append,
    List.length_cons, List.length_nil, hpos, decide_True, r]

theorem split_tail3 (R : List Nat) (n : Nat) (h : R.length = n + 3) :
    ∃ x0 x1 x2, R = R.take n ++ [x0, x1, x2] := by
  have hd : (R.drop n).length = 3 := by simp [h]
  obtain ⟨x0, x1, x2, e⟩ := List.length_eq_three.mp hd
  exact ⟨x0, x1, x2, by rw [← e, List.take_append_drop]⟩

theorem Base64DecodeFastPath_tail4 (k : Nat) (cs tl out0 : List Nat)
    (r : Except Fault (Bool × List Nat))
    (hcs : cs.length = 8 * k) (hv : ∀ c ∈ cs, isAlpha c = true)
    (ht : ∀ x0 x1 x2, FINALIZE_DECODE (load tl 0) (load tl 1) (load tl 2) (load tl 3)
      (decodeQuads cs ++ [x0, x1, x2]) (6 * k) 0 = r) :
    Base64DecodeFastPath (cs ++ tl) (8 * k + 4) out0 = r := by
  have hR : (resize out0 (3 * ((8 * k + 4) / 4))).length = 6 * k + 3 := by
    rw [resize_length]; omega
  obtain ⟨x0, x1, x2, e⟩ := split_tail3 _ _ hR
  have hm : ((resize out0 (3 * ((8 * k + 4) / 4))).take (6 * k)).length = 6 * k := by
    rw [List.length_take, hR]; omega
  have loop := fastDecodeLoop_valid k cs tl [] _ [x0, x1, x2] hcs hv hm
  simp only [List.nil_append, List.length_nil, Nat.zero_add] at loop
  rw [← e] at loop
  have h8 : (8 * k + 4) / 8 = k := by omega
  have h7 : (8 * k + 4) &&& 7 = 4 := by rw [and_7]; omega
  have hz : ((4 : Nat) == 0) = false := rfl
  have hs : (4 : Nat) >>> 2 = 1 := rfl
  simp only [Base64DecodeFastPath, h8, h7, hz, hs, bind, Except.bind, loop, pure,
    Except.pure, Bool.false_eq_true, if_false, Bool.not_true]
  exact ht x0 x1 x2

theorem decodeQuads_length (n : Nat) : ∀ cs : List Nat, cs.length = 4 * n →
    (decodeQuads cs).length = 3 * n := by
  induction n with
  | zero =>
    intro cs h
    have : cs = [] := List.length_eq_zero.mp (by omega)
    subst this
    simp [decodeQuads]
  | succ n ih =>
    intro cs h
    rcases cs with _ | ⟨c0, _ | ⟨c1, _ | ⟨c2, _ | ⟨c3, cs⟩⟩⟩⟩ <;>
      simp only [List.length_cons, List.length_nil] at h <;> try omega
    have := ih cs (by omega)
    simp only [decodeQuads, quad, List.length_append, List.length_cons, List.length_nil, this]
    omega

theorem split_tail6 (R : List Nat) (n : Nat) (h : R.length = n + 6) :
    ∃ x0 x1 x2 x3 x4 x5, R = R.take n ++ [x0, x1, x2, x3, x4, x5] := by
  have hd : (R.drop n).length = 6 := by simp [h]
  rcases hR : R.drop n with _ | ⟨x0, _ | ⟨x1, _ | ⟨x2, _ | ⟨x3, _ | ⟨x4, _ | ⟨x5, _ | ⟨x6, t⟩⟩⟩⟩⟩⟩⟩ <;>
    rw [hR] at hd <;> simp only [List.length_cons, List.length_nil] at hd <;> try omega
  exact ⟨x0, x1, x2, x3, x4, x5, by rw [← hR, List.take_append_drop]⟩

theorem Base64DecodeFastPath_tail8 (k : Nat) (cs tl out0 : List Nat) (c0 c1 c2 c3 : Nat)
    (r : Except Fault (Bool × List Nat))
    (hcs : cs.length = 8 * k) (hv : ∀ c ∈ cs, isAlpha c = true)
    (a0 : isAlpha c0 = true) (a1 : isAlpha c1 = true)
    (a2 : isAlpha c2 = true) (a3 : isAlpha c3 = true)
    (ht : ∀ x3 x4 x5, FINALIZE_DECODE (load tl 0) (load tl 1) (load tl 2) (load tl 3)
      (decodeQuads cs ++ quad (sextet c0) (sextet c1) (sextet c2) (sextet c3) ++ [x3, x4, x5])
      (6 * k) 3 = r) :
    Base64DecodeFastPath (cs ++ c0 :: c1 :: c2 :: c3 :: tl) (8 * k + 8) out0 = r := by
  have hR : (resize out0 (3 * ((8 * k + 8) / 4))).length = 6 * k + 6 := by
    rw [resize_length]; omega
  obtain ⟨x0, x1, x2, x3, x4, x5, e⟩ := split_tail6 _ _ hR
  have hm : ((resize out0 (3 * ((8 * k + 8) / 4))).take (6 * k)).length = 6 * k := by
    rw [List.length_take, hR]; omega
  have loop := fastDecodeLoop_valid k cs (c0 :: c1 :: c2 :: c3 :: tl) [] _
    [x0, x1, x2, x3, x4, x5] hcs hv hm
  simp only [List.nil_append, List.length_nil, Nat.zero_add] at loop
  rw [← e] at loop
  have h8 : (8 * k + 8) / 8 = k + 1 := by omega
  have h7 : (8 * k + 8) &&& 7 = 0 := by rw [and_7]; omega
  have hz : ((0 : Nat) == 0) = true := rfl
  have hs : (8 : Nat) >>> 2 = 2 := rfl
  have hl : (decodeQuads cs).length = 6 * k := by
    have := decodeQuads_length (2 * k) cs (by omega); omega
  have q := DECODE_QUAGRP_append (sextet c0) (sextet c1) (sextet c2) (sextet c3)
    (decodeQuads cs) [x3, x4, x5] x0 x1 x2
  rw [hl] at q
  simp only [Base64DecodeFastPath, h8, h7, hz, hs, bind, Except.bind, loop, pure,
    Except.pure, Bool.false_eq_true, if_false, if_true, Bool.not_true, Nat.add_sub_cancel,
    load, List.getElem?_cons_zero, List.getElem?_cons_succ,
    decodeChar_of_isAlpha _ a0, decodeChar_of_isAlpha _ a1, decodeChar_of_isAlpha _ a2,
    decodeChar_of_isAlpha _ a3,
    CHAR_INVALID_of_lt _ _ _ _
      (Nat.lt_trans (sextet_lt_of_isAlpha _ a0) (by decide))
      (Nat.lt_trans (sextet_lt_of_isAlpha _ a1) (by decide))
      (Nat.lt_trans (sextet_lt_of_isAlpha _ a2) (by decide))
      (Nat.lt_trans (sextet_lt_of_isAlpha _ a3) (by decide)), q]
  have := ht x3 x4 x5
  simp only [load] at this
  exact this

theorem rfc4648Encode_group (b1 b2 b3 : Nat) (rest : List Nat) :
    rfc4648Encode (b1 :: b2 :: b3 :: rest) =
      rfc4648Char (b1 >>> 2) :: rfc4648Char (((b1 &&& 3) <<< 4) ||| (b2 >>> 4)) ::
      rfc4648Char (((b2 &&& 15) <<< 2) ||| (b3 >>> 6)) :: rfc4648Char (b3 &&& 63) ::
      rfc4648Encode rest := by
  simp [rfc4648Encode]

theorem idx1_lt (b1 : Nat) (h1 : b1 < 256) : b1 >>> 2 < 64 := by
  rw [Nat.shiftRight_eq_div_pow]; omega

theorem idx2_lt (b1 b2 : Nat) (h2 : b2 < 256) : ((b1 &&& 3) <<< 4) ||| (b2 >>> 4) < 64 := by
  rw [shiftLeft_or_eq_add _ _ 4 (by rw [Nat.shiftRight_eq_div_pow]; omega), and_3,
    Nat.shiftRight_eq_div_pow]
  omega

theorem idx3_lt (b2 b3 : Nat) (h3 : b3 < 256) : ((b2 &&& 15) <<< 2) ||| (b3 >>> 6) < 64 := by
  rw [shiftLeft_or_eq_add _ _ 2 (by rw [Nat.shiftRight_eq_div_pow]; omega), and_15,
    Nat.shiftRight_eq_div_pow]
  omega

theorem idx4_lt (b3 : Nat) : b3 &&& 63 < 64 := by
  rw [and_63]; omega

theorem sextet_rfc4648Char : ∀ i, i < 64 → sextet (rfc4648Char i) = i := by
  decide

theorem isAlpha_rfc4648Char (i : Nat) (h : i < 64) : isAlpha (rfc4648Char i) = true := by
  simp [isAlpha, sextet_rfc4648Char i h, h]

theorem rfc4648Encode_full (m : Nat) : ∀ P : List Nat, P.length = 3 * m →
    (∀ b ∈ P, b < 256) →
    (rfc4648Encode P).length = 4 * m ∧ (∀ c ∈ rfc4648Encode P, isAlpha c = true) ∧
    decodeQuads (rfc4648Encode P) = P ∧
    ∀ Q, rfc4648Encode (P ++ Q) = rfc4648Encode P ++ rfc4648Encode Q := by
  induction m with
  | zero =>
    intro P h _
    have : P = [] := List.length_eq_zero.mp (by omega)
    subst this
    simp [rfc4648Encode, decodeQuads]
  | succ m ih =>
    intro P h hb
    rcases P with _ | ⟨b1, _ | ⟨b2, _ | ⟨b3, P⟩⟩⟩ <;>
      simp only [List.length_cons, List.length_nil] at h <;> try omega
    have h1 : b1 < 256 := hb b1 (by simp)
    have h2 : b2 < 256 := hb b2 (by simp)
    have h3 : b3 < 256 := hb b3 (by simp)
    obtain ⟨il, ia, id, ic⟩ := ih P (by omega) (fun b hbP => hb b (by simp [hbP]))
    have i1 := idx1_lt b1 h1
    have i2 := idx2_lt b1 b2 h2
    have i3 := idx3_lt b2 b3 h3
    have i4 := idx4_lt b3
    refine ⟨?_, ?_, ?_, ?_⟩
    · simp only [rfc4648Encode_group, List.length_cons, il]; omega
    · intro c hc
      simp only [rfc4648Encode_group, List.mem_cons] at hc
      rcases hc with rfl | rfl | rfl | rfl | hc
      · exact isAlpha_rfc4648Char _ i1
      · exact isAlpha_rfc4648Char _ i2
      · exact isAlpha_rfc4648Char _ i3
      · exact isAlpha_rfc4648Char _ i4
      · exact ia c hc
    · simp only [rfc4648Encode_group, decodeQuads, sextet_rfc4648Char _ i1,
        sextet_rfc4648Char _ i2, sextet_rfc4648Char _ i3, sextet_rfc4648Char _ i4,
        quad_of_group b1 b2 b3 h1 h2 h3, List.cons_append, List.nil_append,
        List.append_eq, id]
    · intro Q
      simp only [List.cons_append, rfc4648Encode_group, ic Q]

theorem FINALIZE_DECODE_canonical (Q : List Nat) (h1 : 1 ≤ Q.length) (h3 : Q.length ≤ 3)
    (hb : ∀ b ∈ Q, b < 256) (pre : List Nat) (x0 x1 x2 op O : Nat)
    (hop : op + O = pre.length) :
    FINALIZE_DECODE (load (rfc4648Encode Q) 0) (load (rfc4648Encode Q) 1)
        (load (rfc4648Encode Q) 2) (load (rfc4648Encode Q) 3) (pre ++ [x0, x1, x2]) op O
      = .ok (true, pre ++ Q) := by
  rcases Q with _ | ⟨b1, _ | ⟨b2, _ | ⟨b3, _ | ⟨b4, Q⟩⟩⟩⟩ <;>
    simp only [List.length_cons, List.length_nil] at h1 h3 <;> try omega
  · have hb1 : b1 < 256 := hb b1 (by simp)
    have g := quad_of_group b1 0 0 hb1 (by omega) (by omega)
    have i1 := idx1_lt b1 hb1
    have i2 := idx2_lt b1 0 (by omega)
    simp only [Nat.zero_shiftRight, Nat.or_zero, quad, List.cons.injEq] at g i2
    have f := FINALIZE_DECODE_pad2 (rfc4648Char (b1 >>> 2))
      (rfc4648Char ((b1 &&& 3) <<< 4)) _ _ (rfc4648Encode [b1]) pre x0 x1 x2 op O 0 hop
      rfl rfl rfl rfl (decodeChar_rfc4648Char _ i1) (decodeChar_rfc4648Char _ i2) i1 i2
    rw [g.1] at f
    exact f
  · have hb1 : b1 < 256 := hb b1 (by simp)
    have hb2 : b2 < 256 := hb b2 (by simp)
    have g := quad_of_group b1 b2 0 hb1 hb2 (by omega)
    have i1 := idx1_lt b1 hb1
    have i2 := idx2_lt b1 b2 hb2
    have i3 := idx3_lt b2 0 (by omega)
    simp only [Nat.zero_shiftRight, Nat.or_zero, quad, List.cons.injEq] at g i3
    have f := FINALIZE_DECODE_pad1 (rfc4648Char (b1 >>> 2))
      (rfc4648Char (((b1 &&& 3) <<< 4) ||| (b2 >>> 4))) (rfc4648Char ((b2 &&& 15) <<< 2))
      _ _ _ (rfc4648Encode [b1, b2]) pre x0 x1 x2 op O 0 hop
      rfl rfl rfl rfl (decodeChar_rfc4648Char _ i1) (decodeChar_rfc4648Char _ i2)
      (decodeChar_rfc4648Char _ i3) (rfc4648Char_ne_pad _ i3) i1 i2 i3
    rw [g.1, g.2.1] at f
    exact f
  · have hb1 : b1 < 256 := hb b1 (by simp)
    have hb2 : b2 < 256 := hb b2 (by simp)
    have hb3 : b3 < 256 := hb b3 (by simp)
    have g := quad_of_group b1 b2 b3 hb1 hb2 hb3
    have i1 := idx1_lt b1 hb1
    have i2 := idx2_lt b1 b2 hb2
    have i3 := idx3_lt b2 b3 hb3
    have i4 := idx4_lt b3
    have f := FINALIZE_DECODE_full (rfc4648Char (b1 >>> 2))
      (rfc4648Char (((b1 &&& 3) <<< 4) ||| (b2 >>> 4)))
      (rfc4648Char (((b2 &&& 15) <<< 2) ||| (b3 >>> 6))) (rfc4648Char (b3 &&& 63))
      _ _ _ _ (rfc4648Encode [b1, b2, b3]) pre x0 x1 x2 op O 0 hop
      rfl rfl rfl rfl (decodeChar_rfc4648Char _ i1) (decodeChar_rfc4648Char _ i2)
      (decodeChar_rfc4648Char _ i3) (decodeChar_rfc4648Char _ i4)
      (rfc4648Char_ne_pad _ i3) (rfc4648Char_ne_pad _ i4) i1 i2 i3 i4
    rw [g] at f
    exact f

theorem rfc4648Encode_length_final (Q : List Nat) (h1 : 1 ≤ Q.length) (h3 : Q.length ≤ 3) :
    (rfc4648Encode Q).length = 4 := by
  rcases Q with _ | ⟨b1, _ | ⟨b2, _ | ⟨b3, _ | ⟨b4, Q⟩⟩⟩⟩ <;>
    simp only [List.length_cons, List.length_nil] at h1 h3 <;>
    first | omega | simp [rfc4648Encode]

/-- On the fast path the decoder inverts the reference encoding: for every
non-empty sequence `B` of bytes and whatever the output string held before,
`Base64DecodeFastPath` on the canonical text of `B` returns `true` and leaves
exactly `B` in the output. -/
theorem Base64DecodeFastPath_canonical (B : List Nat) (hne : B ≠ [])
    (hb : ∀ b ∈ B, b < 256) (out0 : List Nat) :
    Base64DecodeFastPath (rfc4648Encode B) (rfc4648Encode B).length out0 = .ok (true, B) := by
  have hn : 0 < B.length := List.length_pos.mpr hne
  obtain ⟨k, P, Q, hB, hP, hQ1, hQ6⟩ :
      ∃ k P Q, B = P ++ Q ∧ P.length = 6 * k ∧ 1 ≤ Q.length ∧ Q.length ≤ 6 := by
    refine ⟨(B.length - 1) / 6, B.take (6 * ((B.length - 1) / 6)),
      B.drop (6 * ((B.length - 1) / 6)), (List.take_append_drop _ _).symm, ?_, ?_, ?_⟩
    · rw [List.length_take]; omega
    · rw [List.length_drop]; omega
    · rw [List.length_drop]; omega
  subst hB
  have hbP : ∀ b ∈ P, b < 256 := fun b h => hb b (by simp [h])
  have hbQ : ∀ b ∈ Q, b < 256 := fun b h => hb b (by simp [h])
  obtain ⟨el, ea, ed, ec⟩ := rfc4648Encode_full (2 * k) P (by omega) hbP
  rw [ec Q]
  by_cases hq : Q.length ≤ 3
  · rw [List.length_append, el, rfc4648Encode_length_final Q hQ1 hq,
      show 4 * (2 * k) + 4 = 8 * k + 4 by omega]
    apply Base64DecodeFastPath_tail4 k _ _ _ _ (by omega) ea
    intro x0 x1 x2
    rw [ed]
    exact FINALIZE_DECODE_canonical Q hQ1 hq hbQ P x0 x1 x2 (6 * k) 0 (by omega)
  · rcases Q with _ | ⟨b1, _ | ⟨b2, _ | ⟨b3, Q⟩⟩⟩ <;>
      simp only [List.length_cons, List.length_nil] at hq hQ6 <;> try omega
    have h1 : b1 < 256 := hbQ b1 (by simp)
    have h2 : b2 < 256 := hbQ b2 (by simp)
    have h3 : b3 < 256 := hbQ b3 (by simp)
    have hbQ' : ∀ b ∈ Q, b < 256 := fun b h => hbQ b (by simp [h])
    have i1 := idx1_lt b1 h1
    have i2 := idx2_lt b1 b2 h2
    have i3 := idx3_lt b2 b3 h3
    have i4 := idx4_lt b3
    rw [rfc4648Encode_group, List.length_append, el]
    simp only [List.length_cons]
    rw [rfc4648Encode_length_final Q (by omega) (by omega),
      show 4 * (2 * k) + (4 + 1 + 1 + 1 + 1) = 8 * k + 8 by omega]
    apply Base64DecodeFastPath_tail8 k _ _ _ _ _ _ _ _ (by omega) ea
      (isAlpha_rfc4648Char _ i1) (isAlpha_rfc4648Char _ i2)
      (isAlpha_rfc4648Char _ i3) (isAlpha_rfc4648Char _ i4)
    intro x3 x4 x5
    rw [ed, sextet_rfc4648Char _ i1, sextet_rfc4648Char _ i2, sextet_rfc4648Char _ i3,
      sextet_rfc4648Char _ i4, quad_of_group b1 b2 b3 h1 h2 h3]
    have f := FINALIZE_DECODE_canonical Q (by omega) (by omega) hbQ' (P ++ [b1, b2, b3])
      x3 x4 x5 (6 * k) 3 (by simp; omega)
    simpa using f

/-! ### The encoder on 7-bit data -/

theorem encodeChar_lt : ∀ i, i < 64 → encodeChar i = .ok (rfc4648Char i) := by
  decide

theorem charToInt_of_lt (b : Nat) (h : b < 128) : charToInt b = b := by
  simp [charToInt, h]

theorem sar_of_lt (x k : Nat) (h : x < 256) : sar x k = x >>> k := by
  have h31 : x < 2 ^ 31 := by omega
  rw [sar, if_pos h31]

theorem shl_of_lt (x k : Nat) (h : x < 256) (hk : k ≤ 4) : shl x k = x <<< k := by
  have h1 : x <<< k ≤ x <<< 4 := by
    rw [Nat.shiftLeft_eq, Nat.shiftLeft_eq]
    exact Nat.mul_le_mul_left _ (Nat.pow_le_pow_right (by omega) hk)
  have h2 : x <<< 4 < 2 ^ 32 := by rw [Nat.shiftLeft_eq]; omega
  exact Nat.mod_eq_of_lt (by omega)

theorem encode_idx2 (b1 b2 : Nat) (h1 : b1 < 256) (h2 : b2 < 256) :
    (shl b1 4 ||| sar b2 4) &&& 63 = ((b1 &&& 3) <<< 4) ||| (b2 >>> 4) := by
  rw [shl_of_lt b1 4 h1 (by omega), sar_of_lt b2 4 h2, and_63, and_3,
    shiftLeft_or_eq_add _ _ 4 (by rw [Nat.shiftRight_eq_div_pow]; omega),
    shiftLeft_or_eq_add _ _ 4 (by rw [Nat.shiftRight_eq_div_pow]; omega),
    Nat.shiftRight_eq_div_pow]
  omega

theorem encode_idx3 (b2 b3 : Nat) (h2 : b2 < 256) (h3 : b3 < 256) :
    (shl b2 2 ||| sar b3 6) &&& 63 = ((b2 &&& 15) <<< 2) ||| (b3 >>> 6) := by
  rw [shl_of_lt b2 2 h2 (by omega), sar_of_lt b3 6 h3, and_63, and_15,
    shiftLeft_or_eq_add _ _ 2 (by rw [Nat.shiftRight_eq_div_pow]; omega),
    shiftLeft_or_eq_add _ _ 2 (by rw [Nat.shiftRight_eq_div_pow]; omega),
    Nat.shiftRight_eq_div_pow]
  omega

theorem encode_idx2_final (b1 : Nat) :
    shl (b1 &&& 3) 4 ||| sar (charToInt 0) 4 = (b1 &&& 3) <<< 4 := by
  have h : b1 &&& 3 < 256 := by rw [and_3]; omega
  rw [shl_of_lt _ 4 h (by omega)]
  simp [charToInt, sar]

theorem encode_idx3_final (b2 : Nat) :
    shl (b2 &&& 15) 2 ||| sar (charToInt 0) 6 = (b2 &&& 15) <<< 2 := by
  have h : b2 &&& 15 < 256 := by rw [and_15]; omega
  rw [shl_of_lt _ 2 h (by omega)]
  simp [charToInt, sar]

theorem idx2_final_lt (b1 : Nat) : (b1 &&& 3) <<< 4 < 64 := by
  rw [and_3, Nat.shiftLeft_eq]; omega

theorem idx3_final_lt (b2 : Nat) : (b2 &&& 15) <<< 2 < 64 := by
  rw [and_15, Nat.shiftLeft_eq]; omega

/-- On three 7-bit bytes `ENCODE_UNIT` writes the four characters of the
reference encoding of the group, at the four positions after `pre`. -/
theorem ENCODE_UNIT_ascii (B1 B2 B3 : Nat) (h1 : B1 < 128) (h2 : B2 < 128) (h3 : B3 < 128)
    (pre post : List Nat) (x0 x1 x2 x3 op OFF : Nat) (hop : op + OFF = pre.length) :
    ENCODE_UNIT B1 B2 B3 (pre ++ x0 :: x1 :: x2 :: x3 :: post) op OFF
      = .ok (pre ++ rfc4648Encode [B1, B2, B3] ++ post) := by
  have i1 := idx1_lt B1 (by omega)
  have i2 := idx2_lt B1 B2 (by omega)
  have i3 := idx3_lt B2 B3 (by omega)
  have i4 := idx4_lt B3
  have e0 := store_append pre [] (x1 :: x2 :: x3 :: post) x0 (rfc4648Char (B1 >>> 2))
  have e1 := store_append pre [rfc4648Char (B1 >>> 2)] (x2 :: x3 :: post) x1
    (rfc4648Char (((B1 &&& 3) <<< 4) ||| (B2 >>> 4)))
  have e2 := store_append pre
    [rfc4648Char (B1 >>> 2), rfc4648Char (((B1 &&& 3) <<< 4) ||| (B2 >>> 4))]
    (x3 :: post) x2 (rfc4648Char (((B2 &&& 15) <<< 2) ||| (B3 >>> 6)))
  have e3 := store_append pre
    [rfc4648Char (B1 >>> 2), rfc4648Char (((B1 &&& 3) <<< 4) ||| (B2 >>> 4)),
      rfc4648Char (((B2 &&& 15) <<< 2) ||| (B3 >>> 6))]
    post x3 (rfc4648Char (B3 &&& 63))
  simp only [List.append_nil, List.length_nil, Nat.add_zero, List.nil_append,
    List.length_cons, List.cons_append, List.append_assoc] at e0 e1 e2 e3
  have q0 : op + OFF = pre.length := hop
  have q1 : op + (1 + OFF) = pre.length + 1 := by omega
  have q2 : op + (2 + OFF) = pre.length + 1 + 1 := by omega
  have q3 : op + (3 + OFF) = pre.length + 1 + 1 + 1 := by omega
  simp only [ENCODE_UNIT, charToInt_of_lt _ h1, charToInt_of_lt _ h2, charToInt_of_lt _ h3,
    sar_of_lt B1 2 (by omega), encode_idx2 B1 B2 (by omega) (by omega),
    encode_idx3 B2 B3 (by omega) (by omega), encodeChar_lt _ i1, encodeChar_lt _ i2,
    encodeChar_lt _ i3, encodeChar_lt _ i4, bind, Except.bind, q0, q1, q2, q3,
    e0, e1, e2, e3, rfc4648Encode_group, rfc4648Encode, List.cons_append,
    List.append_assoc, List.nil_append]

theorem FINALIZE_ENCODE1_ascii (B1 : Nat) (h1 : B1 < 128)
    (pre post : List Nat) (x0 x1 x2 x3 op OFF : Nat) (hop : op + OFF = pre.length) :
    FINALIZE_ENCODE1 B1 (pre ++ x0 :: x1 :: x2 :: x3 :: post) op OFF
      = .ok (pre ++ rfc4648Encode [B1] ++ post) := by
  have i1 := idx1_lt B1 (by omega)
  have i2 := idx2_final_lt B1
  have e0 := store_append pre [] (x1 :: x2 :: x3 :: post) x0 (rfc4648Char (B1 >>> 2))
  have e1 := store_append pre [rfc4648Char (B1 >>> 2)] (x2 :: x3 :: post) x1
    (rfc4648Char ((B1 &&& 3) <<< 4))
  have e2 := store_append pre
    [rfc4648Char (B1 >>> 2), rfc4648Char ((B1 &&& 3) <<< 4)]
    (x3 :: post) x2 '='.toNat
  have e3 := store_append pre
    [rfc4648Char (B1 >>> 2), rfc4648Char ((B1 &&& 3) <<< 4), '='.toNat]
    post x3 '='.toNat
  simp only [List.append_nil, List.length_nil, Nat.add_zero, List.nil_append,
    List.length_cons, List.cons_append, List.append_assoc] at e0 e1 e2 e3
  have q0 : op + OFF = pre.length := hop
  have q1 : op + (1 + OFF) = pre.length + 1 := by omega
  have q2 : op + (2 + OFF) = pre.length + 1 + 1 := by omega
  have q3 : op + (3 + OFF) = pre.length + 1 + 1 + 1 := by omega
  simp only [FINALIZE_ENCODE1, charToInt_of_lt _ h1, sar_of_lt B1 2 (by omega),
    encode_idx2_final, encodeChar_lt _ i1, encodeChar_lt _ i2, bind, Except.bind,
    q0, q1, q2, q3, e0, e1, e2, e3, rfc4648Encode, List.cons_append,
    List.append_assoc, List.nil_append]

theorem FINALIZE_ENCODE2_ascii (B1 B2 : Nat) (h1 : B1 < 128) (h2 : B2 < 128)
    (pre post : List Nat) (x0 x1 x2 x3 op OFF : Nat) (hop : op + OFF = pre.length) :
    FINALIZE_ENCODE2 B1 B2 (pre ++ x0 :: x1 :: x2 :: x3 :: post) op OFF
      = .ok (pre ++ rfc4648Encode [B1, B2] ++ post) := by
  have i1 := idx1_lt B1 (by omega)
  have i2 := idx2_lt B1 B2 (by omega)
  have i3 := idx3_final_lt B2
  have e0 := store_append pre [] (x1 :: x2 :: x3 :: post) x0 (rfc4648Char (B1 >>> 2))
  have e1 := store_append pre [rfc4648Char (B1 >>> 2)] (x2 :: x3 :: post) x1
    (rfc4648Char (((B1 &&& 3) <<< 4) ||| (B2 >>> 4)))
  have e2 := store_append pre
    [rfc4648Char (B1 >>> 2), rfc4648Char (((B1 &&& 3) <<< 4) ||| (B2 >>> 4))]
    (x3 :: post) x2 (rfc4648Char ((B2 &&& 15) <<< 2))
  have e3 := store_append pre
    [rfc4648Char (B1 >>> 2), rfc4648Char (((B1 &&& 3) <<< 4) ||| (B2 >>> 4)),
      rfc4648Char ((B2 &&& 15) <<< 2)]
    post x3 '='.toNat
  simp only [List.append_nil, List.length_nil, Nat.add_zero, List.nil_append,
    List.length_cons, List.cons_append, List.append_assoc] at e0 e1 e2 e3
  have q0 : op + OFF = pre.length := hop
  have q1 : op + (1 + OFF) = pre.length + 1 := by omega
  have q2 : op + (2 + OFF) = pre.length + 1 + 1 := by omega
  have q3 : op + (3 + OFF) = pre.length + 1 + 1 + 1 := by omega
  have k2 : shl (B1 &&& 3) 4 ||| sar B2 4 = ((B1 &&& 3) <<< 4) ||| (B2 >>> 4) := by
    rw [shl_of_lt _ 4 (by rw [and_3]; omega) (by omega), sar_of_lt B2 4 (by omega)]
  simp only [FINALIZE_ENCODE2, charToInt_of_lt _ h1, charToInt_of_lt _ h2,
    sar_of_lt B1 2 (by omega), k2,
    encode_idx3_final, encodeChar_lt _ i1, encodeChar_lt _ i2, encodeChar_lt _ i3,
    bind, Except.bind,
    q0, q1, q2, q3, e0, e1, e2, e3, rfc4648Encode, List.cons_append,
    List.append_assoc, List.nil_append]

theorem load_zero (a : Nat) (l : List Nat) : load (a :: l) 0 = .ok a := by
  simp [load]

theorem load_succ (a : Nat) (l : List Nat) (i : Nat) : load (a :: l) (i + 1) = load l i := by
  simp [load]

theorem load_one (a : Nat) (l : List Nat) : load (a :: l) 1 = load l 0 := by
  simp [load]

theorem load_two (a : Nat) (l : List Nat) : load (a :: l) 2 = load l 1 := by
  simp [load]

theorem slowEncodeLoop_cons (m b1 b2 b3 : Nat) (rest out : List Nat) (op : Nat) :
    slowEncodeLoop (m + 1) (b1 :: b2 :: b3 :: rest) out op =
      (ENCODE_UNIT b1 b2 b3 out op 0).bind
        (fun out1 => slowEncodeLoop m rest out1 (op + 4)) := by
  rw [slowEncodeLoop, load_zero, load_one, load_zero, load_two, load_one, load_zero]
  rfl

theorem slowEncodeLoop_ascii (m : Nat) : ∀ (P rest pre mid post : List Nat),
    P.length = 3 * m → (∀ b ∈ P, b < 128) → mid.length = 4 * m →
    slowEncodeLoop m (P ++ rest) (pre ++ mid ++ post) pre.length
      = .ok (rest, pre ++ rfc4648Encode P ++ post, pre.length + 4 * m) := by
  induction m with
  | zero =>
    intro P rest pre mid post hP _ hmid
    have hP0 : P = [] := List.length_eq_zero.mp (by omega)
    have hm0 : mid = [] := List.length_eq_zero.mp (by omega)
    subst hP0 hm0
    simp [slowEncodeLoop, rfc4648Encode]
  | succ m ih =>
    intro P rest pre mid post hP hb hmid
    rcases P with _ | ⟨b1, _ | ⟨b2, _ | ⟨b3, P⟩⟩⟩ <;>
      simp only [List.length_cons, List.length_nil] at hP <;> try omega
    rcases mid with _ | ⟨m1, _ | ⟨m2, _ | ⟨m3, _ | ⟨m4, mid⟩⟩⟩⟩ <;>
      simp only [List.length_cons, List.length_nil] at hmid <;> try omega
    have h1 : b1 < 128 := hb b1 (by simp)
    have h2 : b2 < 128 := hb b2 (by simp)
    have h3 : b3 < 128 := hb b3 (by simp)
    have hb' : ∀ b ∈ P, b < 128 := fun b hbP => hb b (by simp [hbP])
    have unit := ENCODE_UNIT_ascii b1 b2 b3 h1 h2 h3 pre (mid ++ post) m1 m2 m3 m4
      pre.length 0 (by omega)
    have step := ih P rest (pre ++ rfc4648Encode [b1, b2, b3]) mid post (by omega) hb'
      (by omega)
    have hlen : (pre ++ rfc4648Encode [b1, b2, b3]).length = pre.length + 4 := by
      simp [rfc4648Encode]
    rw [hlen] at step
    simp only [List.cons_append, List.append_assoc, List.nil_append] at unit step ⊢
    rw [slowEncodeLoop_cons, unit, Except.bind, step]
    simp only [rfc4648Encode_group, rfc4648Encode, List.cons_append, List.append_assoc,
      List.nil_append, Except.ok.injEq, Prod.mk.injEq, true_and]
    omega

theorem split_tail4 (R : List Nat) (n : Nat) (h : R.length = n + 4) :
    ∃ x0 x1 x2 x3, R = R.take n ++ [x0, x1, x2, x3] := by
  have hd : (R.drop n).length = 4 := by simp [h]
  rcases hR : R.drop n with _ | ⟨x0, _ | ⟨x1, _ | ⟨x2, _ | ⟨x3, _ | ⟨x4, t⟩⟩⟩⟩⟩ <;>
    rw [hR] at hd <;> simp only [List.length_cons, List.length_nil] at hd <;> try omega
  exact ⟨x0, x1, x2, x3, by rw [← hR, List.take_append_drop]⟩

/-- The slow encoder on 7-bit data: for every sequence `B` of bytes below 0x80
and whatever the output string held before, `Base64EncodingSlowPath` returns
the reference encoding of `B`. -/
theorem Base64EncodingSlowPath_ascii (B : List Nat) (hb : ∀ b ∈ B, b < 128)
    (out0 : List Nat) :
    Base64EncodingSlowPath B B.length out0 = .ok (rfc4648Encode B) := by
  obtain ⟨m, P, Q, hB, hP, hQ⟩ :
      ∃ m P Q, B = P ++ Q ∧ P.length = 3 * m ∧ Q.length < 3 := by
    refine ⟨B.length / 3, B.take (3 * (B.length / 3)), B.drop (3 * (B.length / 3)),
      (List.take_append_drop _ _).symm, ?_, ?_⟩
    · rw [List.length_take]; omega
    · rw [List.length_drop]; omega
  subst hB
  have hbP : ∀ b ∈ P, b < 128 := fun b h => hb b (by simp [h])
  have hbQ : ∀ b ∈ Q, b < 128 := fun b h => hb b (by simp [h])
  obtain ⟨el, -, -, ec⟩ := rfc4648Encode_full m P hP
    (fun b h => Nat.lt_trans (hbP b h) (by decide))
  rw [ec Q]
  have hdiv : (P ++ Q).length / 3 = m := by rw [List.length_append]; omega
  have hmod : (P ++ Q).length % 3 = Q.length := by rw [List.length_append]; omega
  rcases Q with _ | ⟨b1, _ | ⟨b2, _ | ⟨b3, Q⟩⟩⟩ <;>
    simp only [List.length_cons, List.length_nil] at hQ hmod <;> try omega
  · have hsz : ENCODE_SIZE (P ++ []).length = 4 * m := by
      simp only [ENCODE_SIZE, List.append_nil]; omega
    have hm : (resize out0 (4 * m)).length = 4 * m := resize_length _ _
    have loop := slowEncodeLoop_ascii m P [] [] (resize out0 (4 * m)) [] hP hbP hm
    simp only [List.nil_append, List.append_nil, List.length_nil, Nat.zero_add] at loop
    simp only [List.append_nil] at hdiv hmod hsz ⊢
    rw [Base64EncodingSlowPath, hdiv, hmod, hsz, loop]
    simp only [rfc4648Encode, List.append_nil]
    rfl
  · have hsz : ENCODE_SIZE (P ++ [b1]).length = 4 * m + 4 := by
      simp only [ENCODE_SIZE, List.length_append, List.length_cons, List.length_nil]; omega
    obtain ⟨x0, x1, x2, x3, e⟩ := split_tail4 _ _ (resize_length out0 (4 * m + 4))
    have hm : ((resize out0 (4 * m + 4)).take (4 * m)).length = 4 * m := by
      rw [List.length_take, resize_length]; omega
    have loop := slowEncodeLoop_ascii m P [b1] [] _ [x0, x1, x2, x3] hP hbP hm
    simp only [List.nil_append, List.length_nil, Nat.zero_add] at loop
    rw [← e] at loop
    have fin := FINALIZE_ENCODE1_ascii b1 (hbQ b1 (by simp)) (rfc4648Encode P) []
      x0 x1 x2 x3 (4 * m) 0 (by omega)
    simp only [List.append_nil] at fin
    rw [Base64EncodingSlowPath, hdiv, hmod, hsz, loop]
    simp only [bind, Except.bind]
    simp only [load_zero, fin]
  · have hsz : ENCODE_SIZE (P ++ [b1, b2]).length = 4 * m + 4 := by
      simp only [ENCODE_SIZE, List.length_append, List.length_cons, List.length_nil]; omega
    obtain ⟨x0, x1, x2, x3, e⟩ := split_tail4 _ _ (resize_length out0 (4 * m + 4))
    have hm : ((resize out0 (4 * m + 4)).take (4 * m)).length = 4 * m := by
      rw [List.length_take, resize_length]; omega
    have loop := slowEncodeLoop_ascii m P [b1, b2] [] _ [x0, x1, x2, x3] hP hbP hm
    simp only [List.nil_append, List.length_nil, Nat.zero_add] at loop
    rw [← e] at loop
    have fin := FINALIZE_ENCODE2_ascii b1 b2 (hbQ b1 (by simp)) (hbQ b2 (by simp))
      (rfc4648Encode P) [] x0 x1 x2 x3 (4 * m) 0 (by omega)
    simp only [List.append_nil] at fin
    rw [Base64EncodingSlowPath, hdiv, hmod, hsz, loop]
    simp only [bind, Except.bind]
    simp only [load_zero, load_one, fin]

theorem store_block (pre l post : List Nat) (j v : Nat) (h : j < l.length) :
    store (pre ++ l ++ post) (pre.length + j) v = .ok (pre ++ l.set j v ++ post) := by
  have hlt : pre.length + j < (pre ++ l ++ post).length := by
    simp only [List.length_append]; omega
  rw [store, if_pos hlt]
  congr 1
  rw [List.append_assoc, List.append_assoc, List.set_append_right _ _ (Nat.le_add_right _ _),
    Nat.add_sub_cancel_left, List.set_append_left _ _ h]

theorem enc_c1 (b : Nat) (h : b < 256) :
    encodeChar (sar (ucharToInt b) 2) = .ok (rfc4648Char (b >>> 2)) := by
  rw [ucharToInt, sar_of_lt b 2 h, encodeChar_lt _ (idx1_lt b h)]

theorem enc_c2 (b1 b2 : Nat) (h1 : b1 < 256) (h2 : b2 < 256) :
    encodeChar ((shl (ucharToInt b1) 4 ||| sar (ucharToInt b2) 4) &&& 63)
      = .ok (rfc4648Char (((b1 &&& 3) <<< 4) ||| (b2 >>> 4))) := by
  rw [ucharToInt, ucharToInt, encode_idx2 b1 b2 h1 h2, encodeChar_lt _ (idx2_lt b1 b2 h2)]

theorem enc_c3 (b2 b3 : Nat) (h2 : b2 < 256) (h3 : b3 < 256) :
    encodeChar ((shl (ucharToInt b2) 2 ||| sar (ucharToInt b3) 6) &&& 63)
      = .ok (rfc4648Char (((b2 &&& 15) <<< 2) ||| (b3 >>> 6))) := by
  rw [ucharToInt, ucharToInt, encode_idx3 b2 b3 h2 h3, encodeChar_lt _ (idx3_lt b2 b3 h3)]

theorem enc_c4 (b : Nat) :
    encodeChar (ucharToInt b &&& 63) = .ok (rfc4648Char (b &&& 63)) := by
  rw [ucharToInt, encodeChar_lt _ (idx4_lt b)]

theorem ok_bind {α β : Type} (x : α) (f : α → Except Fault β) :
    (Except.ok x >>= f) = f x := rfl

/-- One iteration of the fast encoder loop on twelve bytes: the sixteen
positions after `pre` receive the reference encoding of the twelve bytes. -/
theorem fastEncodeBody_bytes (x0 x1 x2 x3 x4 x5 x6 x7 x8 x9 x10 x11 : Nat)
    (h0 : x0 < 256) (h1 : x1 < 256) (h2 : x2 < 256) (h3 : x3 < 256) (h4 : x4 < 256)
    (h5 : x5 < 256) (h6 : x6 < 256) (h7 : x7 < 256) (h8 : x8 < 256) (h9 : x9 < 256)
    (h10 : x10 < 256) (h11 : x11 < 256) (rest pre post : List Nat)
    (y0 y1 y2 y3 y4 y5 y6 y7 y8 y9 y10 y11 y12 y13 y14 y15 : Nat) :
    fastEncodeBody (x0 :: x1 :: x2 :: x3 :: x4 :: x5 :: x6 :: x7 :: x8 :: x9 :: x10 :: x11 :: rest)
        (pre ++ [y0, y1, y2, y3, y4, y5, y6, y7, y8, y9, y10, y11, y12, y13, y14, y15] ++ post)
        pre.length
      = .ok (pre ++ rfc4648Encode [x0, x1, x2, x3, x4, x5, x6, x7, x8, x9, x10, x11] ++ post) := by
  rw [fastEncodeBody]
  simp only [load_zero, load_succ, ok_bind,
    enc_c1 _ h0, enc_c1 _ h3, enc_c1 _ h6, enc_c1 _ h9,
    enc_c2 _ _ h0 h1, enc_c2 _ _ h3 h4, enc_c2 _ _ h6 h7, enc_c2 _ _ h9 h10,
    enc_c3 _ _ h1 h2, enc_c3 _ _ h4 h5, enc_c3 _ _ h7 h8, enc_c3 _ _ h10 h11,
    enc_c4]
  iterate 15 rw [store_block, ok_bind]
  rw [store_block]
  · rfl
  all_goals simp

theorem ENCODE_UNIT_block (B1 B2 B3 : Nat) (pre l post : List Nat) (OFF : Nat)
    (h1 : B1 < 128) (h2 : B2 < 128) (h3 : B3 < 128) (hl : 3 + OFF < l.length) :
    ENCODE_UNIT B1 B2 B3 (pre ++ l ++ post) pre.length OFF
      = .ok (pre ++ (((l.set OFF (rfc4648Char (B1 >>> 2))).set (1 + OFF)
          (rfc4648Char (((B1 &&& 3) <<< 4) ||| (B2 >>> 4)))).set (2 + OFF)
          (rfc4648Char (((B2 &&& 15) <<< 2) ||| (B3 >>> 6)))).set (3 + OFF)
          (rfc4648Char (B3 &&& 63)) ++ post) := by
  have i1 := idx1_lt B1 (by omega)
  have i2 := idx2_lt B1 B2 (by omega)
  have i3 := idx3_lt B2 B3 (by omega)
  have i4 := idx4_lt B3
  rw [ENCODE_UNIT]
  simp only [charToInt_of_lt _ h1, charToInt_of_lt _ h2, charToInt_of_lt _ h3,
    sar_of_lt B1 2 (by omega), encode_idx2 B1 B2 (by omega) (by omega),
    encode_idx3 B2 B3 (by omega) (by omega), encodeChar_lt _ i1, encodeChar_lt _ i2,
    encodeChar_lt _ i3, encodeChar_lt _ i4, ok_bind]
  rw [store_block, ok_bind, store_block, ok_bind, store_block, ok_bind, store_block]
  all_goals try simp only [List.length_set]
  all_goals omega

theorem FINALIZE_ENCODE1_block (B1 : Nat) (pre l post : List Nat) (OFF : Nat)
    (h1 : B1 < 128) (hl : 3 + OFF < l.length) :
    FINALIZE_ENCODE1 B1 (pre ++ l ++ post) pre.length OFF
      = .ok (pre ++ (((l.set OFF (rfc4648Char (B1 >>> 2))).set (1 + OFF)
          (rfc4648Char ((B1 &&& 3) <<< 4))).set (2 + OFF) '='.toNat).set (3 + OFF)
          '='.toNat ++ post) := by
  have i1 := idx1_lt B1 (by omega)
  have i2 := idx2_final_lt B1
  rw [FINALIZE_ENCODE1]
  simp only [charToInt_of_lt _ h1, sar_of_lt B1 2 (by omega), encode_idx2_final,
    encodeChar_lt _ i1, encodeChar_lt _ i2, ok_bind]
  rw [store_block, ok_bind, store_block, ok_bind, store_block, ok_bind, store_block]
  all_goals try simp only [List.length_set]
  all_goals omega

theorem FINALIZE_ENCODE2_block (B1 B2 : Nat) (pre l post : List Nat) (OFF : Nat)
    (h1 : B1 < 128) (h2 : B2 < 128) (hl : 3 + OFF < l.length) :
    FINALIZE_ENCODE2 B1 B2 (pre ++ l ++ post) pre.length OFF
      = .ok (pre ++ (((l.set OFF (rfc4648Char (B1 >>> 2))).set (1 + OFF)
          (rfc4648Char (((B1 &&& 3) <<< 4) ||| (B2 >>> 4)))).set (2 + OFF)
          (rfc4648Char ((B2 &&& 15) <<< 2))).set (3 + OFF) '='.toNat ++ post) := by
  have i1 := idx1_lt B1 (by omega)
  have i2 := idx2_lt B1 B2 (by omega)
  have i3 := idx3_final_lt B2
  have k2 : shl (B1 &&& 3) 4 ||| sar B2 4 = ((B1 &&& 3) <<< 4) ||| (B2 >>> 4) := by
    rw [shl_of_lt _ 4 (by rw [and_3]; omega) (by omega), sar_of_lt B2 4 (by omega)]
  rw [FINALIZE_ENCODE2]
  simp only [charToInt_of_lt _ h1, charToInt_of_lt _ h2, sar_of_lt B1 2 (by omega), k2,
    encode_idx3_final, encodeChar_lt _ i1, encodeChar_lt _ i2, encodeChar_lt _ i3, ok_bind]
  rw [store_block, ok_bind, store_block, ok_bind, store_block, ok_bind, store_block]
  all_goals try simp only [List.length_set]
  all_goals omega

theorem fastEncodeLoop_succ (k : Nat) (input out : List Nat) (op : Nat) :
    fastEncodeLoop (k + 1) input out op =
      (fastEncodeBody input out op).bind
        (fun out1 => fastEncodeLoop k (input.drop 12) out1 (op + 16)) := rfl

theorem fastEncodeTail_ascii (Q : List Nat) (hQ : Q.length < 12) (hb : ∀ b ∈ Q, b < 128)
    (pre l post : List Nat) (hl : l.length = ENCODE_SIZE Q.length) :
    fastEncodeTail Q.length Q (pre ++ l ++ post) pre.length
      = .ok (pre ++ rfc4648Encode Q ++ post) := by
  rcases Q with _ | ⟨q0, _ | ⟨q1, _ | ⟨q2, _ | ⟨q3, _ | ⟨q4, _ | ⟨q5, _ | ⟨q6, _ | ⟨q7,
    _ | ⟨q8, _ | ⟨q9, _ | ⟨q10, _ | ⟨q11, Q⟩⟩⟩⟩⟩⟩⟩⟩⟩⟩⟩⟩ <;>
  simp only [List.length_cons, List.length_nil, ENCODE_SIZE, Nat.reduceAdd, Nat.reduceDiv,
    Nat.reduceMul, Nat.zero_add] at hQ hl ⊢ <;>
  (try omega) <;>
  (rcases l with _ | ⟨y0, _ | ⟨y1, _ | ⟨y2, _ | ⟨y3, _ | ⟨y4, _ | ⟨y5, _ | ⟨y6, _ | ⟨y7,
      _ | ⟨y8, _ | ⟨y9, _ | ⟨y10, _ | ⟨y11, _ | ⟨y12, _ | ⟨y13, _ | ⟨y14, _ | ⟨y15,
      _ | ⟨y16, l⟩⟩⟩⟩⟩⟩⟩⟩⟩⟩⟩⟩⟩⟩⟩⟩⟩ <;>
    simp only [List.length_cons, List.length_nil] at hl <;>
    (try omega)) <;>
  (try simp only [List.mem_cons, List.mem_singleton, forall_eq_or_imp, forall_eq,
      List.not_mem_nil, false_imp_iff, implies_true, and_true] at hb) <;>
  simp only [fastEncodeTail, ENCODE3, FINALIZE1, FINALIZE2, load_zero, load_succ,
      ok_bind]
  all_goals
    repeat (first
      | rw [ENCODE_UNIT_block, ok_bind]
      | rw [ENCODE_UNIT_block]
      | rw [FINALIZE_ENCODE1_block]
      | rw [FINALIZE_ENCODE2_block])
  all_goals try simp only [List.length_set, List.length_cons, List.length_nil]
  all_goals try omega
  all_goals
    simp only [Nat.reduceAdd, List.set_cons_zero, List.set_cons_succ, rfc4648Encode,
      List.cons_append, List.nil_append, List.append_assoc, List.append_nil]

theorem fastEncodeLoop_bytes (k : Nat) : ∀ (P rest pre mid post : List Nat),
    P.length = 12 * k → (∀ b ∈ P, b < 256) → mid.length = 16 * k →
    fastEncodeLoop k (P ++ rest) (pre ++ mid ++ post) pre.length
      = .ok (rest, pre ++ rfc4648Encode P ++ post, pre.length + 16 * k) := by
  induction k with
  | zero =>
    intro P rest pre mid post hP _ hmid
    have hP0 : P = [] := List.length_eq_zero.mp (by omega)
    have hm0 : mid = [] := List.length_eq_zero.mp (by omega)
    subst hP0 hm0
    simp [fastEncodeLoop, rfc4648Encode]
  | succ k ih =>
    intro P rest pre mid post hP hb hmid
    rcases P with _ | ⟨x0, _ | ⟨x1, _ | ⟨x2, _ | ⟨x3, _ | ⟨x4, _ | ⟨x5, _ | ⟨x6, _ | ⟨x7,
      _ | ⟨x8, _ | ⟨x9, _ | ⟨x10, _ | ⟨x11, P⟩⟩⟩⟩⟩⟩⟩⟩⟩⟩⟩⟩ <;>
      simp only [List.length_cons, List.length_nil] at hP <;> try omega
    rcases mid with _ | ⟨y0, _ | ⟨y1, _ | ⟨y2, _ | ⟨y3, _ | ⟨y4, _ | ⟨y5, _ | ⟨y6, _ | ⟨y7,
      _ | ⟨y8, _ | ⟨y9, _ | ⟨y10, _ | ⟨y11, _ | ⟨y12, _ | ⟨y13, _ | ⟨y14, _ | ⟨y15,
      mid⟩⟩⟩⟩⟩⟩⟩⟩⟩⟩⟩⟩⟩⟩⟩⟩ <;>
      simp only [List.length_cons, List.length_nil] at hmid <;> try omega
    have hb' : ∀ b ∈ P, b < 256 := fun b hbP => hb b (by simp [hbP])
    have body := fastEncodeBody_bytes x0 x1 x2 x3 x4 x5 x6 x7 x8 x9 x10 x11
      (hb x0 (by simp)) (hb x1 (by simp)) (hb x2 (by simp)) (hb x3 (by simp))
      (hb x4 (by simp)) (hb x5 (by simp)) (hb x6 (by simp)) (hb x7 (by simp))
      (hb x8 (by simp)) (hb x9 (by simp)) (hb x10 (by simp)) (hb x11 (by simp))
      (P ++ rest) pre (mid ++ post) y0 y1 y2 y3 y4 y5 y6 y7 y8 y9 y10 y11 y12 y13 y14 y15
    have step := ih P rest
      (pre ++ rfc4648Encode [x0, x1, x2, x3, x4, x5, x6, x7, x8, x9, x10, x11]) mid post
      (by omega) hb' (by omega)
    have hlen : (pre ++ rfc4648Encode
        [x0, x1, x2, x3, x4, x5, x6, x7, x8, x9, x10, x11]).length = pre.length + 16 := by
      simp [rfc4648Encode]
    rw [hlen] at step
    simp only [List.cons_append, List.append_assoc, List.nil_append] at body step ⊢
    rw [fastEncodeLoop_succ, body, Except.bind]
    simp only [List.drop_succ_cons, List.drop_zero]
    rw [step]
    simp only [rfc4648Encode_group, rfc4648Encode, List.cons_append, List.append_assoc,
      List.nil_append, Except.ok.injEq, Prod.mk.injEq, true_and]
    omega

/-- The fast encoder on 7-bit data: with `mid` the `ENCODE_SIZE` bytes of the
output string that `output` points to, `Base64EncodingFastPath` replaces them
by the reference encoding of `B` and leaves the rest of the string alone. -/
theorem Base64EncodingFastPath_ascii (B : List Nat) (hb : ∀ b ∈ B, b < 128)
    (pre mid post : List Nat) (hmid : mid.length = ENCODE_SIZE B.length) :
    Base64EncodingFastPath B B.length (pre ++ mid ++ post) pre.length
      = .ok (pre ++ rfc4648Encode B ++ post) := by
  obtain ⟨k, P, Q, hB, hP, hQ⟩ :
      ∃ k P Q, B = P ++ Q ∧ P.length = 12 * k ∧ Q.length < 12 := by
    refine ⟨B.length / 12, B.take (12 * (B.length / 12)), B.drop (12 * (B.length / 12)),
      (List.take_append_drop _ _).symm, ?_, ?_⟩
    · rw [List.length_take]; omega
    · rw [List.length_drop]; omega
  subst hB
  have hbP : ∀ b ∈ P, b < 128 := fun b h => hb b (by simp [h])
  have hbQ : ∀ b ∈ Q, b < 128 := fun b h => hb b (by simp [h])
  have hbP' : ∀ b ∈ P, b < 256 := fun b h => Nat.lt_trans (hbP b h) (by decide)
  obtain ⟨el, -, -, ec⟩ := rfc4648Encode_full (4 * k) P (by omega) hbP'
  have hdiv : (P ++ Q).length / 12 = k := by rw [List.length_append]; omega
  have hmod : (P ++ Q).length % 12 = Q.length := by rw [List.length_append]; omega
  have hsz : mid.length = 16 * k + ENCODE_SIZE Q.length := by
    rw [hmid, List.length_append]; simp only [ENCODE_SIZE]; omega
  have hm1 : (mid.take (16 * k)).length = 16 * k := by rw [List.length_take]; omega
  have hm2 : (mid.drop (16 * k)).length = ENCODE_SIZE Q.length := by
    rw [List.length_drop]; omega
  have loop := fastEncodeLoop_bytes k P Q pre (mid.take (16 * k))
    (mid.drop (16 * k) ++ post) hP hbP' hm1
  rw [← List.append_assoc, List.append_assoc pre, List.take_append_drop] at loop
  have tail := fastEncodeTail_ascii Q hQ hbQ (pre ++ rfc4648Encode P) (mid.drop (16 * k))
    post hm2
  rw [List.length_append, el, show 4 * (4 * k) = 16 * k by omega] at tail
  rw [Base64EncodingFastPath, hdiv, hmod, loop]
  simp only [bind, Except.bind]
  rw [← List.append_assoc, tail, ec Q, List.append_assoc pre]

/-- The encoder on 7-bit data.  For every non-empty sequence `B` of
bytes below 0x80 and whatever the output string held before, `Base64Encode`
returns the reference encoding of `B` when the input address has residue 0, 2
or 3 modulo 4, and also at residue 1 when `B` has at least three bytes. -/
theorem Base64Encode_ascii (addr : Nat) (B out0 : List Nat) (hne : B ≠ [])
    (hb : ∀ b ∈ B, b < 128) (hsmall : B.length < 2 ^ 64)
    (hres : addr % 4 ≠ 1 ∨ 3 ≤ B.length) :
    Base64Encode addr B B.length out0 = .ok (rfc4648Encode B) := by
  have hn : 0 < B.length := List.length_pos.mpr hne
  have hbits : addr &&& 3 = addr % 4 := and_3 addr
  have hlt : addr % 4 < 4 := Nat.mod_lt _ (by decide)
  have hassert : assert (decide (B.length > 0)) = .ok () := by simp [assert, hn]
  rw [Base64Encode, hbits, hassert, ok_bind]
  rcases h4 : addr % 4 with _ | _ | _ | _ | r
  · have h := Base64EncodingFastPath_ascii B hb [] (resize out0 (ENCODE_SIZE B.length)) []
      (resize_length _ _)
    simpa using h
  · have h3 : 3 ≤ B.length := by
      rcases hres with h | h
      · omega
      · exact h
    rcases B with _ | ⟨b0, _ | ⟨b1, _ | ⟨b2, B⟩⟩⟩ <;>
      simp only [List.length_cons, List.length_nil] at h3 hsmall <;> try omega
    have hR : (resize out0 (ENCODE_SIZE (b0 :: b1 :: b2 :: B).length)).length =
        ENCODE_SIZE B.length + 4 := by
      rw [resize_length]; simp only [ENCODE_SIZE, List.length_cons]; omega
    obtain ⟨y0, y1, y2, y3, rest, e, hrest⟩ : ∃ y0 y1 y2 y3 rest,
        resize out0 (ENCODE_SIZE (b0 :: b1 :: b2 :: B).length) = y0 :: y1 :: y2 :: y3 :: rest
          ∧ rest.length = ENCODE_SIZE B.length := by
      rcases hr : resize out0 (ENCODE_SIZE (b0 :: b1 :: b2 :: B).length) with
        _ | ⟨y0, _ | ⟨y1, _ | ⟨y2, _ | ⟨y3, rest⟩⟩⟩⟩ <;>
        rw [hr] at hR <;> simp only [List.length_cons, List.length_nil] at hR <;>
        try omega
      exact ⟨y0, y1, y2, y3, rest, rfl, by omega⟩
    have unit := ENCODE_UNIT_ascii b0 b1 b2 (hb b0 (by simp)) (hb b1 (by simp))
      (hb b2 (by simp)) [] rest y0 y1 y2 y3 0 0 rfl
    have fast := Base64EncodingFastPath_ascii B (fun b h => hb b (by simp [h]))
      (rfc4648Encode [b0, b1, b2]) rest [] hrest
    have hwrap : ((b0 :: b1 :: b2 :: B).length + 2 ^ 64 - 3) % 2 ^ 64 = B.length := by
      simp only [List.length_cons]; omega
    have h4len : (rfc4648Encode [b0, b1, b2]).length = 4 := by simp [rfc4648Encode]
    rw [h4len] at fast
    simp only [List.nil_append, List.append_nil] at unit fast
    simp only [e, load_zero, load_succ, ok_bind, unit, hwrap, List.drop_succ_cons,
      List.drop_zero, fast]
    simp [rfc4648Encode]
  · exact Base64EncodingSlowPath_ascii B hb out0
  · exact Base64EncodingSlowPath_ascii B hb out0
  · omega

/-! ### The dispatchers -/

/-- With bit 1 of the input address clear `Base64Decode` is the fast path. -/
theorem Base64Decode_of_aligned (addr : Nat) (h : addr &&& 2 = 0) (input : List Nat)
    (length : Nat) (output : List Nat) :
    Base64Decode addr input length output = Base64DecodeFastPath input length output := by
  simp [Base64Decode, h]

/-- Decoding of canonical text through the dispatcher: for every non-empty
sequence `B` of bytes, held as canonical text at an address with bit 1 clear,
`Base64Decode` returns `true` and leaves exactly `B` in the output. -/
theorem Base64Decode_canonical_of_aligned (addr : Nat) (h : addr &&& 2 = 0) (B : List Nat)
    (hne : B ≠ []) (hb : ∀ b ∈ B, b < 256) (out0 : List Nat) :
    Base64Decode addr (rfc4648Encode B) (rfc4648Encode B).length out0 = .ok (true, B) := by
  rw [Base64Decode_of_aligned addr h]
  exact Base64DecodeFastPath_canonical B hne hb out0

/-- The reference encoding of `n` bytes has `ENCODE_SIZE n` characters. -/
theorem rfc4648Encode_length (B : List Nat) :
    (rfc4648Encode B).length = ENCODE_SIZE B.length := by
  induction B using rfc4648Encode.induct with
  | case1 => rfl
  | case2 b1 => simp [rfc4648Encode, ENCODE_SIZE]
  | case3 b1 b2 => simp [rfc4648Encode, ENCODE_SIZE]
  | case4 b1 b2 b3 rest ih =>
    simp only [rfc4648Encode_group, List.length_cons, ih, ENCODE_SIZE]
    omega

/-- Round trip on 7-bit data through the fast decoder: for every non-empty
sequence `B` of bytes below 0x80, encoded at an address of residue 0, 2 or 3
(or of residue 1 when `B` has at least three bytes), the text that
`Base64Encode` produces, held at an address with bit 1 clear, is decoded by
`Base64Decode` to exactly `B`. -/
theorem roundtrip_ascii_of_aligned (ea da : Nat) (B out0 out1 : List Nat) (hne : B ≠ [])
    (hb : ∀ b ∈ B, b < 128) (hsmall : B.length < 2 ^ 64)
    (hres : ea % 4 ≠ 1 ∨ 3 ≤ B.length) (hda : da &&& 2 = 0) :
    ∃ T, Base64Encode ea B B.length out0 = .ok T ∧
      Base64Decode da T T.length out1 = .ok (true, B) :=
  ⟨rfc4648Encode B, Base64Encode_ascii ea B out0 hne hb hsmall hres,
    Base64Decode_canonical_of_aligned da hda B hne
      (fun b h => Nat.lt_trans (hb b h) (by decide)) out1⟩

theorem slowDecodeBody_two_valid (c0 c1 c2 c3 c4 c5 c6 c7 : Nat) (rest out : List Nat)
    (op : Nat) (a0 : isAlpha c0 = true) (a1 : isAlpha c1 = true) (a2 : isAlpha c2 = true)
    (a3 : isAlpha c3 = true) (a4 : isAlpha c4 = true) (a5 : isAlpha c5 = true)
    (a6 : isAlpha c6 = true) (a7 : isAlpha c7 = true) :
    slowDecodeBody 2 (c0 :: c1 :: c2 :: c3 :: c4 :: c5 :: c6 :: c7 :: rest) out op
      = .ok (false, out) := by
  have hc := CHAR_INVALID_of_lt (sextet c0) (sextet c1) (sextet c6) (sextet c2)
    (Nat.lt_trans (sextet_lt_of_isAlpha _ a0) (by decide))
    (Nat.lt_trans (sextet_lt_of_isAlpha _ a1) (by decide))
    (Nat.lt_trans (sextet_lt_of_isAlpha _ a6) (by decide))
    (Nat.lt_trans (sextet_lt_of_isAlpha _ a2) (by decide))
  rw [slowDecodeBody]
  simp only [load_zero, load_succ, ok_bind, decodeChar_of_isAlpha _ a0,
    decodeChar_of_isAlpha _ a1, decodeChar_of_isAlpha _ a2, decodeChar_of_isAlpha _ a3,
    decodeChar_of_isAlpha _ a4, decodeChar_of_isAlpha _ a5, decodeChar_of_isAlpha _ a6,
    decodeChar_of_isAlpha _ a7, hc]
  rfl

theorem slowDecodeLoop_succ (shift k : Nat) (input out : List Nat) (op : Nat) :
    slowDecodeLoop shift (k + 1) input out op =
      (slowDecodeBody shift input out op).bind (fun r =>
        if r.1 then slowDecodeLoop shift k (input.drop 8) r.2 (op + 6)
        else .ok (false, input, r.2, op)) := rfl

/-- The slow decoder rejects valid text: for every text of at least 8
characters whose length is a multiple of 4 and whose characters, the last two
apart, are alphabet characters, `Base64DecodeSlowPath` with shift 2 returns
`false` and leaves the output as `resize` made it. -/
theorem Base64DecodeSlowPath_rejects_valid (T out0 : List Nat) (h8 : 8 ≤ T.length)
    (h4 : T.length % 4 = 0) (hv : ∀ c ∈ T.take (T.length - 2), isAlpha c = true) :
    Base64DecodeSlowPath 2 T T.length out0
      = .ok (false, resize out0 (T.length / 4 * 3)) := by
  rcases T with _ | ⟨c0, _ | ⟨c1, _ | ⟨c2, _ | ⟨c3, _ | ⟨c4, _ | ⟨c5, _ | ⟨c6, _ | ⟨c7,
    rest⟩⟩⟩⟩⟩⟩⟩⟩ <;>
    simp only [List.length_cons, List.length_nil] at h8 <;> try omega
  have a0 : isAlpha c0 = true := hv c0 (by simp [List.take_succ_cons,
    show rest.length + 1 + 1 + 1 + 1 + 1 + 1 + 1 + 1 - 2 = rest.length + 5 + 1 by omega])
  have a1 : isAlpha c1 = true := hv c1 (by simp [List.take_succ_cons,
    show rest.length + 1 + 1 + 1 + 1 + 1 + 1 + 1 + 1 - 2 = rest.length + 4 + 1 + 1 by omega])
  have a2 : isAlpha c2 = true := hv c2 (by simp [List.take_succ_cons,
    show rest.length + 1 + 1 + 1 + 1 + 1 + 1 + 1 + 1 - 2 = rest.length + 3 + 1 + 1 + 1 by omega])
  have a3 : isAlpha c3 = true := hv c3 (by simp [List.take_succ_cons,
    show rest.length + 1 + 1 + 1 + 1 + 1 + 1 + 1 + 1 - 2
      = rest.length + 2 + 1 + 1 + 1 + 1 by omega])
  by_cases hr : rest = []
  · subst hr
    have hz : ((0 : Nat) == 0) = true := rfl
    have hc := CHAR_INVALID_of_lt (sextet c0) (sextet c1) (sextet c2) (sextet c3)
      (Nat.lt_trans (sextet_lt_of_isAlpha _ a0) (by decide))
      (Nat.lt_trans (sextet_lt_of_isAlpha _ a1) (by decide))
      (Nat.lt_trans (sextet_lt_of_isAlpha _ a2) (by decide))
      (Nat.lt_trans (sextet_lt_of_isAlpha _ a3) (by decide))
    have h87 : (8 : Nat) &&& 7 = 0 := rfl
    have h84 : ((8 : Nat) == 4) = false := rfl
    have h88 : ((8 : Nat) == 8) = true := rfl
    rw [Base64DecodeSlowPath]
    simp only [List.length_cons, List.length_nil, Nat.reduceAdd, Nat.reduceDiv,
      h87, hz, h84, h88, if_true, Nat.reduceSub, slowDecodeLoop, ok_bind, load_zero,
      load_succ, decodeChar_of_isAlpha _ a0, decodeChar_of_isAlpha _ a1,
      decodeChar_of_isAlpha _ a2, decodeChar_of_isAlpha _ a3, hc, pure, Except.pure,
      assert, Bool.not_true, Bool.false_eq_true, if_false, Bool.or_true, Bool.false_or,
      beq_self_eq_true]
  · have hrest : 4 ≤ rest.length := by
      have : rest.length ≠ 0 := fun h => hr (List.length_eq_zero.mp h)
      simp only [List.length_cons] at h4
      omega
    have hmem : ∀ c ∈ [c4, c5, c6, c7], isAlpha c = true := by
      intro c hc
      apply hv c
      have e : (c0 :: c1 :: c2 :: c3 :: c4 :: c5 :: c6 :: c7 :: rest).length - 2
          = (rest.length - 2) + 1 + 1 + 1 + 1 + 1 + 1 + 1 + 1 := by
        simp only [List.length_cons]; omega
      rw [e]
      simp only [List.take_succ_cons, List.mem_cons] at hc ⊢
      rcases hc with rfl | rfl | rfl | rfl | hc
      · simp
      · simp
      · simp
      · simp
      · simp at hc
    have a4 := hmem c4 (by simp)
    have a5 := hmem c5 (by simp)
    have a6 := hmem c6 (by simp)
    have a7 := hmem c7 (by simp)
    have body := slowDecodeBody_two_valid c0 c1 c2 c3 c4 c5 c6 c7 rest
      (resize out0 ((c0 :: c1 :: c2 :: c3 :: c4 :: c5 :: c6 :: c7 :: rest).length / 4 * 3)) 0
      a0 a1 a2 a3 a4 a5 a6 a7
    obtain ⟨k, hk⟩ : ∃ k,
        (if ((c0 :: c1 :: c2 :: c3 :: c4 :: c5 :: c6 :: c7 :: rest).length &&& 7 == 0) = true
          then (8, (c0 :: c1 :: c2 :: c3 :: c4 :: c5 :: c6 :: c7 :: rest).length / 8 - 1)
          else ((c0 :: c1 :: c2 :: c3 :: c4 :: c5 :: c6 :: c7 :: rest).length &&& 7,
            (c0 :: c1 :: c2 :: c3 :: c4 :: c5 :: c6 :: c7 :: rest).length / 8)).2 = k + 1 := by
      simp only [List.length_cons] at h4 ⊢
      rw [and_7]
      by_cases h0 : (rest.length + 1 + 1 + 1 + 1 + 1 + 1 + 1 + 1) % 8 = 0
      · refine ⟨(rest.length + 1 + 1 + 1 + 1 + 1 + 1 + 1 + 1) / 8 - 2, ?_⟩
        simp only [h0, beq_self_eq_true, if_true]
        omega
      · refine ⟨(rest.length + 1 + 1 + 1 + 1 + 1 + 1 + 1 + 1) / 8 - 1, ?_⟩
        have hne : ((rest.length + 1 + 1 + 1 + 1 + 1 + 1 + 1 + 1) % 8 == 0) = false := by
          simpa using h0
        simp only [hne, Bool.false_eq_true, if_false]
        omega
    rw [Base64DecodeSlowPath]
    simp only [hk, slowDecodeLoop_succ, body, Except.bind, Bool.false_eq_true, if_false,
      ok_bind]
    rfl

/-- With bit 1 of the input address set `Base64Decode` is the slow path with
shift 2. -/
theorem Base64Decode_of_unaligned (addr : Nat) (h : addr &&& 2 = 2) (input : List Nat)
    (length : Nat) (output : List Nat) :
    Base64Decode addr input length output = Base64DecodeSlowPath 2 input length output := by
  simp [Base64Decode, h]

theorem isAlpha_rfc4648Encode_take (B : List Nat) (hb : ∀ b ∈ B, b < 256) :
    ∀ c ∈ (rfc4648Encode B).take ((rfc4648Encode B).length - 2), isAlpha c = true := by
  by_cases hne : B = []
  · subst hne; simp [rfc4648Encode]
  have hn : 0 < B.length := List.length_pos.mpr hne
  obtain ⟨m, P, Q, hB, hP, hQ1, hQ3⟩ :
      ∃ m P Q, B = P ++ Q ∧ P.length = 3 * m ∧ 1 ≤ Q.length ∧ Q.length ≤ 3 := by
    refine ⟨(B.length - 1) / 3, B.take (3 * ((B.length - 1) / 3)),
      B.drop (3 * ((B.length - 1) / 3)), (List.take_append_drop _ _).symm, ?_, ?_, ?_⟩
    · rw [List.length_take]; omega
    · rw [List.length_drop]; omega
    · rw [List.length_drop]; omega
  subst hB
  have hbP : ∀ b ∈ P, b < 256 := fun b h => hb b (by simp [h])
  have hbQ : ∀ b ∈ Q, b < 256 := fun b h => hb b (by simp [h])
  obtain ⟨el, ea, -, ec⟩ := rfc4648Encode_full m P hP hbP
  have hq := rfc4648Encode_length_final Q hQ1 hQ3
  rw [ec Q, List.length_append, el, hq, show 4 * m + 4 - 2 = (rfc4648Encode P).length + 2 by omega,
    List.take_append]
  intro c hc
  rcases List.mem_append.mp hc with h | h
  · exact ea c h
  · rcases Q with _ | ⟨b1, _ | ⟨b2, _ | ⟨b3, _ | ⟨b4, Q⟩⟩⟩⟩ <;>
      simp only [List.length_cons, List.length_nil] at hQ1 hQ3 <;> try omega
    all_goals
      simp only [rfc4648Encode, List.cons_append, List.nil_append, List.take_succ_cons,
        List.take_zero, List.mem_cons, List.mem_singleton, List.not_mem_nil, or_false] at h
    · rcases h with rfl | rfl
      · exact isAlpha_rfc4648Char _ (idx1_lt b1 (hbQ b1 (by simp)))
      · exact isAlpha_rfc4648Char _ (idx2_final_lt b1)
    · rcases h with rfl | rfl
      · exact isAlpha_rfc4648Char _ (idx1_lt b1 (hbQ b1 (by simp)))
      · exact isAlpha_rfc4648Char _ (idx2_lt b1 b2 (hbQ b2 (by simp)))
    · rcases h with rfl | rfl
      · exact isAlpha_rfc4648Char _ (idx1_lt b1 (hbQ b1 (by simp)))
      · exact isAlpha_rfc4648Char _ (idx2_lt b1 b2 (hbQ b2 (by simp)))

/-- The slow decoder on canonical text: for every sequence `B` of at least
four bytes, held as canonical text at an address with bit 1 set,
`Base64Decode` returns `false`. -/
theorem Base64Decode_canonical_of_unaligned (addr : Nat) (h : addr &&& 2 = 2)
    (B : List Nat) (h4 : 4 ≤ B.length) (hb : ∀ b ∈ B, b < 256) (out0 : List Nat) :
    Base64Decode addr (rfc4648Encode B) (rfc4648Encode B).length out0
      = .ok (false, resize out0 ((rfc4648Encode B).length / 4 * 3)) := by
  have hl := rfc4648Encode_length B
  rw [Base64Decode_of_unaligned addr h]
  apply Base64DecodeSlowPath_rejects_valid
  · rw [hl, ENCODE_SIZE]; omega
  · rw [hl, ENCODE_SIZE]; omega
  · exact isAlpha_rfc4648Encode_take B hb

/-! ### Instances of the general theorems -/

theorem Base64DecodeFastPath_canonical_instance :
    Base64DecodeFastPath (rfc4648Encode [0xFF, 0x80, 0x00, 0x41])
        (rfc4648Encode [0xFF, 0x80, 0x00, 0x41]).length [7, 7]
      = .ok (true, [0xFF, 0x80, 0x00, 0x41]) :=
  Base64DecodeFastPath_canonical [0xFF, 0x80, 0x00, 0x41] (by decide) (by decide) [7, 7]

theorem Base64Encode_ascii_instance :
    Base64Encode 3 (ascii "Hello") (ascii "Hello").length [] = .ok (ascii "SGVsbG8=") :=
  Base64Encode_ascii 3 (ascii "Hello") [] (by decide) (by decide) (by decide) (by decide)

theorem Base64Decode_canonical_of_unaligned_instance :
    Base64Decode 6 (rfc4648Encode (ascii "Hello")) (rfc4648Encode (ascii "Hello")).length []
      = .ok (false, resize [] ((rfc4648Encode (ascii "Hello")).length / 4 * 3)) :=
  Base64Decode_canonical_of_unaligned 6 (by decide) (ascii "Hello") (by decide) (by decide) []

theorem roundtrip_ascii_of_aligned_instance :
    ∃ T, Base64Encode 2 (ascii "Hello") (ascii "Hello").length [] = .ok T ∧
      Base64Decode 8 T T.length [] = .ok (true, ascii "Hello") :=
  roundtrip_ascii_of_aligned 2 8 (ascii "Hello") [] [] (by decide) (by decide) (by decide)
    (by decide) (by decide)

/-! ### The defects, for every input -/

/-- The realignment prologue on short input: for every input of one or two
bytes held at an address of residue 1, `Base64Encode` reads past the end of
the input. -/
theorem Base64Encode_short_at_residue_1 (addr : Nat) (B out0 : List Nat)
    (h1 : 1 ≤ B.length) (h2 : B.length ≤ 2) (hres : addr % 4 = 1) :
    Base64Encode addr B B.length out0 = .error .inputRead := by
  have hbits : addr &&& 3 = 1 := by rw [and_3]; exact hres
  have hassert : assert (decide (B.length > 0)) = .ok () := by
    have : 0 < B.length := by omega
    simp [assert, this]
  rw [Base64Encode, hbits, hassert, ok_bind]
  rcases B with _ | ⟨b0, _ | ⟨b1, _ | ⟨b2, B⟩⟩⟩ <;>
    simp only [List.length_cons, List.length_nil] at h1 h2 <;> try omega
  · simp only [load_zero, load_succ, ok_bind]
    rfl
  · simp only [load_zero, load_succ, ok_bind]
    rfl

theorem encodeChar_high : ∀ b, b < 256 → 128 ≤ b →
    encodeChar (sar (charToInt b) 2) = .error .encodeTable := by
  decide

/-- The scalar macros on a high byte: for every byte of 0x80 or above that
opens a group, `ENCODE_UNIT`, `FINALIZE_ENCODE1` and `FINALIZE_ENCODE2` index
the forward table outside its 64 entries. -/
theorem scalar_macros_fault_on_high_first_byte (b B2 B3 : Nat) (h : b < 256) (hh : 128 ≤ b)
    (out : List Nat) (op OFF : Nat) :
    ENCODE_UNIT b B2 B3 out op OFF = .error .encodeTable ∧
    FINALIZE_ENCODE1 b out op OFF = .error .encodeTable ∧
    FINALIZE_ENCODE2 b B2 out op OFF = .error .encodeTable := by
  have e := encodeChar_high b h hh
  refine ⟨?_, ?_, ?_⟩
  · rw [ENCODE_UNIT]; simp only [e]; rfl
  · rw [FINALIZE_ENCODE1]; simp only [e]; rfl
  · rw [FINALIZE_ENCODE2]; simp only [e]; rfl

theorem Base64Encode_short_at_residue_1_instance :
    Base64Encode 5 [0x41, 0x42] [0x41, 0x42].length [9, 9, 9] = .error .inputRead :=
  Base64Encode_short_at_residue_1 5 [0x41, 0x42] [9, 9, 9] (by decide) (by decide) (by decide)

theorem scalar_macros_fault_on_high_first_byte_instance :
    ENCODE_UNIT 0xC3 0xA9 0x41 [0, 0, 0, 0] 0 0 = .error .encodeTable ∧
    FINALIZE_ENCODE1 0xC3 [0, 0, 0, 0] 0 0 = .error .encodeTable ∧
    FINALIZE_ENCODE2 0xC3 0xA9 [0, 0, 0, 0] 0 0 = .error .encodeTable :=
  scalar_macros_fault_on_high_first_byte 0xC3 0xA9 0x41 (by decide) (by decide)
    [0, 0, 0, 0] 0 0

theorem ne_pad_of_isAlpha_aux : ∀ c, c < 255 → isAlpha c = true →
    (c == '='.toNat) = false := by
  decide

theorem ne_pad_of_isAlpha (c : Nat) (h : isAlpha c = true) : (c == '='.toNat) = false :=
  ne_pad_of_isAlpha_aux c (isAlpha_lt c h) h

/-- The final group `c0 c1 = c3`: for all alphabet characters `c0`, `c1`, `c3`
and whatever the output string held before, `Base64DecodeFastPath` on the
four characters `c0 c1 = c3` returns `true` with one byte of output; the
character after the `=` is checked to be valid and is otherwise ignored. -/
theorem Base64DecodeFastPath_accepts_pad_then_data (c0 c1 c3 : Nat) (out0 : List Nat)
    (a0 : isAlpha c0 = true) (a1 : isAlpha c1 = true) (a3 : isAlpha c3 = true) :
    Base64DecodeFastPath [c0, c1, '='.toNat, c3] 4 out0
      = .ok (true, [toByte ((sextet c0 <<< 2) ||| (sextet c1 >>> 4))]) := by
  apply Base64DecodeFastPath_tail4 0 [] [c0, c1, '='.toNat, c3] out0 _ rfl (by simp)
  intro x0 x1 x2
  have s0 := sextet_lt_of_isAlpha _ a0
  have s1 := sextet_lt_of_isAlpha _ a1
  have s3 := sextet_lt_of_isAlpha _ a3
  have hc := CHAR_INVALID_of_lt (sextet c0) (sextet c1) 67 (sextet c3) (by omega) (by omega)
    (by omega) (by omega)
  have hst : store [x0, x1, x2] 0 (toByte ((sextet c0 <<< 2) ||| (sextet c1 >>> 4)))
      = .ok [toByte ((sextet c0 <<< 2) ||| (sextet c1 >>> 4)), x1, x2] := rfl
  rw [FINALIZE_DECODE]
  simp only [load_zero, load_succ, ok_bind, decodeChar_of_isAlpha _ a0,
    decodeChar_of_isAlpha _ a1, decodeChar_of_isAlpha _ a3, ne_pad_of_isAlpha _ a3,
    beq_self_eq_true, if_true, Bool.false_eq_true, if_false, pure, Except.pure, hc,
    decodeQuads, List.nil_append, Nat.mul_zero, Nat.zero_add, Nat.add_zero, hst,
    bne_self_eq_false]
  rfl

theorem Base64DecodeFastPath_accepts_pad_then_data_instance :
    Base64DecodeFastPath (ascii "QQ=A") 4 [] = .ok (true, [0x41]) :=
  Base64DecodeFastPath_accepts_pad_then_data 'Q'.toNat 'Q'.toNat 'A'.toNat []
    (by decide) (by decide) (by decide)

/-! ### Bit 7 and bit 1 -/

theorem and_2_cases (x : Nat) : x &&& 2 = 0 ∨ x &&& 2 = 2 := by
  have h1 : x &&& 2 ≤ 2 := Nat.and_le_right
  have h2 : (x &&& 2) &&& 1 = 0 := by
    rw [Nat.and_assoc, show (2 : Nat) &&& 1 = 0 from rfl, Nat.and_zero]
  rw [Nat.and_one_is_mod] at h2
  omega

theorem and_128_ne_zero (x : Nat) : ((x &&& 128) != 0) = x.testBit 7 := by
  have h128 : (128 : Nat) = 2 ^ 7 := rfl
  cases hb : x.testBit 7
  · have : x &&& 128 = 0 := by
      apply Nat.eq_of_testBit_eq
      intro i
      rw [Nat.testBit_and, h128, Nat.testBit_two_pow, Nat.zero_testBit]
      by_cases hi : 7 = i
      · subst hi; simp [hb]
      · simp [hi]
    simp [this]
  · have : x &&& 128 ≠ 0 := by
      intro h0
      have h7 := congrArg (fun y => Nat.testBit y 7) h0
      simp only [Nat.testBit_and, hb, h128, Nat.testBit_two_pow_self, Nat.zero_testBit,
        Bool.and_self] at h7
      exact Bool.noConfusion h7
    simp [this]

/-- The macro `CHAR_INVALID` tests bit 7 of its four arguments. -/
theorem CHAR_INVALID_eq (b1 b2 b3 b4 : Nat) :
    CHAR_INVALID b1 b2 b3 b4 =
      (b1.testBit 7 || b2.testBit 7 || b3.testBit 7 || b4.testBit 7) := by
  rw [CHAR_INVALID, and_128_ne_zero]
  simp only [Nat.testBit_or]

/-! ### Texts of four characters -/

/-- On four characters both decoders are one `FINALIZE_DECODE`. -/
theorem Base64DecodeFastPath_four (T out0 : List Nat) :
    Base64DecodeFastPath T 4 out0 =
      FINALIZE_DECODE (load T 0) (load T 1) (load T 2) (load T 3) (resize out0 3) 0 0 := rfl

theorem Base64DecodeSlowPath_four (T out0 : List Nat) :
    Base64DecodeSlowPath 2 T 4 out0 =
      FINALIZE_DECODE (load T 0) (load T 1) (load T 2) (load T 3) (resize out0 3) 0 0 := rfl

/-- A text of four characters is decoded alike at every address. -/
theorem Base64Decode_four (addr : Nat) (T out0 : List Nat) :
    Base64Decode addr T 4 out0 =
      FINALIZE_DECODE (load T 0) (load T 1) (load T 2) (load T 3) (resize out0 3) 0 0 := by
  rcases and_2_cases addr with h | h
  · rw [Base64Decode_of_aligned addr h, Base64DecodeFastPath_four]
  · rw [Base64Decode_of_unaligned addr h, Base64DecodeSlowPath_four]

theorem decodeChar_pad : decodeChar '='.toNat = .ok 255 := by decide

/-- A group whose second character is `=` is never accepted by `FINALIZE_DECODE`. -/
theorem FINALIZE_DECODE_second_pad (B1 B3 B4 : Except Fault Nat) (out : List Nat) (op O : Nat)
    (r : List Nat) :
    FINALIZE_DECODE B1 (.ok '='.toNat) B3 B4 out op O ≠ .ok (true, r) := by
  have hc : ∀ b1 b3 b4, CHAR_INVALID b1 255 b3 b4 = true := by
    intro b1 b3 b4
    rw [CHAR_INVALID_eq, show Nat.testBit 255 7 = true from rfl]
    simp
  rw [FINALIZE_DECODE]
  rcases B1 with e1 | c1
  · intro h; cases h
  rcases h1 : decodeChar c1 with e | v1
  · simp only [h1, ok_bind]; intro h; cases h
  simp only [ok_bind, h1, decodeChar_pad]
  rcases B3 with e3 | c3
  · intro h; cases h
  rcases B4 with e4 | c4
  · simp only [ok_bind]
    split <;> (try rcases decodeChar c3 with e | v3) <;> intro h <;> cases h
  have p67 : (pure 67 : Except Fault Nat) = .ok 67 := rfl
  simp only [ok_bind]
  by_cases h3 : (c3 == '='.toNat) = true <;> by_cases h4 : (c4 == '='.toNat) = true <;>
    simp only [h3, h4, if_true, if_false, p67, ok_bind, hc, Bool.false_eq_true] <;>
    rcases decodeChar c3 with e | v3 <;> rcases decodeChar c4 with e | v4 <;>
    (try simp only [ok_bind, hc, if_true]) <;> intro h <;> cases h

/-! ### The loops and their counters -/

theorem fastDecodeLoop_succ (k : Nat) (input out : List Nat) (op : Nat) :
    fastDecodeLoop (k + 1) input out op =
      (fastDecodeBody input out op).bind (fun r =>
        if r.1 then fastDecodeLoop k (input.drop 8) r.2 (op + 6)
        else .ok (false, input, r.2, op)) := rfl

theorem slowEncodeLoop_succ (k : Nat) (input out : List Nat) (op : Nat) :
    slowEncodeLoop (k + 1) input out op =
      (load input 0).bind (fun x0 => (load input 1).bind (fun x1 => (load input 2).bind
        (fun x2 => (ENCODE_UNIT x0 x1 x2 out op 0).bind
          (fun out1 => slowEncodeLoop k (input.drop 3) out1 (op + 4))))) := rfl

/-- A completed run of the loop of the fast encoder with counter `n` has
advanced `input` by `12 * n` and `output` by `16 * n`: `n` iterations. -/
theorem fastEncodeLoop_ok (n : Nat) : ∀ (input out : List Nat) (op : Nat)
    (r : List Nat × List Nat × Nat), fastEncodeLoop n input out op = .ok r →
    r.1 = input.drop (12 * n) ∧ r.2.2 = op + 16 * n := by
  induction n with
  | zero =>
    intro input out op r h
    cases h
    exact ⟨rfl, rfl⟩
  | succ n ih =>
    intro input out op r h
    rw [fastEncodeLoop_succ] at h
    rcases hb : fastEncodeBody input out op with e | o
    · rw [hb] at h; cases h
    · rw [hb] at h
      obtain ⟨h1, h2⟩ := ih _ _ _ r h
      rw [h1, h2, List.drop_drop]
      constructor
      · congr 1; omega
      · omega

/-- A completed run of the loop of the slow encoder with counter `n` has
advanced `input` by `3 * n` and `buf` by `4 * n`: `n` iterations. -/
theorem slowEncodeLoop_ok (n : Nat) : ∀ (input out : List Nat) (op : Nat)
    (r : List Nat × List Nat × Nat), slowEncodeLoop n input out op = .ok r →
    r.1 = input.drop (3 * n) ∧ r.2.2 = op + 4 * n := by
  induction n with
  | zero =>
    intro input out op r h
    cases h
    exact ⟨rfl, rfl⟩
  | succ n ih =>
    intro input out op r h
    rw [slowEncodeLoop_succ] at h
    rcases h0 : load input 0 with e | x0
    · rw [h0] at h; cases h
    rcases h1 : load input 1 with e | x1
    · rw [h0, h1] at h; cases h
    rcases h2 : load input 2 with e | x2
    · rw [h0, h1, h2] at h; cases h
    rcases hb : ENCODE_UNIT x0 x1 x2 out op 0 with e | o
    · rw [h0, h1, h2] at h
      simp only [Except.bind, hb] at h
      cases h
    · rw [h0, h1, h2] at h
      simp only [Except.bind, hb] at h
      obtain ⟨e1, e2⟩ := ih _ _ _ r h
      rw [e1, e2, List.drop_drop]
      constructor
      · congr 1; omega
      · omega

/-- A run of the loop of the fast decoder with counter `n` that ends without
a fault has made `j` full iterations for some `j ≤ n`, and `j = n` when it
has not returned `false`. -/
theorem fastDecodeLoop_ok (n : Nat) : ∀ (input out : List Nat) (op : Nat)
    (r : Bool × List Nat × List Nat × Nat), fastDecodeLoop n input out op = .ok r →
    ∃ j, j ≤ n ∧ r.2.1 = input.drop (8 * j) ∧ r.2.2.2 = op + 6 * j ∧
      (r.1 = true → j = n) := by
  induction n with
  | zero =>
    intro input out op r h
    cases h
    exact ⟨0, Nat.le_refl 0, rfl, rfl, fun _ => rfl⟩
  | succ n ih =>
    intro input out op r h
    rw [fastDecodeLoop_succ] at h
    rcases hb : fastDecodeBody input out op with e | ⟨go, o⟩
    · rw [hb] at h; cases h
    · rw [hb] at h
      cases go
      · cases h
        exact ⟨0, Nat.zero_le _, rfl, rfl, fun h => Bool.noConfusion h⟩
      · obtain ⟨j, hj, e1, e2, e3⟩ := ih _ _ _ r h
        refine ⟨j + 1, by omega, ?_, ?_, ?_⟩
        · rw [e1, List.drop_drop]; congr 1; omega
        · omega
        · intro ht; have := e3 ht; omega

/-- The same for the three loops of the slow decoder. -/
theorem slowDecodeLoop_ok (shift n : Nat) : ∀ (input out : List Nat) (op : Nat)
    (r : Bool × List Nat × List Nat × Nat), slowDecodeLoop shift n input out op = .ok r →
    ∃ j, j ≤ n ∧ r.2.1 = input.drop (8 * j) ∧ r.2.2.2 = op + 6 * j ∧
      (r.1 = true → j = n) := by
  induction n with
  | zero =>
    intro input out op r h
    cases h
    exact ⟨0, Nat.le_refl 0, rfl, rfl, fun _ => rfl⟩
  | succ n ih =>
    intro input out op r h
    rw [slowDecodeLoop_succ] at h
    rcases hb : slowDecodeBody shift input out op with e | ⟨go, o⟩
    · rw [hb] at h; cases h
    · rw [hb] at h
      cases go
      · cases h
        exact ⟨0, Nat.zero_le _, rfl, rfl, fun h => Bool.noConfusion h⟩
      · obtain ⟨j, hj, e1, e2, e3⟩ := ih _ _ _ r h
        refine ⟨j + 1, by omega, ?_, ?_, ?_⟩
        · rw [e1, List.drop_drop]; congr 1; omega
        · omega
        · intro ht; have := e3 ht; omega

/-! ### The fast decoder on any length -/

theorem load_drop (T : List Nat) (n i : Nat) : load (T.drop n) i = load T (n + i) := by
  simp [load, List.getElem?_drop]

theorem bind_ne_ok {α : Type} (x : Except Fault α) (f : α → Except Fault (Bool × List Nat))
    (r : List Nat) (h : ∀ a, f a ≠ .ok (true, r)) : (x >>= f) ≠ .ok (true, r) := by
  rcases x with e | a
  · intro h; cases h
  · exact h a

/-- The fast decoder returns `true` on no text of a positive multiple of 4
characters whose final group has `=` in its second position, whatever the
other characters are. -/
theorem Base64DecodeFastPath_rejects_second_pad (T out0 r : List Nat)
    (h4 : T.length % 4 = 0) (hpos : 0 < T.length)
    (hpad : load T (T.length - 3) = .ok '='.toNat) :
    Base64DecodeFastPath T T.length out0 ≠ .ok (true, r) := by
  have hz4 : ((4 : Nat) == 0) = false := rfl
  have hs4 : (4 : Nat) >>> 2 = 1 := rfl
  have hz0 : ((0 : Nat) == 0) = true := rfl
  have hs8 : (8 : Nat) >>> 2 = 2 := rfl
  by_cases h8 : T.length % 8 = 4
  · have h7 : T.length &&& 7 = 4 := by rw [and_7]; exact h8
    rw [Base64DecodeFastPath]
    simp only [h7, hz4, hs4, Bool.false_eq_true, if_false]
    rcases hl : fastDecodeLoop (T.length / 8) T (resize out0 (3 * (T.length / 4))) 0
      with e | ⟨go, i, o, p⟩
    · intro h; cases h
    · obtain ⟨j, hj, e1, e2, e3⟩ := fastDecodeLoop_ok _ _ _ _ _ hl
      simp only [ok_bind]
      cases go
      · intro h; cases h
      · have hjn := e3 rfl
        simp only at e1
        have l1 : load i 1 = .ok '='.toNat := by
          rw [e1, load_drop, ← hpad]; congr 1; omega
        simp only [Bool.not_true, Bool.false_eq_true, if_false, l1]
        exact FINALIZE_DECODE_second_pad _ _ _ _ _ _ _
  · have h7 : T.length &&& 7 = 0 := by rw [and_7]; omega
    rw [Base64DecodeFastPath]
    simp only [h7, hz0, hs8, if_true]
    rcases hl : fastDecodeLoop (T.length / 8 - 1) T (resize out0 (3 * (T.length / 4))) 0
      with e | ⟨go, i, o, p⟩
    · intro h; cases h
    · obtain ⟨j, hj, e1, e2, e3⟩ := fastDecodeLoop_ok _ _ _ _ _ hl
      simp only [ok_bind]
      cases go
      · intro h; cases h
      · have hjn := e3 rfl
        simp only at e1
        have l1 : load i 5 = .ok '='.toNat := by
          rw [e1, load_drop, ← hpad]; congr 1; omega
        simp only [Bool.not_true, Bool.false_eq_true, if_false, l1]
        iterate 9 (refine bind_ne_ok _ _ _ (fun _ => ?_))
        split
        · intro h; cases h
        · iterate 2 (refine bind_ne_ok _ _ _ (fun _ => ?_))
          exact FINALIZE_DECODE_second_pad _ _ _ _ _ _ _

theorem decodeQuads_append (n : Nat) : ∀ cs rest : List Nat, cs.length = 4 * n →
    decodeQuads (cs ++ rest) = decodeQuads cs ++ decodeQuads rest := by
  induction n with
  | zero =>
    intro cs rest h
    have : cs = [] := List.length_eq_zero.mp (by omega)
    subst this
    simp [decodeQuads]
  | succ n ih =>
    intro cs rest h
    rcases cs with _ | ⟨c0, _ | ⟨c1, _ | ⟨c2, _ | ⟨c3, cs⟩⟩⟩⟩ <;>
      simp only [List.length_cons, List.length_nil] at h <;> try omega
    have := ih cs rest (by omega)
    simp only [List.cons_append, decodeQuads, List.append_eq, this, List.append_assoc]

/-- The tail `switch` of the fast decoder on a length `8 * k + j` with
`j` in 1..3: `left >> 2` is 0 and the function returns `true` at once. -/
theorem Base64DecodeFastPath_tail_short (k j : Nat) (cs tl out0 : List Nat)
    (hj1 : 1 ≤ j) (hj3 : j ≤ 3)
    (hcs : cs.length = 8 * k) (hv : ∀ c ∈ cs, isAlpha c = true) :
    Base64DecodeFastPath (cs ++ tl) (8 * k + j) out0 = .ok (true, decodeQuads cs) := by
  have hR : (resize out0 (3 * ((8 * k + j) / 4))).length = 6 * k := by
    rw [resize_length]; omega
  have loop := fastDecodeLoop_valid k cs tl [] _ [] hcs hv hR
  simp only [List.nil_append, List.length_nil, Nat.zero_add, List.append_nil] at loop
  have h8 : (8 * k + j) / 8 = k := by omega
  have h7 : (8 * k + j) &&& 7 = j := by rw [and_7]; omega
  have hz : (j == 0) = false := by simp; omega
  have hs : j >>> 2 = 0 := by rw [Nat.shiftRight_eq_div_pow]; omega
  simp only [Base64DecodeFastPath, h8, h7, hz, hs, bind, Except.bind, loop, pure,
    Except.pure, Bool.false_eq_true, if_false, Bool.not_true]

/-- The tail `switch` of the fast decoder on a length `8 * k + 4 + j` with
`j` below 4: `left >> 2` is 1 and the function ends in `FINALIZE_DECODE` on
the four characters after the loop. -/
theorem Base64DecodeFastPath_tail_mid (k j : Nat) (cs tl out0 : List Nat)
    (r : Except Fault (Bool × List Nat)) (hj : j < 4)
    (hcs : cs.length = 8 * k) (hv : ∀ c ∈ cs, isAlpha c = true)
    (ht : ∀ x0 x1 x2, FINALIZE_DECODE (load tl 0) (load tl 1) (load tl 2) (load tl 3)
      (decodeQuads cs ++ [x0, x1, x2]) (6 * k) 0 = r) :
    Base64DecodeFastPath (cs ++ tl) (8 * k + 4 + j) out0 = r := by
  have hR : (resize out0 (3 * ((8 * k + 4 + j) / 4))).length = 6 * k + 3 := by
    rw [resize_length]; omega
  obtain ⟨x0, x1, x2, e⟩ := split_tail3 _ _ hR
  have hm : ((resize out0 (3 * ((8 * k + 4 + j) / 4))).take (6 * k)).length = 6 * k := by
    rw [List.length_take, hR]; omega
  have loop := fastDecodeLoop_valid k cs tl [] _ [x0, x1, x2] hcs hv hm
  simp only [List.nil_append, List.length_nil, Nat.zero_add] at loop
  rw [← e] at loop
  have h8 : (8 * k + 4 + j) / 8 = k := by omega
  have h7 : (8 * k + 4 + j) &&& 7 = 4 + j := by rw [and_7]; omega
  have hz : (4 + j == 0) = false := by simp
  have hs : (4 + j) >>> 2 = 1 := by rw [Nat.shiftRight_eq_div_pow]; omega
  simp only [Base64DecodeFastPath, h8, h7, hz, hs, bind, Except.bind, loop, pure,
    Except.pure, Bool.false_eq_true, if_false, Bool.not_true]
  exact ht x0 x1 x2

/-- The macro `FINALIZE_DECODE` on a group of four alphabet characters. -/
theorem FINALIZE_DECODE_alpha (c0 c1 c2 c3 : Nat) (tl pre : List Nat) (x0 x1 x2 op O : Nat)
    (hop : op + O = pre.length)
    (a0 : isAlpha c0 = true) (a1 : isAlpha c1 = true) (a2 : isAlpha c2 = true)
    (a3 : isAlpha c3 = true) :
    FINALIZE_DECODE (load (c0 :: c1 :: c2 :: c3 :: tl) 0) (load (c0 :: c1 :: c2 :: c3 :: tl) 1)
        (load (c0 :: c1 :: c2 :: c3 :: tl) 2) (load (c0 :: c1 :: c2 :: c3 :: tl) 3)
        (pre ++ [x0, x1, x2]) op O
      = .ok (true, pre ++ quad (sextet c0) (sextet c1) (sextet c2) (sextet c3)) :=
  FINALIZE_DECODE_full c0 c1 c2 c3 _ _ _ _ (c0 :: c1 :: c2 :: c3 :: tl) pre x0 x1 x2 op O 0 hop
    (by simp [load]) (by simp [load]) (by simp [load]) (by simp [load])
    (decodeChar_of_isAlpha _ a0) (decodeChar_of_isAlpha _ a1) (decodeChar_of_isAlpha _ a2)
    (decodeChar_of_isAlpha _ a3) (ne_pad_of_isAlpha _ a2) (ne_pad_of_isAlpha _ a3)
    (sextet_lt_of_isAlpha _ a0) (sextet_lt_of_isAlpha _ a1) (sextet_lt_of_isAlpha _ a2)
    (sextet_lt_of_isAlpha _ a3)

/-- The fast decoder on full groups of alphabet characters, an odd number
of them, followed by at most three further bytes `R`, whatever they are. -/
theorem Base64DecodeFastPath_odd_groups (P R out0 : List Nat) (hP : P.length % 8 = 4)
    (hR3 : R.length ≤ 3) (hv : ∀ c ∈ P, isAlpha c = true) :
    Base64DecodeFastPath (P ++ R) (P ++ R).length out0 = .ok (true, decodeQuads P) := by
  obtain ⟨cs, Q, hPQ, hcs, hQ⟩ : ∃ cs Q, P = cs ++ Q ∧ cs.length = 8 * (P.length / 8) ∧
      Q.length = 4 := by
    refine ⟨P.take (8 * (P.length / 8)), P.drop (8 * (P.length / 8)),
      (List.take_append_drop _ _).symm, ?_, ?_⟩
    · rw [List.length_take]; omega
    · rw [List.length_drop]; omega
  obtain ⟨c0, c1, c2, c3, rfl⟩ : ∃ c0 c1 c2 c3, Q = [c0, c1, c2, c3] := by
    rcases Q with _ | ⟨c0, _ | ⟨c1, _ | ⟨c2, _ | ⟨c3, _ | ⟨c4, Q⟩⟩⟩⟩⟩ <;>
      simp only [List.length_cons, List.length_nil] at hQ <;> try omega
    exact ⟨c0, c1, c2, c3, rfl⟩
  have hk : P.length = 8 * (P.length / 8) + 4 := by omega
  generalize P.length / 8 = k at hcs hk
  subst hPQ
  have hvc : ∀ c ∈ cs, isAlpha c = true := fun c h => hv c (by simp [h])
  have a0 := hv c0 (by simp)
  have a1 := hv c1 (by simp)
  have a2 := hv c2 (by simp)
  have a3 := hv c3 (by simp)
  rw [List.length_append, hk, List.append_assoc]
  apply Base64DecodeFastPath_tail_mid k R.length cs _ out0 _ (by omega) hcs hvc
  intro x0 x1 x2
  rw [decodeQuads_append (2 * k) cs _ (by omega)]
  simp only [List.cons_append, List.nil_append, decodeQuads, List.append_nil]
  have hl : (decodeQuads cs).length = 6 * k := by
    have := decodeQuads_length (2 * k) cs (by omega); omega
  exact FINALIZE_DECODE_alpha c0 c1 c2 c3 R (decodeQuads cs) x0 x1 x2 (6 * k) 0 (by omega)
    a0 a1 a2 a3

/-- The fast decoder on a text whose length is no multiple of 4: for every
text `P` of full groups of alphabet characters followed by one to three
further bytes `R`, whatever they are, `Base64DecodeFastPath` returns `true`
with the bytes of `P`. -/
theorem Base64DecodeFastPath_remainder (P R out0 : List Nat) (hP : P.length % 4 = 0)
    (hR1 : 1 ≤ R.length) (hR3 : R.length ≤ 3) (hv : ∀ c ∈ P, isAlpha c = true) :
    Base64DecodeFastPath (P ++ R) (P ++ R).length out0 = .ok (true, decodeQuads P) := by
  by_cases h8 : P.length % 8 = 0
  · rw [List.length_append, show P.length + R.length = 8 * (P.length / 8) + R.length by omega]
    exact Base64DecodeFastPath_tail_short (P.length / 8) R.length P R out0 hR1 hR3
      (by omega) hv
  · exact Base64DecodeFastPath_odd_groups P R out0 (by omega) hR3 hv

/-- The fast decoder on text without padding: for every non-empty text `P` of
full groups of alphabet characters, `Base64DecodeFastPath` returns `true`
with the bytes `decodeQuads P`. -/
theorem Base64DecodeFastPath_unpadded (P out0 : List Nat) (hne : P ≠ [])
    (hP : P.length % 4 = 0) (hv : ∀ c ∈ P, isAlpha c = true) :
    Base64DecodeFastPath P P.length out0 = .ok (true, decodeQuads P) := by
  have hn : 0 < P.length := List.length_pos.mpr hne
  by_cases h8 : P.length % 8 = 0
  · obtain ⟨cs, Q, hPQ, hcs, hQ⟩ : ∃ cs Q, P = cs ++ Q ∧
        cs.length = 8 * (P.length / 8 - 1) ∧ Q.length = 8 := by
      refine ⟨P.take (8 * (P.length / 8 - 1)), P.drop (8 * (P.length / 8 - 1)),
        (List.take_append_drop _ _).symm, ?_, ?_⟩
      · rw [List.length_take]; omega
      · rw [List.length_drop]; omega
    obtain ⟨c0, c1, c2, c3, c4, c5, c6, c7, rfl⟩ :
        ∃ c0 c1 c2 c3 c4 c5 c6 c7, Q = [c0, c1, c2, c3, c4, c5, c6, c7] := by
      rcases Q with _ | ⟨c0, _ | ⟨c1, _ | ⟨c2, _ | ⟨c3, _ | ⟨c4, _ | ⟨c5, _ | ⟨c6, _ | ⟨c7,
        _ | ⟨c8, Q⟩⟩⟩⟩⟩⟩⟩⟩⟩ <;>
        simp only [List.length_cons, List.length_nil] at hQ <;> try omega
      exact ⟨c0, c1, c2, c3, c4, c5, c6, c7, rfl⟩
    have hk : P.length = 8 * (P.length / 8 - 1) + 8 := by omega
    generalize P.length / 8 - 1 = k at hcs hk
    subst hPQ
    have hvc : ∀ c ∈ cs, isAlpha c = true := fun c h => hv c (by simp [h])
    have a0 := hv c0 (by simp)
    have a1 := hv c1 (by simp)
    have a2 := hv c2 (by simp)
    have a3 := hv c3 (by simp)
    have a4 := hv c4 (by simp)
    have a5 := hv c5 (by simp)
    have a6 := hv c6 (by simp)
    have a7 := hv c7 (by simp)
    have hl : (decodeQuads cs).length = 6 * k := by
      have := decodeQuads_length (2 * k) cs (by omega); omega
    rw [hk]
    apply Base64DecodeFastPath_tail8 k cs [c4, c5, c6, c7] out0 c0 c1 c2 c3 _ hcs hvc
      a0 a1 a2 a3
    intro x3 x4 x5
    rw [decodeQuads_append (2 * k) cs _ (by omega)]
    simp only [decodeQuads, List.append_nil]
    have f := FINALIZE_DECODE_alpha c4 c5 c6 c7 []
      (decodeQuads cs ++ quad (sextet c0) (sextet c1) (sextet c2) (sextet c3)) x3 x4 x5
      (6 * k) 3 (by simp [quad]; omega) a4 a5 a6 a7
    rw [f, List.append_assoc]
  · have := Base64DecodeFastPath_odd_groups P [] out0 (by omega) (by simp) hv
    rw [List.append_nil] at this
    exact this

/-! ### The validity test -/

theorem testBit_7_of_lt : ∀ v, v < 256 → Nat.testBit v 7 = decide (128 ≤ v) := by
  decide

theorem decodeChar_lt (c v : Nat) (h : decodeChar c = .ok v) : v < 256 := by
  have key : ∀ c, c < 255 → sextet c < 256 := by decide
  by_cases hc : c < 255
  · rw [decodeChar_of_lt c hc] at h
    cases h
    exact key c hc
  · have hn : kB64DecodeChar[c]? = none := by
      apply List.getElem?_eq_none
      have : kB64DecodeChar.length = 255 := by decide
      omega
    rw [decodeChar, hn] at h
    cases h

/-- The macro `CHAR_INVALID` on four byte values: true exactly when one of
them is 128 or more. -/
theorem CHAR_INVALID_iff (b1 b2 b3 b4 : Nat) (h1 : b1 < 256) (h2 : b2 < 256) (h3 : b3 < 256)
    (h4 : b4 < 256) :
    CHAR_INVALID b1 b2 b3 b4 = true ↔ 128 ≤ b1 ∨ 128 ≤ b2 ∨ 128 ≤ b3 ∨ 128 ≤ b4 := by
  rw [CHAR_INVALID_eq, testBit_7_of_lt b1 h1, testBit_7_of_lt b2 h2, testBit_7_of_lt b3 h3,
    testBit_7_of_lt b4 h4]
  simp only [Bool.or_eq_true, decide_eq_true_eq, or_assoc]

theorem store_ok (out : List Nat) (i v : Nat) (h : i < out.length) :
    ∃ out1, store out i v = .ok out1 ∧ out1.length = out.length :=
  ⟨out.set i v, by rw [store, if_pos h], by simp⟩

/-- The macro `DECODE_OCTGRP` writes inside the string when six bytes are left. -/
theorem DECODE_OCTGRP_ok (b1 b2 b3 b4 b5 b6 b7 b8 : Nat) (out : List Nat) (op : Nat)
    (h : op + 6 ≤ out.length) :
    ∃ out1, DECODE_OCTGRP b1 b2 b3 b4 b5 b6 b7 b8 out op 0 = .ok out1 ∧
      out1.length = out.length := by
  rw [DECODE_OCTGRP]
  obtain ⟨o1, e1, l1⟩ := store_ok out (op + (0 + 0)) (toByte ((b1 <<< 2) ||| (b2 >>> 4)))
    (by omega)
  obtain ⟨o2, e2, l2⟩ := store_ok o1 (op + (0 + 1)) (toByte ((b2 <<< 4) ||| (b3 >>> 2)))
    (by omega)
  obtain ⟨o3, e3, l3⟩ := store_ok o2 (op + (0 + 2)) (toByte ((b3 <<< 6) ||| b4)) (by omega)
  obtain ⟨o4, e4, l4⟩ := store_ok o3 (op + (0 + 3)) (toByte ((b5 <<< 2) ||| (b6 >>> 4)))
    (by omega)
  obtain ⟨o5, e5, l5⟩ := store_ok o4 (op + (0 + 4)) (toByte ((b6 <<< 4) ||| (b7 >>> 2)))
    (by omega)
  obtain ⟨o6, e6, l6⟩ := store_ok o5 (op + (0 + 5)) (toByte ((b7 <<< 6) ||| b8)) (by omega)
  refine ⟨o6, ?_, by omega⟩
  rw [e1, ok_bind, e2, ok_bind, e3, ok_bind, e4, ok_bind, e5, ok_bind, e6]

/-- One iteration of the fast decoder loop on eight characters with table
values `v0`..`v7`: the flag. -/
theorem fastDecodeBody_flag (c0 c1 c2 c3 c4 c5 c6 c7 v0 v1 v2 v3 v4 v5 v6 v7 : Nat)
    (rest out : List Nat) (op : Nat)
    (d0 : decodeChar c0 = .ok v0) (d1 : decodeChar c1 = .ok v1) (d2 : decodeChar c2 = .ok v2)
    (d3 : decodeChar c3 = .ok v3) (d4 : decodeChar c4 = .ok v4) (d5 : decodeChar c5 = .ok v5)
    (d6 : decodeChar c6 = .ok v6) (d7 : decodeChar c7 = .ok v7) (hop : op + 6 ≤ out.length) :
    ∃ out1, fastDecodeBody (c0 :: c1 :: c2 :: c3 :: c4 :: c5 :: c6 :: c7 :: rest) out op
      = .ok (!(CHAR_INVALID v0 v1 v2 v3 || CHAR_INVALID v4 v5 v6 v7), out1) ∧
      ((CHAR_INVALID v0 v1 v2 v3 || CHAR_INVALID v4 v5 v6 v7) = true → out1 = out) := by
  obtain ⟨o, eo, -⟩ := DECODE_OCTGRP_ok v0 v1 v2 v3 v4 v5 v6 v7 out op hop
  rw [fastDecodeBody]
  simp only [load_zero, load_succ, ok_bind, d0, d1, d2, d3, d4, d5, d6, d7]
  cases ha : CHAR_INVALID v0 v1 v2 v3
  · cases hb : CHAR_INVALID v4 v5 v6 v7
    · refine ⟨o, ?_, fun h => Bool.noConfusion h⟩
      simp only [Bool.false_eq_true, if_false, eo, ok_bind]
      rfl
    · exact ⟨out, rfl, fun _ => rfl⟩
  · exact ⟨out, rfl, fun _ => rfl⟩

/-! ### The assignments of the fast encoder loop -/

/-- One iteration of the fast encoder loop is its sixteen assignments, one
after the other. -/
theorem fastEncodeBody_eq_stores (x0 x1 x2 x3 x4 x5 x6 x7 x8 x9 x10 x11 : Nat)
    (rest out : List Nat) (op : Nat) :
    fastEncodeBody (x0 :: x1 :: x2 :: x3 :: x4 :: x5 :: x6 :: x7 :: x8 :: x9 :: x10 :: x11 :: rest)
        out op
      = (fastEncodeStores (ucharToInt x0) (ucharToInt x1) (ucharToInt x2) (ucharToInt x3)
          (ucharToInt x4) (ucharToInt x5) (ucharToInt x6) (ucharToInt x7) (ucharToInt x8)
          (ucharToInt x9) (ucharToInt x10) (ucharToInt x11)).foldlM (storeChar op) out := by
  rw [fastEncodeBody]
  simp only [load_zero, load_succ, ok_bind, fastEncodeStores, List.foldlM_cons,
    List.foldlM_nil, storeChar, bind_assoc, bind_pure]

theorem fastEncodeStores_offsets (b0 b1 b2 b3 b4 b5 b6 b7 b8 b9 b10 b11 : Nat) :
    ((fastEncodeStores b0 b1 b2 b3 b4 b5 b6 b7 b8 b9 b10 b11).map Prod.fst).Perm
      (List.range 16) := by
  have : (fastEncodeStores b0 b1 b2 b3 b4 b5 b6 b7 b8 b9 b10 b11).map Prod.fst
      = [0, 1, 2, 3, 4, 5, 6, 11, 7, 8, 9, 10, 12, 15, 13, 14] := rfl
  rw [this]
  decide

/-! ### The tail of the fast encoder -/

/-- The encoder on 7-bit data held at an address of residue 0, 2 or 3. -/
theorem Base64Encode_ascii_of_residue (addr : Nat) (B out0 : List Nat) (hne : B ≠ [])
    (hb : ∀ b ∈ B, b < 128) (hres : addr % 4 ≠ 1) :
    Base64Encode addr B B.length out0 = .ok (rfc4648Encode B) := by
  have hn : 0 < B.length := List.length_pos.mpr hne
  have hlt : addr % 4 < 4 := Nat.mod_lt _ (by decide)
  have hassert : assert (decide (B.length > 0)) = .ok () := by simp [assert, hn]
  rw [Base64Encode, and_3, hassert, ok_bind]
  rcases h4 : addr % 4 with _ | _ | _ | _ | r
  · have h := Base64EncodingFastPath_ascii B hb [] (resize out0 (ENCODE_SIZE B.length)) []
      (resize_length _ _)
    simpa using h
  · omega
  · exact Base64EncodingSlowPath_ascii B hb out0
  · exact Base64EncodingSlowPath_ascii B hb out0
  · omega

/-! ### The 8-character tail of the slow decoder -/

/-- The 8-character tail of the slow decoder never reads `input[4..7]`. -/
theorem Base64DecodeSlowPath_tail8_ignores_second_half (c0 c1 c2 c3 c4 c5 c6 c7 d4 d5 d6 d7 : Nat)
    (out0 : List Nat) :
    Base64DecodeSlowPath 2 [c0, c1, c2, c3, c4, c5, c6, c7] 8 out0
      = Base64DecodeSlowPath 2 [c0, c1, c2, c3, d4, d5, d6, d7] 8 out0 := rfl

/-! ### The texts that the fast decoder accepts -/

/-- The characters with a 6-bit table value are those of the alphabet. -/
theorem isAlpha_iff_mem (c : Nat) : isAlpha c = true ↔ c ∈ rfc4648Alphabet := by
  have key : ∀ c, c < 255 → (isAlpha c = true ↔ c ∈ rfc4648Alphabet) := by decide
  by_cases hc : c < 255
  · exact key c hc
  · constructor
    · intro h
      exact absurd (isAlpha_lt c h) hc
    · intro h
      have hb : ∀ x ∈ rfc4648Alphabet, x < 255 := by decide
      exact absurd (hb c h) hc

theorem bind_ok_inv {α β : Type} (x : Except Fault α) (f : α → Except Fault β) (r : β)
    (h : (x >>= f) = .ok r) : ∃ a, x = .ok a ∧ f a = .ok r := by
  rcases x with e | a
  · cases h
  · exact ⟨a, rfl, h⟩

theorem isAlpha_of_decodeChar (c v : Nat) (d : decodeChar c = .ok v) (h : v < 128) :
    isAlpha c = true ∧ v = sextet c := by
  have key : ∀ c, c < 255 → sextet c < 128 → isAlpha c = true := by decide
  by_cases hc : c < 255
  · rw [decodeChar_of_lt c hc] at d
    cases d
    exact ⟨key c hc h, rfl⟩
  · have hn : kB64DecodeChar[c]? = none := by
      apply List.getElem?_eq_none
      have : kB64DecodeChar.length = 255 := by decide
      omega
    rw [decodeChar, hn] at d
    cases d

theorem load_ok_cons (l : List Nat) (c : Nat) (h : load l 0 = .ok c) : ∃ t, l = c :: t := by
  rcases l with _ | ⟨a, t⟩
  · cases h
  · rw [load_zero] at h
    cases h
    exact ⟨t, rfl⟩

/-- Four table values that pass `CHAR_INVALID` belong to alphabet characters. -/
theorem isAlpha_of_valid (c0 c1 c2 c3 v0 v1 v2 v3 : Nat)
    (d0 : decodeChar c0 = .ok v0) (d1 : decodeChar c1 = .ok v1) (d2 : decodeChar c2 = .ok v2)
    (d3 : decodeChar c3 = .ok v3) (h : CHAR_INVALID v0 v1 v2 v3 = false) :
    isAlpha c0 = true ∧ isAlpha c1 = true ∧ isAlpha c2 = true ∧ isAlpha c3 = true := by
  have i := CHAR_INVALID_iff v0 v1 v2 v3 (decodeChar_lt _ _ d0) (decodeChar_lt _ _ d1)
    (decodeChar_lt _ _ d2) (decodeChar_lt _ _ d3)
  have hn : ¬ (128 ≤ v0 ∨ 128 ≤ v1 ∨ 128 ≤ v2 ∨ 128 ≤ v3) := by
    intro hv
    rw [i.mpr hv] at h
    cases h
  exact ⟨(isAlpha_of_decodeChar _ _ d0 (by omega)).1, (isAlpha_of_decodeChar _ _ d1 (by omega)).1,
    (isAlpha_of_decodeChar _ _ d2 (by omega)).1, (isAlpha_of_decodeChar _ _ d3 (by omega)).1⟩

/-- An iteration of the fast decoder loop that does not return `false` has
read eight alphabet characters. -/
theorem fastDecodeBody_true (input out o : List Nat) (op : Nat)
    (h : fastDecodeBody input out op = .ok (true, o)) :
    ∃ c0 c1 c2 c3 c4 c5 c6 c7 rest, input = c0 :: c1 :: c2 :: c3 :: c4 :: c5 :: c6 :: c7 :: rest ∧
      isAlpha c0 = true ∧ isAlpha c1 = true ∧ isAlpha c2 = true ∧ isAlpha c3 = true ∧
      isAlpha c4 = true ∧ isAlpha c5 = true ∧ isAlpha c6 = true ∧ isAlpha c7 = true := by
  rw [fastDecodeBody] at h
  rcases input with _ | ⟨c0, _ | ⟨c1, _ | ⟨c2, _ | ⟨c3, _ | ⟨c4, _ | ⟨c5, _ | ⟨c6, _ | ⟨c7,
    rest⟩⟩⟩⟩⟩⟩⟩⟩ <;> simp only [load_zero, load_succ, ok_bind] at h
  any_goals (cases h)
  obtain ⟨v0, d0, h⟩ := bind_ok_inv _ _ _ h
  obtain ⟨v1, d1, h⟩ := bind_ok_inv _ _ _ h
  obtain ⟨v2, d2, h⟩ := bind_ok_inv _ _ _ h
  obtain ⟨v3, d3, h⟩ := bind_ok_inv _ _ _ h
  obtain ⟨v4, d4, h⟩ := bind_ok_inv _ _ _ h
  obtain ⟨v5, d5, h⟩ := bind_ok_inv _ _ _ h
  obtain ⟨v6, d6, h⟩ := bind_ok_inv _ _ _ h
  obtain ⟨v7, d7, h⟩ := bind_ok_inv _ _ _ h
  cases ha : CHAR_INVALID v0 v1 v2 v3
  · cases hb : CHAR_INVALID v4 v5 v6 v7
    · obtain ⟨a0, a1, a2, a3⟩ := isAlpha_of_valid _ _ _ _ _ _ _ _ d0 d1 d2 d3 ha
      obtain ⟨a4, a5, a6, a7⟩ := isAlpha_of_valid _ _ _ _ _ _ _ _ d4 d5 d6 d7 hb
      exact ⟨c0, c1, c2, c3, c4, c5, c6, c7, rest, rfl, a0, a1, a2, a3, a4, a5, a6, a7⟩
    · rw [ha, hb] at h
      cases h
  · rw [ha] at h
    cases h

/-- A run of the fast decoder loop that has not returned `false` has read
`8 * k` alphabet characters. -/
theorem fastDecodeLoop_true (k : Nat) : ∀ (input out i o : List Nat) (op p : Nat),
    fastDecodeLoop k input out op = .ok (true, i, o, p) →
    ∃ cs, input = cs ++ i ∧ cs.length = 8 * k ∧ ∀ c ∈ cs, isAlpha c = true := by
  induction k with
  | zero =>
    intro input out i o op p h
    cases h
    exact ⟨[], rfl, rfl, by simp⟩
  | succ k ih =>
    intro input out i o op p h
    rw [fastDecodeLoop_succ] at h
    obtain ⟨⟨go, o1⟩, hb, h⟩ := bind_ok_inv _ _ _ h
    cases go
    · cases h
    · obtain ⟨c0, c1, c2, c3, c4, c5, c6, c7, rest, rfl, a0, a1, a2, a3, a4, a5, a6, a7⟩ :=
        fastDecodeBody_true _ _ _ _ hb
      obtain ⟨cs, e, hl, hv⟩ := ih _ _ _ _ _ _ h
      simp only [List.drop_succ_cons, List.drop_zero] at e
      refine ⟨c0 :: c1 :: c2 :: c3 :: c4 :: c5 :: c6 :: c7 :: cs, by rw [e]; rfl,
        by simp only [List.length_cons, hl]; omega, ?_⟩
      intro c hc
      simp only [List.mem_cons] at hc
      rcases hc with rfl | rfl | rfl | rfl | rfl | rfl | rfl | rfl | hc
      · exact a0
      · exact a1
      · exact a2
      · exact a3
      · exact a4
      · exact a5
      · exact a6
      · exact a7
      · exact hv c hc

/-- A final group that `FINALIZE_DECODE` accepts: two alphabet characters,
then two that are alphabet characters or `=`. -/
theorem FINALIZE_DECODE_true (B1 B2 B3 B4 : Except Fault Nat) (out r : List Nat) (op O : Nat)
    (h : FINALIZE_DECODE B1 B2 B3 B4 out op O = .ok (true, r)) :
    ∃ c0 c1 c2 c3, B1 = .ok c0 ∧ B2 = .ok c1 ∧ B3 = .ok c2 ∧ B4 = .ok c3 ∧
      isAlpha c0 = true ∧ isAlpha c1 = true ∧
      (isAlpha c2 = true ∨ c2 = '='.toNat) ∧ (isAlpha c3 = true ∨ c3 = '='.toNat) := by
  rw [FINALIZE_DECODE] at h
  obtain ⟨c0, e0, h⟩ := bind_ok_inv _ _ _ h
  obtain ⟨v0, d0, h⟩ := bind_ok_inv _ _ _ h
  obtain ⟨c1, e1, h⟩ := bind_ok_inv _ _ _ h
  obtain ⟨v1, d1, h⟩ := bind_ok_inv _ _ _ h
  obtain ⟨c2, e2, h⟩ := bind_ok_inv _ _ _ h
  have fin : ∀ (b3 b4 : Nat) (x : Except Fault (Bool × List Nat)),
      (if CHAR_INVALID v0 v1 b3 b4 = true then (pure (false, out) : Except Fault (Bool × List Nat))
        else x) = .ok (true, r) → CHAR_INVALID v0 v1 b3 b4 = false := by
    intro b3 b4 x h
    cases hc : CHAR_INVALID v0 v1 b3 b4
    · rfl
    · rw [hc] at h; cases h
  have p67 : ∀ f : Nat → Except Fault (Bool × List Nat), (pure 67 >>= f) = f 67 :=
    fun _ => rfl
  have concl : ∀ c3 b3 b4, B4 = .ok c3 →
      (c2 = '='.toNat ∧ b3 = 67 ∨ decodeChar c2 = .ok b3) →
      (c3 = '='.toNat ∧ b4 = 67 ∨ decodeChar c3 = .ok b4) →
      CHAR_INVALID v0 v1 b3 b4 = false →
      ∃ c0 c1 c2 c3, B1 = .ok c0 ∧ B2 = .ok c1 ∧ B3 = .ok c2 ∧ B4 = .ok c3 ∧
        isAlpha c0 = true ∧ isAlpha c1 = true ∧
        (isAlpha c2 = true ∨ c2 = '='.toNat) ∧ (isAlpha c3 = true ∨ c3 = '='.toNat) := by
    intro c3 b3 b4 e3 hb3 hb4 hc
    have l3 : b3 < 256 := by
      rcases hb3 with ⟨-, rfl⟩ | d
      · decide
      · exact decodeChar_lt _ _ d
    have l4 : b4 < 256 := by
      rcases hb4 with ⟨-, rfl⟩ | d
      · decide
      · exact decodeChar_lt _ _ d
    have i := CHAR_INVALID_iff v0 v1 b3 b4 (decodeChar_lt _ _ d0) (decodeChar_lt _ _ d1) l3 l4
    have hn : ¬ (128 ≤ v0 ∨ 128 ≤ v1 ∨ 128 ≤ b3 ∨ 128 ≤ b4) := by
      intro hv
      rw [i.mpr hv] at hc
      cases hc
    refine ⟨c0, c1, c2, c3, e0, e1, e2, e3, (isAlpha_of_decodeChar _ _ d0 (by omega)).1,
      (isAlpha_of_decodeChar _ _ d1 (by omega)).1, ?_, ?_⟩
    · rcases hb3 with ⟨h, -⟩ | d
      · exact Or.inr h
      · exact Or.inl (isAlpha_of_decodeChar _ _ d (by omega)).1
    · rcases hb4 with ⟨h, -⟩ | d
      · exact Or.inr h
      · exact Or.inl (isAlpha_of_decodeChar _ _ d (by omega)).1
  dsimp only at h
  by_cases p2 : (c2 == '='.toNat) = true
  · rw [if_pos p2, p67] at h
    obtain ⟨c3, e3, h⟩ := bind_ok_inv _ _ _ h
    by_cases p3 : (c3 == '='.toNat) = true
    · rw [if_pos p3, p67] at h
      exact concl c3 67 67 e3 (Or.inl ⟨by simpa using p2, rfl⟩)
        (Or.inl ⟨by simpa using p3, rfl⟩) (fin _ _ _ h)
    · rw [if_neg p3, e3, ok_bind] at h
      obtain ⟨b4, d3, h⟩ := bind_ok_inv _ _ _ h
      exact concl c3 67 b4 e3 (Or.inl ⟨by simpa using p2, rfl⟩) (Or.inr d3) (fin _ _ _ h)
  · rw [if_neg p2, e2, ok_bind] at h
    obtain ⟨b3, d2, h⟩ := bind_ok_inv _ _ _ h
    obtain ⟨c3, e3, h⟩ := bind_ok_inv _ _ _ h
    by_cases p3 : (c3 == '='.toNat) = true
    · rw [if_pos p3, p67] at h
      exact concl c3 b3 67 e3 (Or.inr d2) (Or.inl ⟨by simpa using p3, rfl⟩) (fin _ _ _ h)
    · rw [if_neg p3, e3, ok_bind] at h
      obtain ⟨b4, d3, h⟩ := bind_ok_inv _ _ _ h
      exact concl c3 b3 b4 e3 (Or.inr d2) (Or.inr d3) (fin _ _ _ h)

theorem FINALIZE_DECODE_pad_data (c0 c1 c3 v0 v1 v3 : Nat) (cs pre : List Nat)
    (x0 x1 x2 op O i : Nat) (hop : op + O = pre.length)
    (l0 : load cs i = .ok c0) (l1 : load cs (i + 1) = .ok c1)
    (l2 : load cs (i + 2) = .ok '='.toNat) (l3 : load cs (i + 3) = .ok c3)
    (d0 : decodeChar c0 = .ok v0) (d1 : decodeChar c1 = .ok v1) (d3 : decodeChar c3 = .ok v3)
    (p3 : (c3 == '='.toNat) = false)
    (h0 : v0 < 64) (h1 : v1 < 64) (h3 : v3 < 64) :
    FINALIZE_DECODE (load cs i) (load cs (i + 1)) (load cs (i + 2)) (load cs (i + 3))
        (pre ++ [x0, x1, x2]) op O
      = .ok (true, pre ++ [toByte ((v0 <<< 2) ||| (v1 >>> 4))]) := by
  have e0 := store_append pre [] [x1, x2] x0 (toByte ((v0 <<< 2) ||| (v1 >>> 4)))
  have r := resize_drop_last_two pre (toByte ((v0 <<< 2) ||| (v1 >>> 4))) x1 x2
  simp only [List.append_nil, List.length_nil, Nat.add_zero, List.nil_append,
    List.length_cons, List.cons_append, List.append_assoc, List.length_append] at e0 r
  have q0 : op + (O + 0) = pre.length := by omega
  have hpos : pre.length + (0 + 1 + 1 + 1) > 1 := by omega
  simp only [FINALIZE_DECODE, l0, l1, l2, l3, d0, d1, d3, p3, bind, Except.bind,
    CHAR_INVALID_of_lt v0 v1 67 v3 (by omega) (by omega) (by omega) (by omega),
    q0, e0, pure, Except.pure, if_true, if_false, assert,
    Bool.false_eq_true, bne_self_eq_false, beq_self_eq_true, List.length_append,
    List.length_cons, List.length_nil, hpos, decide_True, r]

/-- The macro `FINALIZE_DECODE` on a final group it accepts. -/
theorem FINALIZE_DECODE_final (c0 c1 c2 c3 : Nat) (tl pre : List Nat) (x0 x1 x2 op O : Nat)
    (hop : op + O = pre.length)
    (a0 : isAlpha c0 = true) (a1 : isAlpha c1 = true)
    (a2 : isAlpha c2 = true ∨ c2 = '='.toNat) (a3 : isAlpha c3 = true ∨ c3 = '='.toNat) :
    FINALIZE_DECODE (load (c0 :: c1 :: c2 :: c3 :: tl) 0) (load (c0 :: c1 :: c2 :: c3 :: tl) 1)
        (load (c0 :: c1 :: c2 :: c3 :: tl) 2) (load (c0 :: c1 :: c2 :: c3 :: tl) 3)
        (pre ++ [x0, x1, x2]) op O
      = .ok (true, pre ++ finalBytes c0 c1 c2 c3) := by
  have s0 := sextet_lt_of_isAlpha _ a0
  have s1 := sextet_lt_of_isAlpha _ a1
  have d0 := decodeChar_of_isAlpha _ a0
  have d1 := decodeChar_of_isAlpha _ a1
  rcases a2 with a2 | rfl
  · have p2 := ne_pad_of_isAlpha _ a2
    rcases a3 with a3 | rfl
    · rw [finalBytes, p2, ne_pad_of_isAlpha _ a3]
      exact FINALIZE_DECODE_alpha c0 c1 c2 c3 tl pre x0 x1 x2 op O hop a0 a1 a2 a3
    · rw [finalBytes, p2]
      exact FINALIZE_DECODE_pad1 c0 c1 c2 _ _ _ (c0 :: c1 :: c2 :: '='.toNat :: tl) pre
        x0 x1 x2 op O 0 hop (by simp [load]) (by simp [load]) (by simp [load])
        (by simp [load]) d0 d1 (decodeChar_of_isAlpha _ a2) p2 s0 s1
        (sextet_lt_of_isAlpha _ a2)
  · rcases a3 with a3 | rfl
    · rw [finalBytes]
      exact FINALIZE_DECODE_pad_data c0 c1 c3 _ _ _ (c0 :: c1 :: '='.toNat :: c3 :: tl) pre
        x0 x1 x2 op O 0 hop (by simp [load]) (by simp [load]) (by simp [load])
        (by simp [load]) d0 d1 (decodeChar_of_isAlpha _ a3) (ne_pad_of_isAlpha _ a3) s0 s1
        (sextet_lt_of_isAlpha _ a3)
    · rw [finalBytes]
      exact FINALIZE_DECODE_pad2 c0 c1 _ _ (c0 :: c1 :: '='.toNat :: '='.toNat :: tl) pre
        x0 x1 x2 op O 0 hop (by simp [load]) (by simp [load]) (by simp [load])
        (by simp [load]) d0 d1 s0 s1

/-- The fast decoder on a text it accepts: full groups `P` of alphabet
characters, then a final group `c0 c1 c2 c3` with `c2` and `c3` alphabet
characters or `=`. -/
theorem Base64DecodeFastPath_accepts (P : List Nat) (c0 c1 c2 c3 : Nat) (out0 : List Nat)
    (hP : P.length % 4 = 0) (hv : ∀ c ∈ P, isAlpha c = true)
    (a0 : isAlpha c0 = true) (a1 : isAlpha c1 = true)
    (a2 : isAlpha c2 = true ∨ c2 = '='.toNat) (a3 : isAlpha c3 = true ∨ c3 = '='.toNat) :
    Base64DecodeFastPath (P ++ [c0, c1, c2, c3]) (P ++ [c0, c1, c2, c3]).length out0
      = .ok (true, decodeQuads P ++ finalBytes c0 c1 c2 c3) := by
  by_cases h8 : P.length % 8 = 0
  · have hk : P.length = 8 * (P.length / 8) := by omega
    generalize P.length / 8 = k at hk
    have hl : (decodeQuads P).length = 6 * k := by
      have := decodeQuads_length (2 * k) P (by omega); omega
    rw [List.length_append, hk]
    apply Base64DecodeFastPath_tail4 k P _ out0 _ hk hv
    intro x0 x1 x2
    exact FINALIZE_DECODE_final c0 c1 c2 c3 [] (decodeQuads P) x0 x1 x2 (6 * k) 0 (by omega)
      a0 a1 a2 a3
  · obtain ⟨cs, Q, hPQ, hcs, hQ⟩ : ∃ cs Q, P = cs ++ Q ∧ cs.length = 8 * (P.length / 8) ∧
        Q.length = 4 := by
      refine ⟨P.take (8 * (P.length / 8)), P.drop (8 * (P.length / 8)),
        (List.take_append_drop _ _).symm, ?_, ?_⟩
      · rw [List.length_take]; omega
      · rw [List.length_drop]; omega
    obtain ⟨p0, p1, p2, p3, rfl⟩ : ∃ p0 p1 p2 p3, Q = [p0, p1, p2, p3] := by
      rcases Q with _ | ⟨p0, _ | ⟨p1, _ | ⟨p2, _ | ⟨p3, _ | ⟨p4, Q⟩⟩⟩⟩⟩ <;>
        simp only [List.length_cons, List.length_nil] at hQ <;> try omega
      exact ⟨p0, p1, p2, p3, rfl⟩
    generalize P.length / 8 = k at hcs
    subst hPQ
    have hvc : ∀ c ∈ cs, isAlpha c = true := fun c h => hv c (by simp [h])
    have b0 := hv p0 (by simp)
    have b1 := hv p1 (by simp)
    have b2 := hv p2 (by simp)
    have b3 := hv p3 (by simp)
    have hl : (decodeQuads cs).length = 6 * k := by
      have := decodeQuads_length (2 * k) cs (by omega); omega
    have hlen : (cs ++ [p0, p1, p2, p3] ++ [c0, c1, c2, c3]).length = 8 * k + 8 := by
      simp only [List.length_append, List.length_cons, List.length_nil, hcs]
    rw [hlen, List.append_assoc]
    apply Base64DecodeFastPath_tail8 k cs [c0, c1, c2, c3] out0 p0 p1 p2 p3 _ hcs hvc
      b0 b1 b2 b3
    intro x3 x4 x5
    rw [decodeQuads_append (2 * k) cs _ (by omega)]
    simp only [decodeQuads, List.append_nil]
    have f := FINALIZE_DECODE_final c0 c1 c2 c3 []
      (decodeQuads cs ++ quad (sextet p0) (sextet p1) (sextet p2) (sextet p3)) x3 x4 x5
      (6 * k) 3 (by simp [quad]; omega) a0 a1 a2 a3
    rw [f]

theorem load4_inv (l : List Nat) (c0 c1 c2 c3 : Nat) (i : Nat)
    (l0 : load l i = .ok c0) (l1 : load l (i + 1) = .ok c1)
    (l2 : load l (i + 2) = .ok c2) (l3 : load l (i + 3) = .ok c3) :
    ∃ rest, l.drop i = c0 :: c1 :: c2 :: c3 :: rest := by
  rw [← Nat.add_zero i, ← load_drop] at l0
  rw [← load_drop] at l1 l2 l3
  generalize l.drop i = m at l0 l1 l2 l3
  rcases m with _ | ⟨a0, _ | ⟨a1, _ | ⟨a2, _ | ⟨a3, rest⟩⟩⟩⟩ <;>
    (try simp only [load_zero, load_succ] at l0 l1 l2 l3)
  · cases l0
  · cases l1
  · cases l2
  · cases l3
  · cases l0; cases l1; cases l2; cases l3
    exact ⟨rest, rfl⟩

/-- A text that the fast decoder accepts is made of full groups of alphabet
characters and a final group whose last two characters may be `=`. -/
theorem Base64DecodeFastPath_true (T out0 r : List Nat) (h4 : T.length % 4 = 0)
    (h : Base64DecodeFastPath T T.length out0 = .ok (true, r)) :
    ∃ P c0 c1 c2 c3, T = P ++ [c0, c1, c2, c3] ∧ P.length % 4 = 0 ∧
      (∀ c ∈ P, isAlpha c = true) ∧ isAlpha c0 = true ∧ isAlpha c1 = true ∧
      (isAlpha c2 = true ∨ c2 = '='.toNat) ∧ (isAlpha c3 = true ∨ c3 = '='.toNat) := by
  have hz4 : ((4 : Nat) == 0) = false := rfl
  have hs4 : (4 : Nat) >>> 2 = 1 := rfl
  have hz0 : ((0 : Nat) == 0) = true := rfl
  have hs8 : (8 : Nat) >>> 2 = 2 := rfl
  rw [Base64DecodeFastPath] at h
  by_cases h8 : T.length % 8 = 4
  · have h7 : T.length &&& 7 = 4 := by rw [and_7]; exact h8
    simp only [h7, hz4, hs4, Bool.false_eq_true, if_false] at h
    obtain ⟨⟨go, i, o, p⟩, hl, h⟩ := bind_ok_inv _ _ _ h
    cases go
    · cases h
    · obtain ⟨cs, e, hcs, hv⟩ := fastDecodeLoop_true _ _ _ _ _ _ _ hl
      simp only [Bool.not_true, Bool.false_eq_true, if_false] at h
      obtain ⟨c0, c1, c2, c3, l0, l1, l2, l3, a0, a1, a2, a3⟩ :=
        FINALIZE_DECODE_true _ _ _ _ _ _ _ _ h
      obtain ⟨rest, er⟩ := load4_inv i c0 c1 c2 c3 0 l0 l1 l2 l3
      rw [List.drop_zero] at er
      subst er
      have hlen := congrArg List.length e
      simp only [List.length_append, List.length_cons, hcs] at hlen
      have hr : rest = [] := List.length_eq_zero.mp (by omega)
      subst hr
      exact ⟨cs, c0, c1, c2, c3, e, by omega, hv, a0, a1, a2, a3⟩
  · have h7 : T.length &&& 7 = 0 := by rw [and_7]; omega
    simp only [h7, hz0, hs8, if_true] at h
    obtain ⟨⟨go, i, o, p⟩, hl, h⟩ := bind_ok_inv _ _ _ h
    cases go
    · cases h
    · obtain ⟨cs, e, hcs, hv⟩ := fastDecodeLoop_true _ _ _ _ _ _ _ hl
      simp only [Bool.not_true, Bool.false_eq_true, if_false] at h
      obtain ⟨_, -, h⟩ := bind_ok_inv _ _ _ h
      obtain ⟨c0, l0, h⟩ := bind_ok_inv _ _ _ h
      obtain ⟨v0, d0, h⟩ := bind_ok_inv _ _ _ h
      obtain ⟨c1, l1, h⟩ := bind_ok_inv _ _ _ h
      obtain ⟨v1, d1, h⟩ := bind_ok_inv _ _ _ h
      obtain ⟨c2, l2, h⟩ := bind_ok_inv _ _ _ h
      obtain ⟨v2, d2, h⟩ := bind_ok_inv _ _ _ h
      obtain ⟨c3, l3, h⟩ := bind_ok_inv _ _ _ h
      obtain ⟨v3, d3, h⟩ := bind_ok_inv _ _ _ h
      cases ha : CHAR_INVALID v0 v1 v2 v3
      · rw [ha] at h
        simp only [Bool.false_eq_true, if_false] at h
        obtain ⟨_, -, h⟩ := bind_ok_inv _ _ _ h
        obtain ⟨o2, -, h⟩ := bind_ok_inv _ _ _ h
        obtain ⟨c4, c5, c6, c7, l4, l5, l6, l7, a4, a5, a6, a7⟩ :=
          FINALIZE_DECODE_true _ _ _ _ _ _ _ _ h
        obtain ⟨a0, a1, a2, a3⟩ := isAlpha_of_valid _ _ _ _ _ _ _ _ d0 d1 d2 d3 ha
        obtain ⟨rest1, er1⟩ := load4_inv i c0 c1 c2 c3 0 l0 l1 l2 l3
        rw [List.drop_zero] at er1
        subst er1
        obtain ⟨rest, er⟩ := load4_inv _ c4 c5 c6 c7 4 l4 l5 l6 l7
        simp only [List.drop_succ_cons, List.drop_zero] at er
        subst er
        have hlen := congrArg List.length e
        simp only [List.length_append, List.length_cons, hcs] at hlen
        have hr : rest = [] := List.length_eq_zero.mp (by omega)
        subst hr
        refine ⟨cs ++ [c0, c1, c2, c3], c4, c5, c6, c7, by rw [e]; simp, ?_, ?_, a4, a5, a6, a7⟩
        · simp only [List.length_append, List.length_cons, List.length_nil, hcs]; omega
        · intro c hc
          rcases List.mem_append.mp hc with hc | hc
          · exact hv c hc
          · simp only [List.mem_cons, List.mem_singleton, List.not_mem_nil, or_false] at hc
            rcases hc with rfl | rfl | rfl | rfl
            · exact a0
            · exact a1
            · exact a2
            · exact a3
      · rw [ha] at h
        cases h

/-- The texts that the fast decoder accepts, and the length of the output:
for every text `T` of a positive multiple of 4 characters and whatever the
output string held before, `Base64DecodeFastPath` returns `true` exactly when
all characters but the last two are alphabet characters and the last two are
alphabet characters or `=`; the output then has `3 * (L / 4)` bytes less 2
when the character at `L - 2` is `=`, else less 1 when the character at
`L - 1` is `=`. -/
theorem Base64DecodeFastPath_accepts_iff (T out0 : List Nat) (h4 : T.length % 4 = 0)
    (hpos : 0 < T.length) :
    ((∃ r, Base64DecodeFastPath T T.length out0 = .ok (true, r)) ↔
      (∀ c ∈ T.take (T.length - 2), isAlpha c = true) ∧
        (∀ c ∈ T.drop (T.length - 2), isAlpha c = true ∨ c = '='.toNat)) ∧
    (∀ r, Base64DecodeFastPath T T.length out0 = .ok (true, r) →
      r.length = 3 * (T.length / 4) -
        (if T.getD (T.length - 2) 0 = '='.toNat then 2
          else if T.getD (T.length - 1) 0 = '='.toNat then 1 else 0)) := by
  have shape : ∀ (P : List Nat) (c0 c1 c2 c3 : Nat),
      (P ++ [c0, c1, c2, c3]).take ((P ++ [c0, c1, c2, c3]).length - 2) = P ++ [c0, c1] ∧
      (P ++ [c0, c1, c2, c3]).drop ((P ++ [c0, c1, c2, c3]).length - 2) = [c2, c3] := by
    intro P c0 c1 c2 c3
    have e : P ++ [c0, c1, c2, c3] = (P ++ [c0, c1]) ++ [c2, c3] := by simp
    have hl : (P ++ [c0, c1, c2, c3]).length - 2 = (P ++ [c0, c1]).length := by simp
    rw [hl, e]
    exact ⟨List.take_left _ _, List.drop_left _ _⟩
  constructor
  · constructor
    · rintro ⟨r, h⟩
      obtain ⟨P, c0, c1, c2, c3, rfl, hP, hv, a0, a1, a2, a3⟩ :=
        Base64DecodeFastPath_true T out0 r h4 h
      obtain ⟨st, sd⟩ := shape P c0 c1 c2 c3
      rw [st, sd]
      constructor
      · intro c hc
        rcases List.mem_append.mp hc with hc | hc
        · exact hv c hc
        · simp only [List.mem_cons, List.mem_singleton, List.not_mem_nil, or_false] at hc
          rcases hc with rfl | rfl
          · exact a0
          · exact a1
      · intro c hc
        simp only [List.mem_cons, List.mem_singleton, List.not_mem_nil, or_false] at hc
        rcases hc with rfl | rfl
        · exact a2
        · exact a3
    · rintro ⟨ht, hd⟩
      obtain ⟨P, c0, c1, c2, c3, rfl, hP⟩ : ∃ P c0 c1 c2 c3, T = P ++ [c0, c1, c2, c3] ∧
          P.length % 4 = 0 := by
        have hQ : (T.drop (T.length - 4)).length = 4 := by rw [List.length_drop]; omega
        rcases hq : T.drop (T.length - 4) with _ | ⟨c0, _ | ⟨c1, _ | ⟨c2, _ | ⟨c3, _ | ⟨c4, Q⟩⟩⟩⟩⟩ <;>
          rw [hq] at hQ <;> simp only [List.length_cons, List.length_nil] at hQ <;> try omega
        refine ⟨T.take (T.length - 4), c0, c1, c2, c3, ?_, ?_⟩
        · rw [← hq, List.take_append_drop]
        · rw [List.length_take]; omega
      obtain ⟨st, sd⟩ := shape P c0 c1 c2 c3
      rw [st] at ht
      rw [sd] at hd
      exact ⟨_, Base64DecodeFastPath_accepts P c0 c1 c2 c3 out0 hP
        (fun c hc => ht c (by simp [hc])) (ht c0 (by simp)) (ht c1 (by simp))
        (hd c2 (by simp)) (hd c3 (by simp))⟩
  · intro r h
    obtain ⟨P, c0, c1, c2, c3, rfl, hP, hv, a0, a1, a2, a3⟩ :=
      Base64DecodeFastPath_true T out0 r h4 h
    rw [Base64DecodeFastPath_accepts P c0 c1 c2 c3 out0 hP hv a0 a1 a2 a3] at h
    cases h
    have hq := decodeQuads_length (P.length / 4) P (by omega)
    have g2 : (P ++ [c0, c1, c2, c3]).getD ((P ++ [c0, c1, c2, c3]).length - 2) 0 = c2 := by
      have hl : (P ++ [c0, c1, c2, c3]).length - 2 = P.length + 2 := by simp
      rw [hl, List.getD_eq_getElem?_getD, List.getElem?_append_right (Nat.le_add_right _ _),
        Nat.add_sub_cancel_left]
      rfl
    have g3 : (P ++ [c0, c1, c2, c3]).getD ((P ++ [c0, c1, c2, c3]).length - 1) 0 = c3 := by
      have hl : (P ++ [c0, c1, c2, c3]).length - 1 = P.length + 3 := by simp
      rw [hl, List.getD_eq_getElem?_getD, List.getElem?_append_right (Nat.le_add_right _ _),
        Nat.add_sub_cancel_left]
      rfl
    rw [g2, g3, List.length_append, hq, finalBytes]
    simp only [List.length_append, List.length_cons, List.length_nil, beq_iff_eq]
    split
    · simp only [List.length_cons, List.length_nil]; omega
    · split
      · simp only [List.length_cons, List.length_nil]; omega
      · simp only [quad, List.length_cons, List.length_nil]; omega

/-! ### The claims -/

/-- C1 (round trip `Decode(Encode(B)) = B` at every alignment), evaluated at
the six bytes "ABCDEF": encoded at an aligned address they give the text
"QUJDREVG"; `Base64Decode` on that text held at an address with bit 1 set
takes the slow path and returns `false`, where the same text at an aligned
address decodes to "ABCDEF". -/
theorem roundtrip_fails_through_slow_decoder :
    Base64Encode 0 (ascii "ABCDEF") 6 [] = .ok (ascii "QUJDREVG") ∧
    Base64Decode 2 (ascii "QUJDREVG") 8 [] = .ok (false, [0, 0, 0, 0, 0, 0]) ∧
    Base64Decode 0 (ascii "QUJDREVG") 8 [] = .ok (true, ascii "ABCDEF") := by
  decide

/-- C2 (`Base64Encode` equals the RFC 4648 reference encoding, bytes of 0x80
and above included), evaluated at the bytes `00 80 00`: the reference
encoding is "AIAA", `Base64Encode` writes "A4AA": the second index is
computed from the sign-extended `char` 0x80. -/
theorem encode_differs_from_rfc4648_on_high_byte :
    rfc4648Encode [0x00, 0x80, 0x00] = ascii "AIAA" ∧
    Base64Encode 0 [0x00, 0x80, 0x00] 3 [] = .ok (ascii "A4AA") := by
  decide

/-- C3 (the output has length `4 * ((n + 2) / 3)` for every residue of the
input address), evaluated at inputs of one and of two bytes held at an address
of residue 1: the realignment prologue reads `input[1]` and `input[2]`, past
the end of the buffer, and no output of length 4 is produced. -/
theorem encode_length_law_fails_on_short_input_at_residue_1 :
    ENCODE_SIZE 1 = 4 ∧ ENCODE_SIZE 2 = 4 ∧
    Base64Encode 1 [0x41] 1 [] = .error .inputRead ∧
    Base64Encode 1 [0x41, 0x42] 2 [] = .error .inputRead := by
  decide

/-- C4 (every output character is an alphabet character or `=`, for every
byte value), evaluated at the single byte 0x80: the first character is read
from `kB64EncodeChar[b1 >> 2]` with `b1 >> 2 = -32`, outside the table. -/
theorem encode_high_byte_indexes_outside_forward_table :
    sar (charToInt 0x80) 2 = 2 ^ 32 - 32 ∧
    encodeChar (sar (charToInt 0x80) 2) = .error .encodeTable ∧
    Base64Encode 0 [0x80] 1 [] = .error .encodeTable := by
  decide

/-- C5 (`Base64Decode` of the canonical encoding of `B` succeeds with output
`B`), evaluated at the nine bytes "ABCDEFGHI": their canonical encoding is
"QUJDREVGR0hJ", and `Base64Decode` on it, held at an address with bit 1 set,
returns `false` from the first iteration of the slow loop. -/
theorem decode_rejects_canonical_text_on_slow_path :
    rfc4648Encode (ascii "ABCDEFGHI") = ascii "QUJDREVGR0hJ" ∧
    Base64Decode 2 (ascii "QUJDREVGR0hJ") 12 [] =
      .ok (false, [0, 0, 0, 0, 0, 0, 0, 0, 0]) := by
  decide

/-- C6 (a valid text of length `L` with `p` trailing `=` decodes to
`3 * (L / 4) - p` bytes), evaluated at "QUJDREVGRw==" (`L = 12`, `p = 2`):
held at an address with bit 1 set, `Base64Decode` returns `false` and leaves
9 bytes in the output; at an aligned address it succeeds with 7 bytes. -/
theorem decode_length_law_fails_on_slow_path :
    Base64Decode 2 (ascii "QUJDREVGRw==") 12 [] =
      .ok (false, [0, 0, 0, 0, 0, 0, 0, 0, 0]) ∧
    Base64Decode 0 (ascii "QUJDREVGRw==") 12 [] = .ok (true, ascii "ABCDEFG") := by
  decide

/-- C7 (a text with a byte outside `[A-Za-z0-9+/=]` is rejected), evaluated
at "AA==!!!!" held at an address with bit 1 set: `Base64Decode` returns
`true`, the four `!` are never read; and at the text `FF 41 41 41` held at an
aligned address: the byte 0xFF indexes `kB64DecodeChar`, which has 255
entries, outside the table. -/
theorem decode_accepts_invalid_characters_on_slow_path :
    Base64Decode 2 (ascii "AA==!!!!") 8 [] = .ok (true, [0, 63, 255, 0]) ∧
    kB64DecodeChar.length = 255 ∧
    Base64Decode 0 [0xFF, 0x41, 0x41, 0x41] 4 [] = .error .decodeTable := by
  decide

/-- C8 (a text with `=` in a non-trailing position is rejected), evaluated
at "QQ=A" held at an aligned address: the `=` is followed by `A`, and
`Base64Decode` returns `true` with the one byte 0x41. -/
theorem decode_accepts_padding_followed_by_data :
    Base64Decode 0 (ascii "QQ=A") 4 [] = .ok (true, [0x41]) := by
  decide

/-- C9 (the slow encoder gives the same output as the fast encoder),
evaluated at the twelve bytes `00 80 00 00 00 00 00 00 00 00 00 00`: at
residue 0 the output is "AIAAAAAAAAAAAAAA", at residues 2 and 3 it is
"A4AAAAAAAAAAAAAA". -/
theorem slow_encoder_differs_from_fast_encoder :
    Base64Encode 0 [0x00, 0x80, 0, 0, 0, 0, 0, 0, 0, 0, 0, 0] 12 [] =
      .ok (ascii "AIAAAAAAAAAAAAAA") ∧
    Base64Encode 2 [0x00, 0x80, 0, 0, 0, 0, 0, 0, 0, 0, 0, 0] 12 [] =
      .ok (ascii "A4AAAAAAAAAAAAAA") ∧
    Base64Encode 3 [0x00, 0x80, 0, 0, 0, 0, 0, 0, 0, 0, 0, 0] 12 [] =
      .ok (ascii "A4AAAAAAAAAAAAAA") := by
  decide

/-- C10 (at residue 1 the output equals that of residue 0 and no byte beyond
the input is read, inputs of length 1 and 2 included), evaluated at the
single byte "A": at residue 0 the output is "QQ==", at residue 1 the
prologue reads `input[1]`, past the end of the one-byte buffer. -/
theorem realignment_prologue_reads_past_short_input :
    Base64Encode 0 (ascii "A") 1 [] = .ok (ascii "QQ==") ∧
    load (ascii "A") 1 = .error .inputRead ∧
    Base64Encode 1 (ascii "A") 1 [] = .error .inputRead := by
  decide

/-- C11 (the result of `Base64Decode` on a text whose length is a positive
multiple of 4 is the same at every address), evaluated at two texts of 8
characters.  "TWFuTWFu" decodes to "ManMan" at the addresses 0 and 1, and is
rejected at the addresses 2 and 3, where the slow decoder runs; "AA==AAAA",
with `=` inside the first group, is rejected at the address 0 and accepted
with four bytes of output at the address 2. -/
theorem decode_result_depends_on_input_address :
    Base64Decode 0 (ascii "TWFuTWFu") 8 [] = .ok (true, ascii "ManMan") ∧
    Base64Decode 1 (ascii "TWFuTWFu") 8 [] = .ok (true, ascii "ManMan") ∧
    Base64Decode 2 (ascii "TWFuTWFu") 8 [] = .ok (false, [0, 0, 0, 0, 0, 0]) ∧
    Base64Decode 3 (ascii "TWFuTWFu") 8 [] = .ok (false, [0, 0, 0, 0, 0, 0]) ∧
    Base64Decode 0 (ascii "AA==AAAA") 8 [] = .ok (false, [0, 0, 0, 0, 0, 0]) ∧
    Base64Decode 2 (ascii "AA==AAAA") 8 [] = .ok (true, [0, 63, 255, 0]) := by
  decide

/-- C12 (encode test vectors on the aligned path): at every address that is
a multiple of 4, and whatever the output string held before, `Base64Encode`
gives "AA==" for the byte `00`, "AAA=" for `00 00` and "AAAA" for
`00 00 00`. -/
theorem encode_vectors_of_zero_bytes (a : Nat) (out0 : List Nat) :
    Base64Encode (4 * a) [0x00] 1 out0 = .ok (ascii "AA==") ∧
    Base64Encode (4 * a) [0x00, 0x00] 2 out0 = .ok (ascii "AAA=") ∧
    Base64Encode (4 * a) [0x00, 0x00, 0x00] 3 out0 = .ok (ascii "AAAA") :=
  ⟨Base64Encode_ascii (4 * a) [0x00] out0 (by decide) (by decide) (by decide)
      (Or.inl (by omega)),
    Base64Encode_ascii (4 * a) [0x00, 0x00] out0 (by decide) (by decide) (by decide)
      (Or.inl (by omega)),
    Base64Encode_ascii (4 * a) [0x00, 0x00, 0x00] out0 (by decide) (by decide) (by decide)
      (Or.inl (by omega))⟩

/-- C13 (decode test vectors): at every address, and whatever the output
string held before, `Base64Decode` returns `true` on "QQ==" with the output
`41`, on "QUI=" with `41 42` and on "QUJD" with `41 42 43`. -/
theorem decode_vectors_at_every_address (addr : Nat) (out0 : List Nat) :
    Base64Decode addr (ascii "QQ==") 4 out0 = .ok (true, [0x41]) ∧
    Base64Decode addr (ascii "QUI=") 4 out0 = .ok (true, [0x41, 0x42]) ∧
    Base64Decode addr (ascii "QUJD") 4 out0 = .ok (true, [0x41, 0x42, 0x43]) := by
  rw [Base64Decode_four, Base64Decode_four, Base64Decode_four, ← Base64DecodeFastPath_four,
    ← Base64DecodeFastPath_four, ← Base64DecodeFastPath_four]
  exact ⟨Base64DecodeFastPath_canonical [0x41] (by decide) (by decide) out0,
    Base64DecodeFastPath_canonical [0x41, 0x42] (by decide) (by decide) out0,
    Base64DecodeFastPath_canonical [0x41, 0x42, 0x43] (by decide) (by decide) out0⟩

/-- C14 (`Base64Decode` on "A===" returns failure; a `=` in the second
position of the final group is never accepted).  The vector holds: "A===" is
rejected at every address, whatever the output string held before.  The
general clause fails on the slow decoder: the text "AA==A===", whose final
group "A===" has `=` second, is accepted at an address of residue 2, with the
output 00 3F FF 00.  The 8-character tail of `Base64DecodeSlowPath` decodes
`input[0..3]` twice and never reads `input[4..7]`: the result is that of
"AA==QUJD".  The fast decoder rejects the same text. -/
theorem decode_accepts_pad_in_second_position_on_slow_path (addr : Nat) (out0 : List Nat) :
    Base64Decode addr (ascii "A===") 4 out0 = .ok (false, resize out0 3) ∧
    (ascii "AA==A===").drop 4 = ascii "A===" ∧
    load (ascii "AA==A===") 5 = .ok '='.toNat ∧
    Base64Decode 2 (ascii "AA==A===") 8 [] = .ok (true, [0x00, 0x3F, 0xFF, 0x00]) ∧
    Base64Decode 2 (ascii "AA==A===") 8 [] = Base64Decode 2 (ascii "AA==QUJD") 8 [] ∧
    Base64Decode 0 (ascii "AA==A===") 8 [] = .ok (false, [0, 0, 0, 0, 0, 0]) ∧
    Base64Decode 0 (ascii "AAAAA===") 8 [] = .ok (false, [0, 0, 0, 0, 0, 0]) := by
  refine ⟨?_, by decide, by decide, by decide, by decide, by decide, by decide⟩
  rw [Base64Decode_four]
  rfl

/-- C15 (`kB64DecodeChar` has exactly 256 entries, one for every byte value),
evaluated at the byte 0xFF: the table has 255 entries and none of index 255,
so the lookup for the byte 0xFF is outside the table, and `Base64Decode` on
the text `41 41 41 FF` reads there.  The 255 entries that exist are as the
claim says: the index for each of the 64 alphabet characters, 255 for every
other byte. -/
theorem reverse_table_lacks_entry_255 :
    kB64DecodeChar.length = 255 ∧
    kB64DecodeChar[255]? = none ∧
    decodeChar 255 = .error .decodeTable ∧
    Base64Decode 0 [0x41, 0x41, 0x41, 0xFF] 4 [] = .error .decodeTable ∧
    (List.range 64).all (fun i => kB64DecodeChar[rfc4648Char i]? == some i) = true ∧
    (List.range 255).all (fun c => decide (c ∈ rfc4648Alphabet) ||
      kB64DecodeChar[c]? == some 255) = true := by
  decide

/-- C16 (every index into `kB64EncodeChar` is in 0..63, for every byte value
and residue), evaluated at the two bytes `41 80`: `FINALIZE_ENCODE2` computes
the second index `((b1 & 3) << 4) | (b2 >> 4)` from the sign-extended `char`
0x80 and gets -8, outside the table, at the residues 0, 2 and 3; at residue 1
the same happens on `41 42 43 41 80`. -/
theorem encode_high_second_byte_indexes_outside_forward_table :
    shl (charToInt 0x41 &&& 3) 4 ||| sar (charToInt 0x80) 4 = 2 ^ 32 - 8 ∧
    encodeChar (shl (charToInt 0x41 &&& 3) 4 ||| sar (charToInt 0x80) 4)
      = .error .encodeTable ∧
    Base64Encode 0 [0x41, 0x80] 2 [] = .error .encodeTable ∧
    Base64Encode 2 [0x41, 0x80] 2 [] = .error .encodeTable ∧
    Base64Encode 3 [0x41, 0x80] 2 [] = .error .encodeTable ∧
    Base64Encode 1 [0x41, 0x42, 0x43, 0x41, 0x80] 5 [] = .error .encodeTable := by
  decide

/-- C17 (the length precondition is not enforced on the fast path): for
every text `T` whose length `L` is no multiple of 4 and below `8 * 2 ^ 31`,
held at an address that `Base64Decode` sends to the fast decoder, and whose
first `4 * (L / 4)` characters are alphabet characters, `Base64Decode` returns
`true`; the output is `decodeQuads` of those first characters and has
`3 * (L / 4)` bytes; it is the same whatever bytes stand in the last `L % 4`
places; it is what `Base64Decode` gives on the first `4 * (L / 4)` characters
alone; and it is empty when `L` is 1, 2 or 3.  The bound on `L` is the range
in which `int loops = length / 8` holds the quotient: `L / 8 < 2 ^ 31`. -/
theorem decode_ignores_length_remainder_on_fast_path (addr : Nat) (T out0 : List Nat)
    (haddr : addr &&& 2 = 0) (hL : T.length % 4 ≠ 0) (hlt : T.length < 8 * 2 ^ 31)
    (hv : ∀ c ∈ T.take (4 * (T.length / 4)), isAlpha c = true) :
    T.length / 8 < 2 ^ 31 ∧
    Base64Decode addr T T.length out0
      = .ok (true, decodeQuads (T.take (4 * (T.length / 4)))) ∧
    (decodeQuads (T.take (4 * (T.length / 4)))).length = 3 * (T.length / 4) ∧
    (∀ R : List Nat, R.length = T.length % 4 →
      Base64Decode addr (T.take (4 * (T.length / 4)) ++ R) T.length out0
        = .ok (true, decodeQuads (T.take (4 * (T.length / 4))))) ∧
    (4 ≤ T.length →
      Base64Decode addr (T.take (4 * (T.length / 4))) (4 * (T.length / 4)) out0
        = .ok (true, decodeQuads (T.take (4 * (T.length / 4))))) ∧
    (T.length < 4 → Base64Decode addr T T.length out0 = .ok (true, [])) := by
  have hlen : (T.take (4 * (T.length / 4))).length = 4 * (T.length / 4) := by
    rw [List.length_take]; omega
  have main : ∀ R : List Nat, R.length = T.length % 4 →
      Base64Decode addr (T.take (4 * (T.length / 4)) ++ R) T.length out0
        = .ok (true, decodeQuads (T.take (4 * (T.length / 4)))) := by
    intro R hR
    have h := Base64DecodeFastPath_remainder (T.take (4 * (T.length / 4))) R out0
      (by omega) (by omega) (by omega) hv
    rw [List.length_append, hlen, hR, show 4 * (T.length / 4) + T.length % 4 = T.length by omega]
      at h
    rw [Base64Decode_of_aligned addr haddr]
    exact h
  have first : Base64Decode addr T T.length out0
      = .ok (true, decodeQuads (T.take (4 * (T.length / 4)))) := by
    have h := main (T.drop (4 * (T.length / 4))) (by rw [List.length_drop]; omega)
    rw [List.take_append_drop] at h
    exact h
  refine ⟨by omega, first, decodeQuads_length _ _ hlen, main, ?_, ?_⟩
  · intro h4
    have hne : T.take (4 * (T.length / 4)) ≠ [] := by
      intro h0
      rw [h0] at hlen
      simp only [List.length_nil] at hlen
      omega
    have h := Base64DecodeFastPath_unpadded (T.take (4 * (T.length / 4))) out0 hne
      (by omega) hv
    rw [hlen] at h
    rw [Base64Decode_of_aligned addr haddr]
    exact h
  · intro h3
    rw [first, show T.length / 4 = 0 by omega]
    rfl

theorem decode_ignores_length_remainder_on_fast_path_witness :
    Base64Decode 0 (ascii "QUJDRE") (ascii "QUJDRE").length [7]
      = .ok (true, decodeQuads ((ascii "QUJDRE").take (4 * ((ascii "QUJDRE").length / 4)))) ∧
    decodeQuads ((ascii "QUJDRE").take (4 * ((ascii "QUJDRE").length / 4))) = ascii "ABC" :=
  ⟨(decode_ignores_length_remainder_on_fast_path 0 (ascii "QUJDRE") [7] (by decide)
    (by decide) (by decide) (by decide)).2.1, by decide⟩

/-- C18 (a zero-length encode fails `assert(length > 0)` at every residue,
before the output string is resized or written): for every address, input
and output string, `Base64Encode` with `length = 0` ends in the failed
assertion.  The assertion is the first statement that can fail; the result
carries no output string, none having been made by `resize` or a write. -/
theorem zero_length_encode_fails_assertion (addr : Nat) (input output : List Nat) :
    Base64Encode addr input 0 output = .error .assertion := by
  rw [Base64Encode]
  rfl

/-- C19 (termination; each loop runs at most `length / 12`, `length / 3`,
`length / 8` iterations).  The bound fails in `Base64Encode` at residue 1 on a
length below 3.  With `length = 1` the bound `length / 12` is 0 iterations,
and at residue 0 the loop is not entered: the result is "QQ==".  At residue 1
the prologue has encoded `input[0..2]`, `length -= 3` has wrapped to
`2 ^ 64 - 2`, and `Base64EncodingFastPath` is entered with that length: its
counter, the `int` of `(2 ^ 64 - 2) / 12`, is `0x55555555`, which is positive.
Whatever positive counter the loop is started with, its first iteration
stores outside the 4 bytes of the output string; so does the run of
`Base64Encode`.  The same holds for `length = 2`. -/
theorem encoder_loop_exceeds_its_bound_at_residue_1 :
    1 / 12 = 0 ∧ ENCODE_SIZE 1 = 4 ∧
    Base64Encode 0 (List.replicate 40 65) 1 [] = .ok (ascii "QQ==") ∧
    Base64Encode 1 (List.replicate 40 65) 1 []
      = Base64EncodingFastPath (List.replicate 37 65) (2 ^ 64 - 2) (ascii "QUFB") 4 ∧
    (2 ^ 64 - 2) / 12 % 2 ^ 32 = 0x55555555 ∧ 0 < 0x55555555 ∧ 0x55555555 < 2 ^ 31 ∧
    (∀ n, 0 < n →
      fastEncodeLoop n (List.replicate 37 65) (ascii "QUFB") 4 = .error .outputWrite) ∧
    fastEncodeLoop 0 (List.replicate 37 65) (ascii "QUFB") 4
      = .ok (List.replicate 37 65, ascii "QUFB", 4) ∧
    Base64Encode 1 (List.replicate 40 65) 1 [] = .error .outputWrite ∧
    Base64Encode 1 (List.replicate 40 65) 2 [] = .error .outputWrite := by
  refine ⟨by decide, by decide, by decide, by decide, by decide, by decide, by decide, ?_,
    by decide, by decide, by decide⟩
  intro n hn
  obtain ⟨k, rfl⟩ : ∃ k, n = k + 1 := ⟨n - 1, by omega⟩
  rw [fastEncodeLoop_succ,
    show fastEncodeBody (List.replicate 37 65) (ascii "QUFB") 4 = .error .outputWrite
      by decide]
  rfl

/-- C20 (`Base64Decode` takes the fast decoder exactly at residue 0 and the
slow decoder with shift `r` at each residue `r` in 1..3), evaluated at the
addresses 1 and 3.  At address 1 the text "QUJDREVGR0hJ" gets the result of
the fast decoder, `true`, where the slow decoder with shift 1 gives `false`.
At address 3 the text "AA!!AAAAAAAA" gets the result of the slow decoder
with shift 2, `true`, where shift 3 gives `false`: the dispatcher tests
`addr & 2`, which is 0 or 2. -/
theorem decode_dispatch_tests_bit_1_only :
    Base64Decode 1 (ascii "QUJDREVGR0hJ") 12 [] = .ok (true, ascii "ABCDEFGHI") ∧
    Base64DecodeFastPath (ascii "QUJDREVGR0hJ") 12 [] = .ok (true, ascii "ABCDEFGHI") ∧
    Base64DecodeSlowPath 1 (ascii "QUJDREVGR0hJ") 12 [] =
      .ok (false, [0, 0, 0, 0, 0, 0, 0, 0, 0]) ∧
    Base64Decode 3 (ascii "AA!!AAAAAAAA") 12 [] =
      .ok (true, [0, 0, 255, 252, 0, 0, 0, 0, 0]) ∧
    Base64DecodeSlowPath 2 (ascii "AA!!AAAAAAAA") 12 [] =
      .ok (true, [0, 0, 255, 252, 0, 0, 0, 0, 0]) ∧
    Base64DecodeSlowPath 3 (ascii "AA!!AAAAAAAA") 12 [] =
      .ok (false, [0, 0, 0, 0, 0, 0, 0, 0, 0]) := by
  decide

/-- C21 (`Base64Decode` switches on `address & 2`, which is 0 or 2, so the
slow decoder is only ever called with shift 2): for every input address the
value `addr & 2` is 0 or 2, never 1 or 3, and `Base64Decode` is
`Base64DecodeFastPath` in the first case and `Base64DecodeSlowPath` with
shift 2 in the second. -/
theorem slow_decoder_is_called_with_shift_2_only (addr : Nat) (input : List Nat)
    (length : Nat) (output : List Nat) :
    (addr &&& 2 = 0 ∨ addr &&& 2 = 2) ∧ addr &&& 2 ≠ 1 ∧ addr &&& 2 ≠ 3 ∧
    ((addr &&& 2 = 0 ∧
        Base64Decode addr input length output = Base64DecodeFastPath input length output) ∨
      (addr &&& 2 = 2 ∧
        Base64Decode addr input length output
          = Base64DecodeSlowPath 2 input length output)) := by
  rcases and_2_cases addr with h | h
  · exact ⟨Or.inl h, by omega, by omega,
      Or.inl ⟨h, Base64Decode_of_aligned addr h input length output⟩⟩
  · exact ⟨Or.inr h, by omega, by omega,
      Or.inr ⟨h, Base64Decode_of_unaligned addr h input length output⟩⟩

/-- C22 (dispatch of `Base64Encode` by residue, and the address the fast
encoder receives), for every input of positive `length`.  At residue 0 the
result is that of `Base64EncodingFastPath` on the whole input.  At residue 1
it is `ENCODE_UNIT` on `input[0..2]` followed by `Base64EncodingFastPath` on
`input + 3` (the list `input.drop 3`) with `length - 3`, and that pointer has
the address `addr + 3`, a multiple of 4.  At residues 2 and 3 it is that of
`Base64EncodingSlowPath`. -/
theorem encode_dispatch_by_residue (addr : Nat) (input : List Nat) (length : Nat)
    (output : List Nat) (hlen : 0 < length) :
    (addr % 4 = 0 →
      Base64Encode addr input length output
        = Base64EncodingFastPath input length (resize output (ENCODE_SIZE length)) 0) ∧
    (addr % 4 = 1 →
      (addr + 3) % 4 = 0 ∧
      Base64Encode addr input length output
        = (load input 0).bind (fun x0 => (load input 1).bind (fun x1 => (load input 2).bind
            (fun x2 => (ENCODE_UNIT x0 x1 x2 (resize output (ENCODE_SIZE length)) 0 0).bind
              (fun out => Base64EncodingFastPath (input.drop 3)
                ((length + 2 ^ 64 - 3) % 2 ^ 64) out 4))))) ∧
    (addr % 4 = 2 ∨ addr % 4 = 3 →
      Base64Encode addr input length output = Base64EncodingSlowPath input length output) := by
  have hassert : assert (decide (length > 0)) = .ok () := by simp [assert, hlen]
  refine ⟨?_, ?_, ?_⟩
  · intro h
    rw [Base64Encode, and_3, h, hassert, ok_bind]
  · intro h
    refine ⟨by omega, ?_⟩
    rw [Base64Encode, and_3, h, hassert, ok_bind]
    rfl
  · intro h
    rcases h with h | h
    · rw [Base64Encode, and_3, h, hassert, ok_bind]
    · rw [Base64Encode, and_3, h, hassert, ok_bind]

theorem encode_dispatch_by_residue_witness :
    Base64Encode 7 (ascii "Hi") 2 [] = Base64EncodingSlowPath (ascii "Hi") 2 [] ∧
    ((5 + 3) % 4 = 0 ∧
      Base64Encode 5 (ascii "Hello") 5 []
        = (load (ascii "Hello") 0).bind (fun x0 => (load (ascii "Hello") 1).bind
            (fun x1 => (load (ascii "Hello") 2).bind
              (fun x2 => (ENCODE_UNIT x0 x1 x2 (resize [] (ENCODE_SIZE 5)) 0 0).bind
                (fun out => Base64EncodingFastPath ((ascii "Hello").drop 3)
                  ((5 + 2 ^ 64 - 3) % 2 ^ 64) out 4))))) :=
  ⟨(encode_dispatch_by_residue 7 (ascii "Hi") 2 [] (by decide)).2.2 (by decide),
    (encode_dispatch_by_residue 5 (ascii "Hello") 5 [] (by decide)).2.1 (by decide)⟩

/-- C23 (one iteration of the 12-byte loop of the fast encoder), for every
twelve bytes `x0`..`x11` and every output string with 16 bytes `blk` at the
offset of `output`.  The iteration replaces `blk` by the reference encodings
of `(x0,x1,x2)`, `(x3,x4,x5)`, `(x6,x7,x8)`, `(x9,x10,x11)`, in that order,
16 characters, and leaves the rest of the string as it was.  It is the
sequence `fastEncodeStores` of sixteen assignments, whose offsets are a
permutation of 0..15: each position is written once.  The loop goes on with
`input + 12` and `output + 16`. -/
theorem fast_encoder_block_is_reference_encoding
    (x0 x1 x2 x3 x4 x5 x6 x7 x8 x9 x10 x11 : Nat)
    (h0 : x0 < 256) (h1 : x1 < 256) (h2 : x2 < 256) (h3 : x3 < 256) (h4 : x4 < 256)
    (h5 : x5 < 256) (h6 : x6 < 256) (h7 : x7 < 256) (h8 : x8 < 256) (h9 : x9 < 256)
    (h10 : x10 < 256) (h11 : x11 < 256) (rest pre blk post : List Nat)
    (hblk : blk.length = 16) (n : Nat) :
    fastEncodeBody (x0 :: x1 :: x2 :: x3 :: x4 :: x5 :: x6 :: x7 :: x8 :: x9 :: x10 :: x11 :: rest)
        (pre ++ blk ++ post) pre.length
      = .ok (pre ++ (rfc4648Encode [x0, x1, x2] ++ rfc4648Encode [x3, x4, x5] ++
          rfc4648Encode [x6, x7, x8] ++ rfc4648Encode [x9, x10, x11]) ++ post) ∧
    (rfc4648Encode [x0, x1, x2] ++ rfc4648Encode [x3, x4, x5] ++
      rfc4648Encode [x6, x7, x8] ++ rfc4648Encode [x9, x10, x11]).length = 16 ∧
    fastEncodeBody (x0 :: x1 :: x2 :: x3 :: x4 :: x5 :: x6 :: x7 :: x8 :: x9 :: x10 :: x11 :: rest)
        (pre ++ blk ++ post) pre.length
      = (fastEncodeStores (ucharToInt x0) (ucharToInt x1) (ucharToInt x2) (ucharToInt x3)
          (ucharToInt x4) (ucharToInt x5) (ucharToInt x6) (ucharToInt x7) (ucharToInt x8)
          (ucharToInt x9) (ucharToInt x10) (ucharToInt x11)).foldlM (storeChar pre.length)
          (pre ++ blk ++ post) ∧
    ((fastEncodeStores (ucharToInt x0) (ucharToInt x1) (ucharToInt x2) (ucharToInt x3)
      (ucharToInt x4) (ucharToInt x5) (ucharToInt x6) (ucharToInt x7) (ucharToInt x8)
      (ucharToInt x9) (ucharToInt x10) (ucharToInt x11)).map Prod.fst).Perm (List.range 16) ∧
    fastEncodeLoop (n + 1)
        (x0 :: x1 :: x2 :: x3 :: x4 :: x5 :: x6 :: x7 :: x8 :: x9 :: x10 :: x11 :: rest)
        (pre ++ blk ++ post) pre.length
      = fastEncodeLoop n rest
          (pre ++ (rfc4648Encode [x0, x1, x2] ++ rfc4648Encode [x3, x4, x5] ++
            rfc4648Encode [x6, x7, x8] ++ rfc4648Encode [x9, x10, x11]) ++ post)
          (pre.length + 16) := by
  rcases blk with _ | ⟨y0, _ | ⟨y1, _ | ⟨y2, _ | ⟨y3, _ | ⟨y4, _ | ⟨y5, _ | ⟨y6, _ | ⟨y7,
    _ | ⟨y8, _ | ⟨y9, _ | ⟨y10, _ | ⟨y11, _ | ⟨y12, _ | ⟨y13, _ | ⟨y14, _ | ⟨y15,
    _ | ⟨y16, blk⟩⟩⟩⟩⟩⟩⟩⟩⟩⟩⟩⟩⟩⟩⟩⟩⟩ <;>
    simp only [List.length_cons, List.length_nil] at hblk <;> try omega
  have body := fastEncodeBody_bytes x0 x1 x2 x3 x4 x5 x6 x7 x8 x9 x10 x11 h0 h1 h2 h3 h4 h5
    h6 h7 h8 h9 h10 h11 rest pre post y0 y1 y2 y3 y4 y5 y6 y7 y8 y9 y10 y11 y12 y13 y14 y15
  have groups : rfc4648Encode [x0, x1, x2, x3, x4, x5, x6, x7, x8, x9, x10, x11]
      = rfc4648Encode [x0, x1, x2] ++ rfc4648Encode [x3, x4, x5] ++
        rfc4648Encode [x6, x7, x8] ++ rfc4648Encode [x9, x10, x11] := by
    simp [rfc4648Encode]
  rw [groups] at body
  refine ⟨body, by simp [rfc4648Encode], fastEncodeBody_eq_stores _ _ _ _ _ _ _ _ _ _ _ _ _ _ _,
    fastEncodeStores_offsets _ _ _ _ _ _ _ _ _ _ _ _, ?_⟩
  rw [fastEncodeLoop_succ, body]
  rfl

theorem fast_encoder_block_is_reference_encoding_witness :
    fastEncodeBody (ascii "Hello, world") (List.replicate 16 0) 0
      = .ok (ascii "SGVsbG8sIHdvcmxk") :=
  (fast_encoder_block_is_reference_encoding 'H'.toNat 'e'.toNat 'l'.toNat 'l'.toNat 'o'.toNat
    ','.toNat ' '.toNat 'w'.toNat 'o'.toNat 'r'.toNat 'l'.toNat 'd'.toNat
    (by decide) (by decide) (by decide) (by decide) (by decide) (by decide) (by decide)
    (by decide) (by decide) (by decide) (by decide) (by decide)
    [] [] (List.replicate 16 0) [] (by decide) 0).1

/-- C25 (the combined validity test).  For all byte values `b1`..`b4`,
`CHAR_INVALID` is true exactly when one of them is 128 or more.  In the loop
of the fast decoder, for eight characters with the table values `v0`..`v7`
and six bytes of output left, the body returns `false` exactly when one of
`v0`..`v7` is 128 or more; the loop then returns `false` at once, and goes on
with the next eight characters otherwise. -/
theorem validity_test_is_high_bit_test (b1 b2 b3 b4 : Nat) (h1 : b1 < 256) (h2 : b2 < 256)
    (h3 : b3 < 256) (h4 : b4 < 256)
    (c0 c1 c2 c3 c4 c5 c6 c7 v0 v1 v2 v3 v4 v5 v6 v7 : Nat) (rest out : List Nat) (op n : Nat)
    (d0 : decodeChar c0 = .ok v0) (d1 : decodeChar c1 = .ok v1) (d2 : decodeChar c2 = .ok v2)
    (d3 : decodeChar c3 = .ok v3) (d4 : decodeChar c4 = .ok v4) (d5 : decodeChar c5 = .ok v5)
    (d6 : decodeChar c6 = .ok v6) (d7 : decodeChar c7 = .ok v7) (hop : op + 6 ≤ out.length) :
    (CHAR_INVALID b1 b2 b3 b4 = true ↔ 128 ≤ b1 ∨ 128 ≤ b2 ∨ 128 ≤ b3 ∨ 128 ≤ b4) ∧
    ((∃ o, fastDecodeBody (c0 :: c1 :: c2 :: c3 :: c4 :: c5 :: c6 :: c7 :: rest) out op
        = .ok (false, o)) ↔
      128 ≤ v0 ∨ 128 ≤ v1 ∨ 128 ≤ v2 ∨ 128 ≤ v3 ∨ 128 ≤ v4 ∨ 128 ≤ v5 ∨ 128 ≤ v6 ∨ 128 ≤ v7) ∧
    (128 ≤ v0 ∨ 128 ≤ v1 ∨ 128 ≤ v2 ∨ 128 ≤ v3 ∨ 128 ≤ v4 ∨ 128 ≤ v5 ∨ 128 ≤ v6 ∨ 128 ≤ v7 →
      fastDecodeLoop (n + 1) (c0 :: c1 :: c2 :: c3 :: c4 :: c5 :: c6 :: c7 :: rest) out op
        = .ok (false, c0 :: c1 :: c2 :: c3 :: c4 :: c5 :: c6 :: c7 :: rest, out, op)) ∧
    (¬ (128 ≤ v0 ∨ 128 ≤ v1 ∨ 128 ≤ v2 ∨ 128 ≤ v3 ∨ 128 ≤ v4 ∨ 128 ≤ v5 ∨ 128 ≤ v6 ∨
        128 ≤ v7) →
      ∃ o, fastDecodeBody (c0 :: c1 :: c2 :: c3 :: c4 :: c5 :: c6 :: c7 :: rest) out op
          = .ok (true, o) ∧
        fastDecodeLoop (n + 1) (c0 :: c1 :: c2 :: c3 :: c4 :: c5 :: c6 :: c7 :: rest) out op
          = fastDecodeLoop n rest o (op + 6)) := by
  have i1 := CHAR_INVALID_iff v0 v1 v2 v3 (decodeChar_lt _ _ d0) (decodeChar_lt _ _ d1)
    (decodeChar_lt _ _ d2) (decodeChar_lt _ _ d3)
  have i2 := CHAR_INVALID_iff v4 v5 v6 v7 (decodeChar_lt _ _ d4) (decodeChar_lt _ _ d5)
    (decodeChar_lt _ _ d6) (decodeChar_lt _ _ d7)
  have hi : (CHAR_INVALID v0 v1 v2 v3 || CHAR_INVALID v4 v5 v6 v7) = true ↔
      128 ≤ v0 ∨ 128 ≤ v1 ∨ 128 ≤ v2 ∨ 128 ≤ v3 ∨ 128 ≤ v4 ∨ 128 ≤ v5 ∨ 128 ≤ v6 ∨
        128 ≤ v7 := by
    rw [Bool.or_eq_true, i1, i2]
    simp only [or_assoc]
  obtain ⟨o, ebody, hsame⟩ := fastDecodeBody_flag c0 c1 c2 c3 c4 c5 c6 c7 v0 v1 v2 v3 v4 v5 v6
    v7 rest out op d0 d1 d2 d3 d4 d5 d6 d7 hop
  refine ⟨CHAR_INVALID_iff b1 b2 b3 b4 h1 h2 h3 h4, ?_, ?_, ?_⟩
  · rw [← hi, ebody]
    constructor
    · rintro ⟨o1, h⟩
      cases hc : (CHAR_INVALID v0 v1 v2 v3 || CHAR_INVALID v4 v5 v6 v7)
      · rw [hc] at h; cases h
      · rfl
    · intro hc
      exact ⟨o, by rw [hc]; rfl⟩
  · intro hv
    have hc := hi.mpr hv
    rw [fastDecodeLoop_succ, ebody, hc, hsame hc]
    rfl
  · intro hv
    have hc : (CHAR_INVALID v0 v1 v2 v3 || CHAR_INVALID v4 v5 v6 v7) = false := by
      cases hc : (CHAR_INVALID v0 v1 v2 v3 || CHAR_INVALID v4 v5 v6 v7)
      · rfl
      · exact absurd (hi.mp hc) hv
    refine ⟨o, by rw [ebody, hc]; rfl, ?_⟩
    rw [fastDecodeLoop_succ, ebody, hc]
    rfl

theorem validity_test_is_high_bit_test_witness :
    (CHAR_INVALID 0 63 255 7 = true ↔ 128 ≤ 0 ∨ 128 ≤ 63 ∨ 128 ≤ 255 ∨ 128 ≤ 7) ∧
    fastDecodeLoop (0 + 1) (ascii "QUJD!EVGAAAA") [9, 9, 9, 9, 9, 9, 9, 9, 9] 0
      = .ok (false, ascii "QUJD!EVGAAAA", [9, 9, 9, 9, 9, 9, 9, 9, 9], 0) :=
  have h := validity_test_is_high_bit_test 0 63 255 7 (by decide) (by decide) (by decide)
    (by decide)
    'Q'.toNat 'U'.toNat 'J'.toNat 'D'.toNat '!'.toNat 'E'.toNat 'V'.toNat 'G'.toNat
    16 20 9 3 255 4 21 6 (ascii "AAAA") [9, 9, 9, 9, 9, 9, 9, 9, 9] 0 0
    (by decide) (by decide) (by decide) (by decide) (by decide) (by decide) (by decide)
    (by decide) (by decide)
  ⟨h.1, h.2.2.1 (by decide)⟩

/-- C26 (for each shift the slow decoder loop assembles `b1`..`b8` as the
table values of `c0`..`c7` in that order), evaluated at the group "A!CD!FGH",
whose table values in order are 0, 255, 2, 3, 255, 5, 6, 7, and which passes
the validity tests of all three loops.  With shift 1 the six bytes written are
those of the values in order.  With shift 2 they are those of the values of
`c0 c1 c6 c2 c3 c4 c5 c7`, with shift 3 those of `c0 c5 c6 c1 c2 c3 c4 c7`.
`Base64Decode` at the address 2 returns the bytes of shift 2. -/
theorem slow_decoder_assembles_groups_out_of_order :
    [sextet 'A'.toNat, sextet '!'.toNat, sextet 'C'.toNat, sextet 'D'.toNat,
      sextet '!'.toNat, sextet 'F'.toNat, sextet 'G'.toNat, sextet 'H'.toNat]
      = [0, 255, 2, 3, 255, 5, 6, 7] ∧
    DECODE_OCTGRP 0 255 2 3 255 5 6 7 [0, 0, 0, 0, 0, 0] 0 0
      = .ok [15, 240, 131, 252, 81, 135] ∧
    slowDecodeBody 1 (ascii "A!CD!FGH") [0, 0, 0, 0, 0, 0] 0
      = .ok (true, [15, 240, 131, 252, 81, 135]) ∧
    slowDecodeBody 2 (ascii "A!CD!FGH") [0, 0, 0, 0, 0, 0] 0
      = .ok (true, [15, 241, 130, 15, 241, 71]) ∧
    DECODE_OCTGRP 0 255 6 2 3 255 5 7 [0, 0, 0, 0, 0, 0] 0 0
      = .ok [15, 241, 130, 15, 241, 71] ∧
    slowDecodeBody 3 (ascii "A!CD!FGH") [0, 0, 0, 0, 0, 0] 0
      = .ok (true, [0, 81, 255, 8, 63, 199]) ∧
    DECODE_OCTGRP 0 5 6 255 2 3 255 7 [0, 0, 0, 0, 0, 0] 0 0
      = .ok [0, 81, 255, 8, 63, 199] ∧
    Base64Decode 2 (ascii "A!CD!FGHAAAA") 12 []
      = .ok (true, [15, 241, 130, 15, 241, 71, 0, 0, 0]) := by
  decide

/-- C27 (in the slow decoder a half-group causes a failure return exactly
when one of its values has the high bit set, and four valid characters never
do), evaluated at the address 2.  The valid text "SGVsbG8h" is rejected in
the 8-character tail, where the fast decoder gives "Hello!".  In
"!!!!!!!!AAAA" both halves of the first eight characters are invalid and the
loop goes on: the result is `true`, where the fast decoder returns
`false`. -/
theorem slow_decoder_validity_test_is_inverted :
    Base64Decode 2 (ascii "SGVsbG8h") 8 [] = .ok (false, [0, 0, 0, 0, 0, 0]) ∧
    Base64Decode 0 (ascii "SGVsbG8h") 8 [] = .ok (true, ascii "Hello!") ∧
    Base64Decode 2 (ascii "!!!!!!!!AAAA") 12 []
      = .ok (true, [255, 255, 255, 255, 255, 255, 0, 0, 0]) ∧
    Base64Decode 0 (ascii "!!!!!!!!AAAA") 12 [] = .ok (false, [0, 0, 0, 0, 0, 0, 0, 0, 0]) := by
  decide

/-- C28 (the 8-character tail of the slow decoder decodes `c0..c3` into the
bytes 0..2 and applies the final decode to `c4..c7`, as the fast decoder
does), evaluated at the address 2.  "QUJDQUI=" decodes to "ABCAB" on the fast
path and is rejected on the slow path.  "AA==QUJD" is accepted on the slow
path with the four bytes `00 3F FF 00`, the same as "AA==!!!!": the final
decode runs on `c0..c3` again and `c4..c7` are not read; the fast path
rejects the text. -/
theorem slow_decoder_tail_decodes_first_group_twice :
    Base64Decode 0 (ascii "QUJDQUI=") 8 [] = .ok (true, ascii "ABCAB") ∧
    Base64Decode 2 (ascii "QUJDQUI=") 8 [] = .ok (false, [0, 0, 0, 0, 0, 0]) ∧
    Base64Decode 2 (ascii "AA==QUJD") 8 [] = .ok (true, [0, 63, 255, 0]) ∧
    Base64Decode 2 (ascii "AA==!!!!") 8 [] = .ok (true, [0, 63, 255, 0]) ∧
    Base64Decode 0 (ascii "AA==QUJD") 8 [] = .ok (false, [0, 0, 0, 0, 0, 0]) := by
  decide

/-- C29 (on the fast path `Base64Decode` returns success exactly on the texts
of alphabet characters with at most `=` in the last two places, for every
text), evaluated at the texts `41 41 41 FF` and `41 FF 41 41 41 41 41 41`
held at the address 0: the byte 0xFF is no alphabet character, and the lookup
`kB64DecodeChar[0xFF]` is outside the 255 entries of the table, in the final
group and in the loop alike; the function does not return `false`. -/
theorem fast_decoder_reads_outside_table_on_byte_255 :
    Base64Decode 0 [0x41, 0x41, 0x41, 0xFF] 4 [] = .error .decodeTable ∧
    Base64Decode 0 [0x41, 0xFF, 0x41, 0x41, 0x41, 0x41, 0x41, 0x41, 0x41, 0x41, 0x41, 0x41]
      12 [] = .error .decodeTable ∧
    kB64DecodeChar[0xFF]? = none ∧ kB64DecodeChar.length = 255 ∧
    Base64Decode 0 [0x41, 0x41, 0x41, 0xFE] 4 [] = .ok (false, [0, 0, 0]) := by
  decide

/-- C30 (round trip on 7-bit data): for every non-empty sequence `B` of fewer
than `3 * 2 ^ 31` bytes, all below 0x80, encoded at an address of residue 0, 2
or 3, the text that `Base64Encode` produces, held at an address that
`Base64Decode` sends to the fast decoder, is decoded to exactly `B`, whatever
the two output strings held before.  The bound on the length is the range in
which the `int` counters hold their quotients: `length / 3` and `length / 12`
of the encoder and `length / 8` of the decoder are below `2 ^ 31`. -/
theorem roundtrip_on_7bit_data_through_fast_decoder (ea da : Nat) (B out0 out1 : List Nat)
    (hne : B ≠ []) (hb : ∀ b ∈ B, b < 128) (hlt : B.length < 3 * 2 ^ 31)
    (hres : ea % 4 = 0 ∨ ea % 4 = 2 ∨ ea % 4 = 3) (hda : da &&& 2 = 0) :
    ∃ T, Base64Encode ea B B.length out0 = .ok T ∧
      Base64Decode da T T.length out1 = .ok (true, B) ∧
      B.length / 3 < 2 ^ 31 ∧ B.length / 12 < 2 ^ 31 ∧ T.length / 8 < 2 ^ 31 :=
  ⟨rfc4648Encode B, Base64Encode_ascii_of_residue ea B out0 hne hb (by omega),
    Base64Decode_canonical_of_aligned da hda B hne
      (fun b h => Nat.lt_trans (hb b h) (by decide)) out1,
    by omega, by omega, by rw [rfc4648Encode_length, ENCODE_SIZE]; omega⟩

theorem roundtrip_on_7bit_data_through_fast_decoder_witness :
    ∃ T, Base64Encode 3 (ascii "Hello, world!") (ascii "Hello, world!").length [] = .ok T ∧
      Base64Decode 4 T T.length [1, 2, 3] = .ok (true, ascii "Hello, world!") ∧
      (ascii "Hello, world!").length / 3 < 2 ^ 31 ∧
      (ascii "Hello, world!").length / 12 < 2 ^ 31 ∧ T.length / 8 < 2 ^ 31 :=
  roundtrip_on_7bit_data_through_fast_decoder 3 4 (ascii "Hello, world!") [] [1, 2, 3]
    (by decide) (by decide) (by decide) (by decide) (by decide)

/-- C31 (`Base64Decode` accepts non-canonical text and is not injective on
the texts it accepts): at every address, and whatever the output string held
before, "QR==" and "QQ==" both decode to the one byte 0x41; the two texts
differ, and `Base64Encode` of that byte, at the residues 0, 2 and 3, is
"QQ==", not "QR==".  The reason, for every final group `c0 c1 = =` of
alphabet characters: the byte is made of the value of `c0` and the high two
bits of the value of `c1`, and the low four bits of `c1` are not looked
at. -/
theorem decode_accepts_non_canonical_text (addr a : Nat) (out0 out1 : List Nat) :
    Base64Decode addr (ascii "QR==") 4 out0 = .ok (true, [0x41]) ∧
    Base64Decode addr (ascii "QQ==") 4 out0 = .ok (true, [0x41]) ∧
    ascii "QR==" ≠ ascii "QQ==" ∧
    Base64Encode (4 * a) [0x41] 1 out1 = .ok (ascii "QQ==") ∧
    Base64Encode (4 * a + 2) [0x41] 1 out1 = .ok (ascii "QQ==") ∧
    Base64Encode (4 * a + 3) [0x41] 1 out1 = .ok (ascii "QQ==") ∧
    (∀ c0 c1 d1 : Nat, isAlpha c0 = true → isAlpha c1 = true → isAlpha d1 = true →
      sextet c1 >>> 4 = sextet d1 >>> 4 →
      Base64Decode addr [c0, c1, '='.toNat, '='.toNat] 4 out0
        = .ok (true, [toByte ((sextet c0 <<< 2) ||| (sextet c1 >>> 4))]) ∧
      Base64Decode addr [c0, d1, '='.toNat, '='.toNat] 4 out0
        = Base64Decode addr [c0, c1, '='.toNat, '='.toNat] 4 out0) := by
  have gen : ∀ c0 c1 : Nat, isAlpha c0 = true → isAlpha c1 = true →
      Base64Decode addr [c0, c1, '='.toNat, '='.toNat] 4 out0
        = .ok (true, [toByte ((sextet c0 <<< 2) ||| (sextet c1 >>> 4))]) := by
    intro c0 c1 a0 a1
    obtain ⟨x0, x1, x2, e⟩ := split_tail3 (resize out0 3) 0 (by rw [resize_length])
    rw [List.take_zero, List.nil_append] at e
    have f := FINALIZE_DECODE_final c0 c1 '='.toNat '='.toNat [] [] x0 x1 x2 0 0 rfl a0 a1
      (Or.inr rfl) (Or.inr rfl)
    rw [Base64Decode_four, e]
    exact f
  refine ⟨gen 'Q'.toNat 'R'.toNat (by decide) (by decide),
    gen 'Q'.toNat 'Q'.toNat (by decide) (by decide), by decide,
    Base64Encode_ascii_of_residue (4 * a) [0x41] out1 (by decide) (by decide) (by omega),
    Base64Encode_ascii_of_residue (4 * a + 2) [0x41] out1 (by decide) (by decide) (by omega),
    Base64Encode_ascii_of_residue (4 * a + 3) [0x41] out1 (by decide) (by decide) (by omega),
    ?_⟩
  intro c0 c1 d1 a0 a1 b1 hs
  refine ⟨gen c0 c1 a0 a1, ?_⟩
  rw [gen c0 c1 a0 a1, gen c0 d1 a0 b1, hs]

/-- C32 (the reverse table inverts the forward table).  The forward table
has 64 entries, pairwise distinct, and for every index `i` in 0..63 the entry
of `kB64DecodeChar` for the character `kB64EncodeChar[i]` is `i`.  Every entry
of `kB64DecodeChar` is a value in 0..63 or 255.  The padding marker 67 has bit
7 clear and is no entry of the table. -/
theorem reverse_table_inverts_forward_table :
    kB64EncodeChar.length = 64 ∧
    (∀ i : Fin 64, (encodeChar i.val >>= decodeChar) = .ok i.val) ∧
    (∀ i : Fin 64, kB64EncodeChar[i.val]?.bind (fun c => kB64DecodeChar[c.toNat]?)
      = some i.val) ∧
    kB64EncodeChar.Nodup ∧
    (∀ v ∈ kB64DecodeChar, v < 64 ∨ v = 255) ∧
    (67 : Nat) &&& 128 = 0 ∧ CHAR_INVALID 67 67 67 67 = false ∧
    67 ∉ kB64DecodeChar := by
  decide

end Base64
